import Mathlib

/-!
# Verification of the py-drive-client core

This file gives a shallow embedding of the core of `py_drive_client.py`
(the authoritative module of the repository; `client.py` is an earlier
iteration of the same logic) and proves properties of the embedded
functions.

Modelling conventions:
* A Google Drive object (`pydrive.files.GoogleDriveFile`) is a record with
  its backend `id` (modelled as a `Nat`), `title`, `mimeType`, list of
  parent references, `trashed` flag and opaque byte `content`.
* The parent reference `'root'` is modelled as `none : Option Nat`; a
  reference to object with id `k` is `some k`.
* The drive is a `DriveState`: the list of all objects in backend order
  (queries return matches in this order; `CreateFile`+`Upload` appends)
  together with the next fresh id.
* `drive.ListFile({'q': "'P' in parents and title='T' and trashed=false"})`
  is modelled structurally by `listFile s P (some T)`; omitting the title
  filter is `listFile s P none`.
* Python `sys.exit(1)` and uncaught exceptions (`IndexError` from `[0]` on
  an empty result) are modelled with `Except`; the error value carries the
  state at the moment of the abort, since remote/local mutations performed
  before the abort persist.
* The local filesystem is a flat list of (path, node) entries, where a path
  is its list of components (the embedding of the Python string
  `f"{local_path}/{item}"` is `localPath ++ [item]`); the entry order
  models `os.listdir` enumeration order.
* Drive paths stay Python strings: `path.split('/')`, the initial-slash
  strip, `os.path.basename` and `os.path.dirname` (POSIX semantics) are
  embedded on `String.data`.
-/

set_option maxRecDepth 4000

namespace PyDrive

/-! ## Python string/path helpers -/

/-- `str.split(sep)` for a single-character separator, Python semantics:
`''.split('/') = ['']`, `'a//b'.split('/') = ['a','','b']`. -/
def pySplitAux (sep : Char) : List Char → List Char → List String
  | acc, [] => [String.mk acc.reverse]
  | acc, c :: cs =>
    if c = sep then String.mk acc.reverse :: pySplitAux sep [] cs
    else pySplitAux sep (c :: acc) cs

/-- Python `s.split(sep)` for a one-character `sep`. -/
def pySplit (s : String) (sep : Char) : List String :=
  pySplitAux sep [] s.data

/-- `path[1:] if path and path[0] == '/' else path` — strip one leading slash. -/
def cleanInitialSlash (path : String) : String :=
  if path.data.head? = some '/' then String.mk path.data.tail else path

/-- `os.path.basename` (POSIX): the part after the last `'/'`. -/
def pyBasename (p : String) : String :=
  String.mk ((p.data.reverse.takeWhile (fun c => c ≠ '/')).reverse)

/-- `os.path.dirname` (POSIX): everything up to the last `'/'`, with
trailing slashes stripped unless the result consists only of slashes. -/
def pyDirname (p : String) : String :=
  let head := (p.data.reverse.dropWhile (fun c => c ≠ '/')).reverse
  if head = [] then ""
  else if head.all (fun c => c = '/') then String.mk head
  else String.mk (head.reverse.dropWhile (fun c => c = '/')).reverse

/-! ## Drive data model -/

/-- mimeType marking a Drive folder (`_is_drive_dir` tests equality with it). -/
def folderMime : String := "application/vnd.google-apps.folder"

/-- Default (non-folder) mimeType given to uploaded file objects. -/
def octetMime : String := "application/octet-stream"

/-- One remote Drive object. -/
structure DriveObject where
  id : Nat
  title : String
  mimeType : String
  parents : List (Option Nat)
  trashed : Bool
  content : List Nat
deriving Repr, DecidableEq

/-- The whole remote drive: all objects in backend listing order, plus the
next id the backend will assign. -/
structure DriveState where
  objects : List DriveObject
  nextId : Nat
deriving Repr, DecidableEq

/-- Whether an object matches the query `'parent' in parents [and title='t']
and trashed=false`. -/
def matchesQuery (parent : Option Nat) (title : Option String) (o : DriveObject) : Bool :=
  o.parents.contains parent && !o.trashed &&
    (match title with
     | none => true
     | some t => o.title == t)

/-- `drive.ListFile({'q': ...}).GetList()` for a parent/title query. -/
def listFile (s : DriveState) (parent : Option Nat) (title : Option String) : List DriveObject :=
  s.objects.filter (matchesQuery parent title)

/-- `_is_drive_dir`: the object's mimeType equals the folder mimeType. -/
def isDriveDir (o : DriveObject) : Bool :=
  o.mimeType == folderMime

/-! ## The path resolver `_get_drive_object` -/

/-- The resolver loop of `_get_drive_object` for the segments after the
first: at the start of each iteration, if the running result is empty the
function returns `[]`; otherwise it queries the children of the *first*
element of the running result that carry the segment as title. -/
def walkFrom (s : DriveState) : List DriveObject → List String → List DriveObject
  | objs, [] => objs
  | objs, name :: rest =>
    match objs with
    | [] => []
    | first :: _ => walkFrom s (listFile s (some first.id) (some name)) rest

/-- `_get_drive_object(drive, path)`: strip one leading `/`; if the rest is
empty, list the root's children; otherwise split on `/` and walk the
segments, starting with a root-parented query for the first segment. -/
def getDriveObject (s : DriveState) (path : String) : List DriveObject :=
  let p := cleanInitialSlash path
  if p = "" then listFile s none none
  else
    match pySplit p '/' with
    | [] => []
    | name :: rest => walkFrom s (listFile s none (some name)) rest

/-- One backend query: the parent filter and the optional title filter. -/
structure DriveQuery where
  parent : Option Nat
  title : Option String
deriving Repr, DecidableEq

/-- The trace of backend queries issued by the `walkFrom` loop. -/
def walkFromQueries (s : DriveState) : List DriveObject → List String → List DriveQuery
  | _, [] => []
  | objs, name :: rest =>
    match objs with
    | [] => []
    | first :: _ =>
      ⟨some first.id, some name⟩ :: walkFromQueries s (listFile s (some first.id) (some name)) rest

/-- The trace of backend queries issued by `_get_drive_object(drive, path)`,
in order. -/
def getDriveObjectQueries (s : DriveState) (path : String) : List DriveQuery :=
  let p := cleanInitialSlash path
  if p = "" then [⟨none, none⟩]
  else
    match pySplit p '/' with
    | [] => []
    | name :: rest => ⟨none, some name⟩ :: walkFromQueries s (listFile s none (some name)) rest

/-- `_path_exist_in_drive`: the resolver returns a non-empty list. -/
def pathExistInDrive (s : DriveState) (path : String) : Bool :=
  !(getDriveObject s path).isEmpty

/-! ## `get_drive_objects` (public listing) -/

/-- `get_drive_objects(drive, path)`: for `'/'` delegate to the resolver
(root listing); otherwise resolve, and if the first resolved object is a
directory return its children, else return the resolved list itself. -/
def getDriveObjects (s : DriveState) (path : String) : List DriveObject :=
  if path = "/" then getDriveObject s path
  else
    match getDriveObject s path with
    | [] => []
    | first :: rest =>
      if isDriveDir first then listFile s (some first.id) none
      else first :: rest

/-- `get_drive_object_names`. -/
def getDriveObjectNames (s : DriveState) (path : String) : List String :=
  (getDriveObjects s path).map (fun o => o.title)

/-! ## `_create_drive_path` -/

/-- `drive.CreateFile({'parents': [{'id': pid}], 'title': t, 'mimeType':
folder}).Upload()`: append a fresh folder object. -/
def createFolder (s : DriveState) (parent : Option Nat) (title : String) : DriveState :=
  { objects := s.objects ++
      [{ id := s.nextId, title := title, mimeType := folderMime,
         parents := [parent], trashed := false, content := [] }],
    nextId := s.nextId + 1 }

/-- `drive.CreateFile({'parents': [{'id': pid}], 'title': t})` followed by
`SetContentFile`/`Upload`: append a fresh non-folder object with content. -/
def createFile (s : DriveState) (parent : Option Nat) (title : String)
    (content : List Nat) : DriveState :=
  { objects := s.objects ++
      [{ id := s.nextId, title := title, mimeType := octetMime,
         parents := [parent], trashed := false, content := content }],
    nextId := s.nextId + 1 }

/-- `path_id = 'root' if path_built == '' else
_get_drive_object(drive, path_built)[0]['id']`; `none` on the outside models
the `IndexError` when the resolution is empty. -/
def pathIdOf (s : DriveState) (pathBuilt : String) : Option (Option Nat) :=
  if pathBuilt = "" then some none
  else
    match getDriveObject s pathBuilt with
    | [] => none
    | o :: _ => some (some o.id)

/-- The `for path_name in tree` loop of `_create_drive_path`. The `Nat`
counts folder creations; `.error s` models the uncaught `IndexError`
(state `s` at the moment of the crash). -/
def createLoop (s : DriveState) (driveObjects : List DriveObject) (pathBuilt : String)
    (created : Nat) : List String → Except DriveState (DriveState × Nat)
  | [] => .ok (s, created)
  | seg :: rest =>
    if seg ∈ driveObjects.map (fun o => o.title) then
      let pb := pathBuilt ++ "/" ++ seg
      createLoop s (getDriveObjects s pb) pb created rest
    else
      match pathIdOf s pathBuilt with
      | none => .error s
      | some pid =>
        let s2 := createFolder s pid seg
        let pb := pathBuilt ++ "/" ++ seg
        createLoop s2 (getDriveObjects s2 pb) pb (created + 1) rest

/-- `_create_drive_path(drive, path)`: no-op when the path already exists,
otherwise walk the segments creating the missing folders. Returns the new
state and the number of folders created. -/
def createDrivePath (s : DriveState) (path : String) : Except DriveState (DriveState × Nat) :=
  if pathExistInDrive s path then .ok (s, 0)
  else
    let p := cleanInitialSlash path
    createLoop s (getDriveObject s "/") "" 0 (pySplit p '/')

/-! ## Local filesystem model -/

/-- A local filesystem node: a file with byte content, or a directory. -/
inductive FSNode
  | file (content : List Nat)
  | dir
deriving Repr, DecidableEq

/-- The local filesystem: the current working directory (for the `'.'`
special case and for `GetContentFile`'s temporary download target) and the
entries, each an absolute path (list of components) with its node. Entry
order models `os.listdir` enumeration order. -/
structure LocalFS where
  cwd : List String
  entries : List (List String × FSNode)
deriving Repr, DecidableEq

def lookupFS (fs : LocalFS) (p : List String) : Option FSNode :=
  (fs.entries.find? (fun e => e.1 = p)).map (fun e => e.2)

/-- `os.path.exists`. -/
def osExists (fs : LocalFS) (p : List String) : Bool :=
  (lookupFS fs p).isSome

/-- `os.path.isfile`. -/
def osIsFile (fs : LocalFS) (p : List String) : Bool :=
  match lookupFS fs p with
  | some (.file _) => true
  | _ => false

/-- `os.path.isdir`. -/
def osIsDir (fs : LocalFS) (p : List String) : Bool :=
  match lookupFS fs p with
  | some .dir => true
  | _ => false

/-- `os.listdir`: the names of the direct children of `p`, in entry order. -/
def osListdir (fs : LocalFS) (p : List String) : List String :=
  fs.entries.filterMap (fun e =>
    if e.1.dropLast = p ∧ e.1 ≠ [] then e.1.getLast? else none)

/-- The content of the file at `p`, if any (used by `SetContentFile`). -/
def readFileContent (fs : LocalFS) (p : List String) : Option (List Nat) :=
  match lookupFS fs p with
  | some (.file c) => some c
  | _ => none

/-- The nonempty prefixes of a path, shortest first. -/
def pathAncestors (p : List String) : List (List String) :=
  (List.range p.length).map (fun i => p.take (i + 1))

/-- The directory-creating sweep of `os.makedirs`: create every missing
nonempty prefix as a directory, failing on a prefix that exists as a file. -/
def makedirsGo (fs : LocalFS) : List (List String) → Except Unit LocalFS
  | [] => .ok fs
  | q :: qs =>
    match lookupFS fs q with
    | some .dir => makedirsGo fs qs
    | some (.file _) => .error ()
    | none => makedirsGo { fs with entries := fs.entries ++ [(q, .dir)] } qs

/-- `_create_local_path`: `os.makedirs(p)` guarded by `os.path.exists`
(`os.makedirs('')` raises `FileNotFoundError`, hence the error on the empty
path). -/
def createLocalPath (fs : LocalFS) (p : List String) : Except Unit LocalFS :=
  if osExists fs p then .ok fs
  else if p = [] then .error ()
  else makedirsGo fs (pathAncestors p)

/-- Replace the node stored at `p`, keeping the entry's position. -/
def replaceEntry : List (List String × FSNode) → List String → FSNode →
    List (List String × FSNode)
  | [], _, _ => []
  | e :: es, p, n => if e.1 = p then (p, n) :: es else e :: replaceEntry es p n

def removeEntry (entries : List (List String × FSNode)) (p : List String) :
    List (List String × FSNode) :=
  entries.filter (fun e => e.1 ≠ p)

/-- Write a file at `p` (the target of `GetContentFile`): overwrite an
existing file in place, append a new entry when the parent directory
exists; fail when `p` is a directory or the parent is missing. -/
def writeFileAt (fs : LocalFS) (p : List String) (content : List Nat) :
    Except Unit LocalFS :=
  match lookupFS fs p with
  | some .dir => .error ()
  | some (.file _) => .ok { fs with entries := replaceEntry fs.entries p (.file content) }
  | none =>
    if osIsDir fs p.dropLast then .ok { fs with entries := fs.entries ++ [(p, .file content)] }
    else .error ()

/-- `shutil.move(src, dst)` in the configurations this client reaches:
rename onto itself is a no-op; otherwise the source entry is removed and its
node placed at `dst` (overwriting an existing file in place; appended when
`dst` is new, which requires the destination parent to be a directory —
`shutil.move` raises `NotADirectoryError`/`FileNotFoundError` otherwise).
Moving onto an existing directory is modelled as an error (the client never
does it: every destination was checked fresh). -/
def shutilMove (fs : LocalFS) (src dst : List String) : Except Unit LocalFS :=
  if src = dst then (if osExists fs src then .ok fs else .error ())
  else
    match lookupFS fs src with
    | none => .error ()
    | some n =>
      let rest := removeEntry fs.entries src
      match lookupFS fs dst with
      | some .dir => .error ()
      | some (.file _) => .ok { fs with entries := replaceEntry rest dst n }
      | none =>
        if osIsDir fs dst.dropLast ∨ dst.dropLast = [] then
          .ok { fs with entries := rest ++ [(dst, n)] }
        else .error ()

/-! ## Upload, download, remove -/

deriving instance DecidableEq for Except

/-- The abort causes: the `sys.exit(1)` messages of the source, plus
`indexErr` for an uncaught `IndexError` from `[0]`, `fsErr` for a local
OS failure, and `fuel` for recursion-fuel exhaustion of the embedding. -/
inductive PyErr
  | localNotExists
  | driveAlreadyExists
  | localNotFileOrDir
  | localAlreadyExists
  | driveNotExists
  | indexErr
  | fsErr
  | fuel
deriving Repr, DecidableEq

/-- The pending work of the upload recursion: either one
`upload_objects_to_drive(local_path, drive_path, create_directories)` call,
or the remaining `for item in os.listdir(local_path)` loop of a directory
branch. -/
inductive UpTask
  | one (localPath : List String) (drivePath : String) (createDirectories : Bool)
  | many (localPath : List String) (drivePath : String) (items : List String)
deriving Repr, DecidableEq

/-- The recursion of `upload_objects_to_drive`, structurally on fuel (an
embedding artifact: the Python recursion terminates on the finite local
tree, and any terminating run is reproduced by a large enough fuel).
The error value carries the remote state at the moment of the abort; the
local filesystem is only read. The `.many` arms are the
`for item in os.listdir(local_path)` loop: child files are recursed with
`create_directories=False`, child directories with the default `True`,
anything else is skipped. -/
def uploadGo (fs : LocalFS) : Nat → DriveState → UpTask →
    Except (PyErr × DriveState) DriveState
  | 0, s, _ => .error (.fuel, s)
  | fuel + 1, s, .one localPath drivePath createDirectories =>
    if ¬ osExists fs localPath then .error (.localNotExists, s)
    else if pathExistInDrive s drivePath then .error (.driveAlreadyExists, s)
    else
      let baseName := pyBasename drivePath
      let pathName := pyDirname drivePath
      if osIsFile fs localPath then
        match (if createDirectories then createDrivePath s pathName else .ok (s, 0)) with
        | .error s2 => .error (.indexErr, s2)
        | .ok (s2, _) =>
          match getDriveObject s2 pathName with
          | [] => .error (.indexErr, s2)
          | pobj :: _ =>
            match readFileContent fs localPath with
            | none => .error (.fsErr, s2)
            | some content => .ok (createFile s2 (some pobj.id) baseName content)
      else if osIsDir fs localPath then
        match createDrivePath s drivePath with
        | .error s2 => .error (.indexErr, s2)
        | .ok (s2, _) =>
          match getDriveObject s2 pathName with
          | [] => .error (.indexErr, s2)
          | _ :: _ => uploadGo fs fuel s2 (.many localPath drivePath (osListdir fs localPath))
      else .error (.localNotFileOrDir, s)
  | _ + 1, s, .many _ _ [] => .ok s
  | fuel + 1, s, .many localPath drivePath (item :: rest) =>
    let itemPath := localPath ++ [item]
    let dpath := drivePath ++ "/" ++ item
    if osIsFile fs itemPath then
      match uploadGo fs fuel s (.one itemPath dpath false) with
      | .error e => .error e
      | .ok s2 => uploadGo fs fuel s2 (.many localPath drivePath rest)
    else if osIsDir fs itemPath then
      match uploadGo fs fuel s (.one itemPath dpath true) with
      | .error e => .error e
      | .ok s2 => uploadGo fs fuel s2 (.many localPath drivePath rest)
    else uploadGo fs fuel s (.many localPath drivePath rest)

/-- `upload_objects_to_drive(drive, local_path, drive_path,
create_directories)`. -/
def uploadObjectsToDrive (fs : LocalFS) (fuel : Nat) (s : DriveState)
    (localPath : List String) (drivePath : String) (createDirectories : Bool) :
    Except (PyErr × DriveState) DriveState :=
  uploadGo fs fuel s (.one localPath drivePath createDirectories)

/-- The `for item in os.listdir(local_path)` loop of the directory branch. -/
def uploadChildren (fs : LocalFS) (fuel : Nat) (s : DriveState)
    (localPath : List String) (drivePath : String) (items : List String) :
    Except (PyErr × DriveState) DriveState :=
  uploadGo fs fuel s (.many localPath drivePath items)

/-- The pending work of the download recursion: one
`download_drive_objects(drive_path, local_path, check_remote_exist)` call,
or the remaining `for _object in drive_objects` loop of a folder branch. -/
inductive DownTask
  | one (drivePath : String) (localPath : List String) (checkRemoteExist : Bool)
  | many (drivePath : String) (localPath : List String) (objs : List DriveObject)
deriving Repr, DecidableEq

/-- The recursion of `download_drive_objects`, structurally on fuel. The
encoding of the Python strings `'.'` and `'./'` as a component list is
`["."]`. The drive is only read; the error value carries the local
filesystem at the moment of the abort. The `.many` arms are the loop over
the children of a folder: every child is recursed with
`check_remote_exist=False` (the source's `if`/`else` arms are identical and
both kept). -/
def downloadGo (s : DriveState) : Nat → LocalFS → DownTask →
    Except (PyErr × LocalFS) LocalFS
  | 0, fs, _ => .error (.fuel, fs)
  | fuel + 1, fs, .one drivePath localPath checkRemoteExist =>
    let lp := if localPath = ["."] then fs.cwd ++ [pyBasename drivePath] else localPath
    if osExists fs lp then .error (.localAlreadyExists, fs)
    else if checkRemoteExist ∧ ¬ pathExistInDrive s drivePath then .error (.driveNotExists, fs)
    else
      match getDriveObject s drivePath with
      | [] => .error (.indexErr, fs)
      | driveObject :: _ =>
        if isDriveDir driveObject then
          match createLocalPath fs lp with
          | .error _ => .error (.fsErr, fs)
          | .ok fs1 => downloadGo s fuel fs1 (.many drivePath lp (getDriveObjects s drivePath))
        else
          let fileBaseName := pyBasename drivePath
          match writeFileAt fs (fs.cwd ++ [fileBaseName]) driveObject.content with
          | .error _ => .error (.fsErr, fs)
          | .ok fs1 =>
            match createLocalPath fs1 lp.dropLast with
            | .error _ => .error (.fsErr, fs1)
            | .ok fs2 =>
              match shutilMove fs2 (fs.cwd ++ [fileBaseName]) lp with
              | .error _ => .error (.fsErr, fs2)
              | .ok fs3 => .ok fs3
  | _ + 1, fs, .many _ _ [] => .ok fs
  | fuel + 1, fs, .many drivePath localPath (o :: rest) =>
    let r :=
      if isDriveDir o then
        downloadGo s fuel fs (.one (drivePath ++ "/" ++ o.title) (localPath ++ [o.title]) false)
      else
        downloadGo s fuel fs (.one (drivePath ++ "/" ++ o.title) (localPath ++ [o.title]) false)
    match r with
    | .error e => .error e
    | .ok fs1 => downloadGo s fuel fs1 (.many drivePath localPath rest)

/-- `download_drive_objects(drive, drive_path, local_path,
check_remote_exist)`. -/
def downloadDriveObjects (s : DriveState) (fuel : Nat) (fs : LocalFS)
    (drivePath : String) (localPath : List String) (checkRemoteExist : Bool) :
    Except (PyErr × LocalFS) LocalFS :=
  downloadGo s fuel fs (.one drivePath localPath checkRemoteExist)

/-- The `for _object in drive_objects` loop of the folder branch. -/
def downloadChildren (s : DriveState) (fuel : Nat) (fs : LocalFS)
    (drivePath : String) (localPath : List String) (objs : List DriveObject) :
    Except (PyErr × LocalFS) LocalFS :=
  downloadGo s fuel fs (.many drivePath localPath objs)

/-- `file.Trash()`: set the trashed flag of the object with the given id. -/
def trashObject (s : DriveState) (objId : Nat) : DriveState :=
  { s with objects := s.objects.map (fun o =>
      if o.id = objId then { o with trashed := true } else o) }

/-- `file.Delete()`: remove the object with the given id. -/
def deleteObject (s : DriveState) (objId : Nat) : DriveState :=
  { s with objects := s.objects.filter (fun o => o.id ≠ objId) }

/-- The outcome reported by `remove_drive_objects`. -/
inductive RemoveResult
  | removed
  | notFound
deriving Repr, DecidableEq

/-- `remove_drive_objects(drive, drive_path, trash)`: when the path exists,
trash or delete the first resolved object; otherwise log an error and
return normally (there is no `sys.exit` in this function). -/
def removeDriveObjects (s : DriveState) (drivePath : String) (trash : Bool) :
    DriveState × RemoveResult :=
  if pathExistInDrive s drivePath then
    match getDriveObject s drivePath with
    | [] => (s, .notFound)
    | obj :: _ =>
      ((if trash then trashObject s obj.id else deleteObject s obj.id), .removed)
  else (s, .notFound)

/-! ## Well-formedness of states -/

/-- Every object id is below the backend's next fresh id. -/
def idsBelow (s : DriveState) : Prop :=
  ∀ o ∈ s.objects, o.id < s.nextId

/-- Object ids are pairwise distinct. -/
def idsNodup (s : DriveState) : Prop :=
  (s.objects.map (fun o => o.id)).Nodup

/-- A parent reference is the root or the id of a folder object present in
the state (files have no children; dangling parents do not occur). -/
def parentOk (s : DriveState) (pid : Option Nat) : Prop :=
  match pid with
  | none => True
  | some q => ∃ f ∈ s.objects, f.id = q ∧ f.mimeType = folderMime

instance (s : DriveState) (pid : Option Nat) : Decidable (parentOk s pid) :=
  match pid with
  | none => isTrue trivial
  | some q =>
    inferInstanceAs (Decidable (∃ f ∈ s.objects, f.id = q ∧ f.mimeType = folderMime))

/-- Well-formed drive states: what the real backend guarantees. -/
def WFState (s : DriveState) : Prop :=
  idsBelow s ∧ idsNodup s ∧ ∀ o ∈ s.objects, ∀ pid ∈ o.parents, parentOk s pid

instance (s : DriveState) : Decidable (idsBelow s) :=
  inferInstanceAs (Decidable (∀ o ∈ s.objects, o.id < s.nextId))

instance (s : DriveState) : Decidable (idsNodup s) := by
  unfold idsNodup
  infer_instance

instance (s : DriveState) : Decidable (WFState s) :=
  inferInstanceAs (Decidable (idsBelow s ∧ idsNodup s ∧
    ∀ o ∈ s.objects, ∀ pid ∈ o.parents, parentOk s pid))

/-- Path components produced by a real local filesystem: nonempty and free
of the separator. -/
def goodName (n : String) : Prop :=
  n ≠ "" ∧ '/' ∉ n.data

/-- Well-formed local filesystems: distinct entry paths, every entry's
proper ancestors present as directories, components are real file names,
and the working directory is an existing directory. -/
def WFLocal (fs : LocalFS) : Prop :=
  (fs.entries.map (fun e => e.1)).Nodup ∧
  (∀ e ∈ fs.entries, e.1 ≠ [] ∧ (∀ n ∈ e.1, goodName n) ∧
    (e.1.dropLast = [] ∨ lookupFS fs e.1.dropLast = some .dir)) ∧
  lookupFS fs fs.cwd = some .dir ∧ fs.cwd ≠ [] ∧ ∀ n ∈ fs.cwd, goodName n

instance (n : String) : Decidable (goodName n) :=
  inferInstanceAs (Decidable (n ≠ "" ∧ '/' ∉ n.data))

instance (fs : LocalFS) : Decidable (WFLocal fs) := by
  unfold WFLocal
  infer_instance

/-! ## Concrete states used by witnesses and counterexamples -/

/-- A drive holding a single root folder `a` (id 0). -/
def stA : DriveState :=
  { objects := [{ id := 0, title := "a", mimeType := folderMime,
                  parents := [none], trashed := false, content := [] }],
    nextId := 1 }

/-- Two sibling folders both titled `x` (ids 0 and 1) under the root, and a
folder `y` (id 2) under the first one. -/
def stXY : DriveState :=
  { objects := [
      { id := 0, title := "x", mimeType := folderMime,
        parents := [none], trashed := false, content := [] },
      { id := 1, title := "x", mimeType := folderMime,
        parents := [none], trashed := false, content := [] },
      { id := 2, title := "y", mimeType := folderMime,
        parents := [some 0], trashed := false, content := [] }],
    nextId := 3 }

/-- Two files both titled `f` (ids 0 and 1) under the root. -/
def stDup : DriveState :=
  { objects := [
      { id := 0, title := "f", mimeType := "text/plain",
        parents := [none], trashed := false, content := [1] },
      { id := 1, title := "f", mimeType := "text/plain",
        parents := [none], trashed := false, content := [2] }],
    nextId := 2 }

/-- A drive holding a single root folder `z` with id 5. -/
def stZ : DriveState :=
  { objects := [{ id := 5, title := "z", mimeType := folderMime,
                  parents := [none], trashed := false, content := [] }],
    nextId := 6 }

/-- A local filesystem with working directory `/tmp` and a single root-level
file `g` of content `[9]`. -/
def fsG : LocalFS :=
  { cwd := ["tmp"],
    entries := [(["tmp"], .dir), (["g"], .file [9])] }

/-- A local filesystem with a directory `home/aa` holding file `f1`
and subdirectory `sub` with file `f2`. -/
def fsAA : LocalFS :=
  { cwd := ["tmp"],
    entries := [(["tmp"], .dir), (["home"], .dir), (["home", "aa"], .dir),
      (["home", "aa", "f1"], .file [1, 2]), (["home", "aa", "sub"], .dir),
      (["home", "aa", "sub", "f2"], .file [3])] }

/-- The empty drive. -/
def stEmpty : DriveState := { objects := [], nextId := 0 }

/-- A drive holding a single root folder `b` (id 0) — the `//a`
counterexample state for path-creation idempotence. -/
def stB : DriveState :=
  { objects := [{ id := 0, title := "b", mimeType := folderMime,
                  parents := [none], trashed := false, content := [] }],
    nextId := 1 }

/-- `stB` after `_create_drive_path(stB, "//a")`: a folder titled `""` at
the root and a folder `a` under `b`. -/
def stB1 : DriveState :=
  { objects := [{ id := 0, title := "b", mimeType := folderMime,
                  parents := [none], trashed := false, content := [] },
                { id := 1, title := "", mimeType := folderMime,
                  parents := [none], trashed := false, content := [] },
                { id := 2, title := "a", mimeType := folderMime,
                  parents := [some 0], trashed := false, content := [] }],
    nextId := 3 }

/-- `stB1` after a second `_create_drive_path(·, "//a")`: one more folder
`a` under `b`. -/
def stB2 : DriveState :=
  { objects := [{ id := 0, title := "b", mimeType := folderMime,
                  parents := [none], trashed := false, content := [] },
                { id := 1, title := "", mimeType := folderMime,
                  parents := [none], trashed := false, content := [] },
                { id := 2, title := "a", mimeType := folderMime,
                  parents := [some 0], trashed := false, content := [] },
                { id := 3, title := "a", mimeType := folderMime,
                  parents := [some 0], trashed := false, content := [] }],
    nextId := 4 }

/-- The empty drive after `_create_drive_path(stEmpty, "/a/b")`. -/
def stAB : DriveState :=
  { objects := [{ id := 0, title := "a", mimeType := folderMime,
                  parents := [none], trashed := false, content := [] },
                { id := 1, title := "b", mimeType := folderMime,
                  parents := [some 0], trashed := false, content := [] }],
    nextId := 2 }

/-- The drive after the round-trip witness upload
`upload(home/aa, "/a/b")` on the empty drive. -/
def s1W : DriveState :=
  { objects := [
      { id := 0, title := "a", mimeType := folderMime,
        parents := [none], trashed := false, content := [] },
      { id := 1, title := "b", mimeType := folderMime,
        parents := [some 0], trashed := false, content := [] },
      { id := 2, title := "f1", mimeType := octetMime,
        parents := [some 1], trashed := false, content := [1, 2] },
      { id := 3, title := "sub", mimeType := folderMime,
        parents := [some 1], trashed := false, content := [] },
      { id := 4, title := "f2", mimeType := octetMime,
        parents := [some 3], trashed := false, content := [3] }],
    nextId := 5 }

/-- The local filesystem after the round-trip witness download
`download("/a/b", out)` of `s1W` into `fsAA`. -/
def fs2W : LocalFS :=
  { cwd := ["tmp"],
    entries := [(["tmp"], .dir), (["home"], .dir), (["home", "aa"], .dir),
      (["home", "aa", "f1"], .file [1, 2]), (["home", "aa", "sub"], .dir),
      (["home", "aa", "sub", "f2"], .file [3]),
      (["out"], .dir), (["out", "f1"], .file [1, 2]),
      (["out", "sub"], .dir), (["out", "sub", "f2"], .file [3])] }

/-- The drive after `upload(home/aa, "/a/")` on the empty drive: the
trailing slash makes the chain end in a folder titled `""` (id 1), while
`f1` is parented under `a` (id 0) because `dirname("/a//f1") = "/a"`. -/
def sCX : DriveState :=
  { objects := [
      { id := 0, title := "a", mimeType := folderMime,
        parents := [none], trashed := false, content := [] },
      { id := 1, title := "", mimeType := folderMime,
        parents := [some 0], trashed := false, content := [] },
      { id := 2, title := "f1", mimeType := octetMime,
        parents := [some 0], trashed := false, content := [1, 2] },
      { id := 3, title := "sub", mimeType := folderMime,
        parents := [some 1], trashed := false, content := [] },
      { id := 4, title := "f2", mimeType := octetMime,
        parents := [some 3], trashed := false, content := [3] }],
    nextId := 5 }

/-- The local filesystem after `download("/a/", out)` of `sCX` into `fsAA`:
the download resolves `"/a/"` to the `""`-titled folder, so `f1` is
missing from the copy. -/
def fsCX : LocalFS :=
  { cwd := ["tmp"],
    entries := [(["tmp"], .dir), (["home"], .dir), (["home", "aa"], .dir),
      (["home", "aa", "f1"], .file [1, 2]), (["home", "aa", "sub"], .dir),
      (["home", "aa", "sub", "f2"], .file [3]),
      (["out"], .dir), (["out", "sub"], .dir),
      (["out", "sub", "f2"], .file [3])] }

/-! ## Derived notions used by the proofs -/

/-- The resolver expressed over a nonempty list of segments (the `[]` case
is never reached: `pySplit` never returns `[]`). -/
def walkRootSegs (s : DriveState) : List String → List DriveObject
  | [] => []
  | n :: rest => walkFrom s (listFile s none (some n)) rest

/-- The relation between a `path_built` string of `_create_drive_path` and
the segments consumed so far. -/
def PathFacts (pb : String) (done : List String) : Prop :=
  cleanInitialSlash pb ≠ "" ∧ pySplit (cleanInitialSlash pb) '/' = done

/-- `s'` extends `s` by appended objects (every backend mutation of this
client appends). -/
def Appended (s s' : DriveState) : Prop :=
  ∃ tail, s'.objects = s.objects ++ tail ∧ s.nextId ≤ s'.nextId

/-- Parent references stay below the fresh-id counter. -/
def parentsBelow (s : DriveState) : Prop :=
  ∀ o ∈ s.objects, ∀ pid ∈ o.parents, ∀ q, pid = some q → q < s.nextId

/-- The id bookkeeping preserved by the creation operations. -/
def BelowOk (s : DriveState) : Prop :=
  idsBelow s ∧ parentsBelow s

/-- A path all of whose slash-split segments are nonempty (no consecutive,
trailing, or doubled leading slashes). -/
def PathOk (path : String) : Prop :=
  ∀ seg ∈ pySplit (cleanInitialSlash path) '/', seg ≠ ""

instance (path : String) : Decidable (PathOk path) :=
  inferInstanceAs (Decidable (∀ seg ∈ pySplit (cleanInitialSlash path) '/', seg ≠ ""))

/-- The `path_built` accumulation of `_create_drive_path` over a list of
segments. -/
def extendPb (pb : String) (segs : List String) : String :=
  segs.foldl (fun a seg => a ++ "/" ++ seg) pb

/-- The folder object appended by `createFolder`. -/
def newFolderObj (s : DriveState) (parent : Option Nat) (title : String) : DriveObject :=
  { id := s.nextId, title := title, mimeType := folderMime,
    parents := [parent], trashed := false, content := [] }

/-- The file object appended by `createFile`. -/
def newFileObj (s : DriveState) (parent : Option Nat) (title : String)
    (content : List Nat) : DriveObject :=
  { id := s.nextId, title := title, mimeType := octetMime,
    parents := [parent], trashed := false, content := content }

/-- Descend from a remote object along a list of titles, stepping only
through folders with a *unique* child of the given title (any ambiguity or
absence yields `none`). -/
def remoteNodeAt (s : DriveState) (o : DriveObject) : List String → Option DriveObject
  | [] => some o
  | t :: rest =>
    if isDriveDir o then
      match listFile s (some o.id) (some t) with
      | [c] => remoteNodeAt s c rest
      | _ => none
    else none

/-- View a remote object as a local filesystem node. -/
def remoteAsFS : Option DriveObject → Option FSNode
  | none => none
  | some o => if isDriveDir o then some .dir else some (.file o.content)

/-- The remote subtree rooted at `F` mirrors the local subtree of `fs`
rooted at `base`: pointwise same kinds and contents, and each folder's
children carry exactly the local directory's names, in enumeration order. -/
def MirrorSubtree (s : DriveState) (F : DriveObject) (fs : LocalFS)
    (base : List String) : Prop :=
  ∀ rel : List String,
    remoteAsFS (remoteNodeAt s F rel) = lookupFS fs (base ++ rel) ∧
    (∀ o, remoteNodeAt s F rel = some o → isDriveDir o = true →
      (listFile s (some o.id) none).map (fun c => c.title) = osListdir fs (base ++ rel))

/-- The resolution chain of a segment list down to the object `F`, with a
*unique* match at every level: each segment's query returns exactly the one
chain object, every intermediate chain object is a folder, and intermediate
ids lie below `F.id` (chain folders are created in walk order, so ids grow
along the chain — the bound is what keeps later appends parented at or
above `F.id` from disturbing the chain queries). -/
def UniqueChain (s : DriveState) : Option Nat → List String → DriveObject → Prop
  | _, [], _ => False
  | pid, seg :: rest, F =>
    match rest with
    | [] => listFile s pid (some seg) = [F]
    | _ :: _ => ∃ Y, listFile s pid (some seg) = [Y] ∧ Y.mimeType = folderMime ∧
        Y.id < F.id ∧ UniqueChain s (some Y.id) rest F

/-- The resolution chain of a segment list down to the object `F`,
following only the *head* of each level's query (the resolver's first-match
policy): ambiguous levels are allowed. Each intermediate head is a folder,
except that the one distinguished (id, next-segment) pair `jp` may sit at a
non-folder head — the single place where `_create_drive_path`'s membership
check (which sees the resolved list rather than the children when the head
is not a folder) diverges from the walk and deposits stray folders. -/
def HeadChain (s : DriveState) (jp : Option (Nat × String)) :
    Option Nat → List String → DriveObject → Prop
  | _, [], _ => False
  | pid, seg :: rest, F =>
    match rest with
    | [] => (listFile s pid (some seg)).head? = some F
    | seg2 :: _ => ∃ Y, (listFile s pid (some seg)).head? = some Y ∧
        (Y.mimeType = folderMime ∨ jp = some (Y.id, seg2)) ∧
        HeadChain s jp (some Y.id) rest F

/-- The remote mutation footprint of one upload step under anchor id
`anchor`, allowing the stray folders of `_create_drive_path` at the one
junk pair `jp`: objects are only appended, and every appended object
carries a single parent reference — the anchor, a fresh id, or the junk
parent paired with the junk title. -/
def GrowthJ (s s' : DriveState) (anchor : Nat) (jp : Option (Nat × String)) : Prop :=
  ∃ tail, s'.objects = s.objects ++ tail ∧ s.nextId ≤ s'.nextId ∧
    ∀ o ∈ tail, ∃ q, o.parents = [some q] ∧
      (q = anchor ∨ s.nextId ≤ q ∨ jp = some (q, o.title))

/-- A growth consisting solely of stray folders at the junk pair `jp`. -/
def JunkOnly (s s' : DriveState) (jp : Option (Nat × String)) : Prop :=
  ∃ tail, s'.objects = s.objects ++ tail ∧ s.nextId ≤ s'.nextId ∧
    ∀ o ∈ tail, ∃ p t, jp = some (p, t) ∧ o.parents = [some p] ∧ o.title = t

/-- `p` lies in the subtree rooted at `base` (including `base` itself). -/
def Under (base p : List String) : Prop := ∃ r, p = base ++ r

/-- The remote mutation footprint of one upload step under anchor object id
`anchor`: objects are only appended, and every appended object carries a
single parent reference, either the anchor or a fresh id. -/
def ChildGrowth (s s' : DriveState) (anchor : Nat) : Prop :=
  ∃ tail, s'.objects = s.objects ++ tail ∧ s.nextId ≤ s'.nextId ∧
    ∀ o ∈ tail, ∃ q, o.parents = [some q] ∧ (q = anchor ∨ s.nextId ≤ q)

/-- Every object reachable from `c` by unique-child descent has its id in
`[lo, hi)`. -/
def SubtreeIn (s : DriveState) (c : DriveObject) (lo hi : Nat) : Prop :=
  ∀ rel o, remoteNodeAt s c rel = some o → lo ≤ o.id ∧ o.id < hi

/-- The invariant of the upload loop over a local directory's entries:
folder `F` holds exactly one child per processed name, in processing order,
each mirroring the corresponding local subtree, with subtree ids above
`F.id` and below the fresh-id counter. -/
def UpInv (s : DriveState) (F : DriveObject) (fs0 : LocalFS) (lp : List String)
    (names : List String) : Prop :=
  ∃ C, listFile s (some F.id) none = C ∧ C.map (fun o => o.title) = names ∧
    ∀ c ∈ C, MirrorSubtree s c fs0 (lp ++ [c.title]) ∧ SubtreeIn s c (F.id + 1) s.nextId

/-- The conclusions of one successful recursive upload call (`.one` task)
under anchor folder `F` with destination title `t`: the drive grows only by
the new subtree, `F` gains exactly one child, titled `t`, mirroring the
local subtree at `lp`, with all subtree ids strictly between `F.id` and the
new fresh-id counter. -/
def OneConc (fs0 : LocalFS) (s s' : DriveState) (F : DriveObject) (t : String)
    (lp : List String) (jp : Option (Nat × String)) : Prop :=
  GrowthJ s s' F.id jp ∧ BelowOk s' ∧
  ∃ G, listFile s' (some F.id) (some t) = [G] ∧ G.title = t ∧
    listFile s' (some F.id) none = listFile s (some F.id) none ++ [G] ∧
    MirrorSubtree s' G fs0 lp ∧ SubtreeIn s' G (F.id + 1) s'.nextId

/-- The local mutation footprint of one download step rooted at `lp`: a
changed path lies in the subtree of `lp`, or is a strict ancestor of `lp`
freshly created as a directory, or is the working-directory-level temporary
of `GetContentFile`, gone again after the move. -/
def LocalDelta (fs fs' : LocalFS) (lp : List String) : Prop :=
  ∀ q, lookupFS fs' q ≠ lookupFS fs q →
    Under lp q ∨
    (Under q lp ∧ q ≠ lp ∧ lookupFS fs q = none ∧ lookupFS fs' q = some .dir) ∨
    (∃ n, q = fs.cwd ++ [n] ∧ lookupFS fs' q = none ∧ lookupFS fs q ≠ some .dir)

/-- The invariant of the download loop over a folder's children: below the
local target `lp`, exactly the subtrees of the processed names have been
written, each agreeing pointwise with the original local tree `fs0` under
`base`. -/
def DownInv (fs fs0 : LocalFS) (lp base : List String) (names : List String) : Prop :=
  ∀ rel : List String, lookupFS fs (lp ++ rel) =
    match rel with
    | [] => some FSNode.dir
    | t :: _ => if t ∈ names then lookupFS fs0 (base ++ rel) else none

/-- The local-filesystem invariant maintained through a download: distinct
entry paths, nonempty paths whose parents are present directories, and the
working directory is an existing directory. -/
def FSInv (fs : LocalFS) : Prop :=
  (fs.entries.map (fun e => e.1)).Nodup ∧
  (∀ e ∈ fs.entries, e.1 ≠ [] ∧
    (e.1.dropLast = [] ∨ lookupFS fs e.1.dropLast = some .dir)) ∧
  lookupFS fs fs.cwd = some .dir

/-! ## Resolver lemmas -/

theorem walkFrom_nil_objs (s : DriveState) (segs : List String) :
    walkFrom s [] segs = [] := by
  cases segs <;> rfl

theorem walkFromQueries_nil_objs (s : DriveState) (segs : List String) :
    walkFromQueries s [] segs = [] := by
  cases segs <;> rfl

theorem walkFrom_append (s : DriveState) (segs1 segs2 : List String)
    (objs : List DriveObject) :
    walkFrom s objs (segs1 ++ segs2) = walkFrom s (walkFrom s objs segs1) segs2 := by
  induction segs1 generalizing objs with
  | nil => rfl
  | cons n r ih =>
    cases objs with
    | nil => simp [walkFrom, walkFrom_nil_objs]
    | cons f t => simpa [walkFrom] using ih (listFile s (some f.id) (some n))

theorem walkFromQueries_append_of_dead (s : DriveState) (segs1 segs2 : List String)
    (objs : List DriveObject) (h : walkFrom s objs segs1 = []) :
    walkFromQueries s objs (segs1 ++ segs2) = walkFromQueries s objs segs1 := by
  induction segs1 generalizing objs with
  | nil =>
    subst h
    simp [walkFromQueries, walkFromQueries_nil_objs]
  | cons n r ih =>
    cases objs with
    | nil => simp [walkFromQueries]
    | cons f t =>
      simp only [walkFrom] at h
      simpa [walkFromQueries] using ih (listFile s (some f.id) (some n)) h

theorem getDriveObject_eq_walk (s : DriveState) (path : String)
    (h1 : cleanInitialSlash path ≠ "") {n0 : String} {rest : List String}
    (h2 : pySplit (cleanInitialSlash path) '/' = n0 :: rest) :
    getDriveObject s path = walkFrom s (listFile s none (some n0)) rest := by
  unfold getDriveObject
  rw [if_neg h1, h2]

theorem getDriveObjectQueries_eq_walk (s : DriveState) (path : String)
    (h1 : cleanInitialSlash path ≠ "") {n0 : String} {rest : List String}
    (h2 : pySplit (cleanInitialSlash path) '/' = n0 :: rest) :
    getDriveObjectQueries s path =
      ⟨none, some n0⟩ :: walkFromQueries s (listFile s none (some n0)) rest := by
  unfold getDriveObjectQueries
  rw [if_neg h1, h2]

/-! ## C2: short-circuit of the resolver -/

/-- C2: for every path of two or more segments, if the running result set
after some non-final segment is empty, the resolver returns the empty
sequence and issues no backend query for any later segment: the query trace
of the full path equals the query trace of the failing prefix alone. -/
theorem resolver_short_circuits (s : DriveState) (path : String)
    (n0 : String) (r1 r2 : List String)
    (h1 : cleanInitialSlash path ≠ "")
    (h2 : pySplit (cleanInitialSlash path) '/' = n0 :: (r1 ++ r2))
    (_h3 : r2 ≠ [])
    (h4 : walkFrom s (listFile s none (some n0)) r1 = []) :
    getDriveObject s path = [] ∧
      getDriveObjectQueries s path =
        ⟨none, some n0⟩ :: walkFromQueries s (listFile s none (some n0)) r1 := by
  constructor
  · rw [getDriveObject_eq_walk s path h1 h2, walkFrom_append, h4, walkFrom_nil_objs]
  · rw [getDriveObjectQueries_eq_walk s path h1 h2,
      walkFromQueries_append_of_dead s r1 r2 _ h4]

/-- Witness for C2 at the spec's own example: `/a/b/c` where `/a` exists but
`/a/b` does not — resolution is empty and the only queries are for `a` and
`b`, never for `c`. -/
theorem resolver_short_circuits_witness :
    getDriveObject stA "/a/b/c" = [] ∧
      getDriveObjectQueries stA "/a/b/c" =
        ⟨none, some "a"⟩ :: walkFromQueries stA (listFile stA none (some "a")) ["b"] := by
  exact resolver_short_circuits stA "/a/b/c" "a" ["b"] ["c"]
    (by decide) (by decide) (by decide) (by decide)

/-! ## C3: first-match policy of the resolver -/

/-- C3: on a path of two or more segments whose first segment resolves to
the non-empty list `x :: t`, the walk continues only through the first
element `x`: the result equals the walk started from `[x]` alone, so all
same-named siblings in `t` are ignored, and the final result is the
sequence returned for the last segment under the first-matched parent
chain. -/
theorem resolver_first_match (s : DriveState) (path : String)
    (n0 : String) (rest : List String) (x : DriveObject) (t : List DriveObject)
    (h1 : cleanInitialSlash path ≠ "")
    (h2 : pySplit (cleanInitialSlash path) '/' = n0 :: rest)
    (h3 : rest ≠ [])
    (h4 : listFile s none (some n0) = x :: t) :
    getDriveObject s path = walkFrom s [x] rest := by
  rw [getDriveObject_eq_walk s path h1 h2, h4]
  cases rest with
  | nil => exact absurd rfl h3
  | cons n1 r => rfl

/-- Witness for C3 at the spec's own scenario: two sibling folders both
titled `x` under the root; `resolve("/x/y")` walks only through the first
and finds its child `y`. -/
theorem resolver_first_match_witness :
    getDriveObject stXY "/x/y" =
      walkFrom stXY [{ id := 0, title := "x", mimeType := folderMime,
                       parents := [none], trashed := false, content := [] }] ["y"] ∧
    getDriveObject stXY "/x/y" =
      [{ id := 2, title := "y", mimeType := folderMime,
         parents := [some 0], trashed := false, content := [] }] :=
  ⟨resolver_first_match stXY "/x/y" "x" ["y"]
      { id := 0, title := "x", mimeType := folderMime,
        parents := [none], trashed := false, content := [] }
      [{ id := 1, title := "x", mimeType := folderMime,
         parents := [none], trashed := false, content := [] }]
      (by decide) (by decide) (by decide) (by decide),
   by decide⟩

/-! ## C8: consecutive and trailing slashes -/

theorem pySplitAux_ne_nil (sep : Char) (acc cs : List Char) :
    pySplitAux sep acc cs ≠ [] := by
  induction cs generalizing acc with
  | nil => simp [pySplitAux]
  | cons c cs ih =>
    by_cases h : c = sep <;> simp [pySplitAux, h, ih]

theorem pySplitAux_append (l1 l2 : List Char) (acc : List Char) :
    pySplitAux '/' acc (l1 ++ '/' :: l2) =
      pySplitAux '/' acc l1 ++ pySplitAux '/' [] l2 := by
  induction l1 generalizing acc with
  | nil => simp [pySplitAux]
  | cons c cs ih =>
    by_cases h : c = '/' <;> simp [pySplitAux, h, ih]

theorem pySplit_append (a b : String) :
    pySplit (a ++ "/" ++ b) '/' = pySplit a '/' ++ pySplit b '/' := by
  have : (a ++ "/" ++ b).data = a.data ++ '/' :: b.data := by
    simp [String.data_append]
  simp [pySplit, this, pySplitAux_append]

theorem pySplit_append_slash (a : String) :
    pySplit (a ++ "/") '/' = pySplit a '/' ++ [""] := by
  have h := pySplit_append a ""
  simpa [pySplit, pySplitAux] using h

theorem data_eq_nil_iff (q : String) : q.data = [] ↔ q = "" := by
  constructor
  · intro h
    cases q with
    | mk d => simpa using congrArg String.mk h
  · intro h
    subst h
    rfl

theorem cleanInitialSlash_append_right (q r : String) (hq : q ≠ "") :
    cleanInitialSlash (q ++ r) = cleanInitialSlash q ++ r := by
  have hd : q.data ≠ [] := fun h => hq ((data_eq_nil_iff q).1 h)
  cases hmk : q.data with
  | nil => exact absurd hmk hd
  | cons c cs =>
    have hqr : (q ++ r).data = c :: (cs ++ r.data) := by
      simp [String.data_append, hmk]
    by_cases hc : c = '/'
    · subst hc
      unfold cleanInitialSlash
      rw [hqr, hmk]
      simp only [List.head?, if_pos rfl, List.tail]
      apply String.ext
      simp [String.data_append]
    · unfold cleanInitialSlash
      rw [hqr, hmk]
      have hne : some c ≠ some '/' := by simpa using hc
      simp only [List.head?, if_neg hne]

theorem cleanInitialSlash_ne_empty (q : String) (hq : cleanInitialSlash q ≠ "") (r : String)
    (hr : r ≠ "") : cleanInitialSlash (q ++ r) ≠ "" := by
  have hqne : q ≠ "" := by
    intro h
    subst h
    apply hq
    rfl
  rw [cleanInitialSlash_append_right q r hqne]
  intro h
  have := congrArg String.data h
  rw [String.data_append] at this
  rcases List.append_eq_nil.mp this with ⟨_, h2⟩
  exact hr ((data_eq_nil_iff r).1 h2)

/-- A path whose split has a failing check on consecutive or trailing
slashes would need an error channel; instead, a trailing slash only appends
an empty-string segment: the resolver issues one more child query with the
empty title and returns its result, with no error. This is the C8 behavior
as the code actually has it. -/
theorem trailing_slash_queries_empty_title (s : DriveState) (q : String)
    (x : DriveObject) (t : List DriveObject)
    (h1 : cleanInitialSlash q ≠ "")
    (h2 : getDriveObject s q = x :: t) :
    getDriveObject s (q ++ "/") = listFile s (some x.id) (some "") := by
  obtain ⟨n0, rest, hsplit⟩ : ∃ n0 rest, pySplit (cleanInitialSlash q) '/' = n0 :: rest := by
    cases hs : pySplit (cleanInitialSlash q) '/' with
    | nil => exact absurd hs (pySplitAux_ne_nil '/' [] (cleanInitialSlash q).data)
    | cons a l => exact ⟨a, l, rfl⟩
  have hqne : q ≠ "" := by
    intro h
    subst h
    exact h1 rfl
  have hclean : cleanInitialSlash (q ++ "/") = cleanInitialSlash q ++ "/" :=
    cleanInitialSlash_append_right q "/" hqne
  have hne2 : cleanInitialSlash (q ++ "/") ≠ "" :=
    cleanInitialSlash_ne_empty q h1 "/" (by decide)
  have hsplit2 : pySplit (cleanInitialSlash (q ++ "/")) '/' = n0 :: (rest ++ [""]) := by
    rw [hclean, pySplit_append_slash, hsplit]
    rfl
  rw [getDriveObject_eq_walk s (q ++ "/") hne2 hsplit2, walkFrom_append]
  rw [getDriveObject_eq_walk s q h1 hsplit] at h2
  rw [h2]
  rfl

/-- Counterexample to C8 as stated: at a state where `/a` exists, the path
`/a/` (trailing slash) is not rejected with a segment-boundary error — the
layer resolves it, issuing a child query for the empty-string title, and
silently returns the empty result. -/
theorem trailing_slash_counterexample :
    getDriveObject stA "/a/" = [] ∧
      getDriveObjectQueries stA "/a/" =
        [⟨none, some "a"⟩, ⟨some 0, some ""⟩] := by
  constructor
  · decide
  · decide

/-- Witness for the amended C8 behavior at `q = "/a"` on `stA`. -/
theorem trailing_slash_queries_empty_title_witness :
    getDriveObject stA ("/a" ++ "/") = listFile stA (some 0) (some "") := by
  have h := trailing_slash_queries_empty_title stA "/a"
    { id := 0, title := "a", mimeType := folderMime,
      parents := [none], trashed := false, content := [] }
    [] (by decide) (by decide)
  simpa using h

/-! ## C9: remove on a missing path -/

/-- C9 (amended): removing a path that resolves to nothing performs no
remote mutation and reports the not-found condition, but it is not fatal:
`remove_drive_objects` merely logs the error and returns normally, with the
state unchanged (there is no `sys.exit` on this branch, unlike the
upload/download precondition failures). -/
theorem remove_missing_not_fatal (s : DriveState) (path : String) (trash : Bool)
    (h : getDriveObject s path = []) :
    removeDriveObjects s path trash = (s, .notFound) := by
  unfold removeDriveObjects
  have hex : pathExistInDrive s path = false := by
    simp [pathExistInDrive, h]
  rw [hex]
  simp

/-- Counterexample to C9 as stated: at a concrete state and missing path the
call returns normally with the unchanged state and a not-found report — it
does not abort the process, so the "exits with a non-zero status" part of
the claim fails. -/
theorem remove_missing_counterexample :
    removeDriveObjects stA "/nope" true = (stA, RemoveResult.notFound) := by
  decide

/-- Witness for the amended C9 theorem at `stA`, `/ghost`, `trash = false`. -/
theorem remove_missing_not_fatal_witness :
    removeDriveObjects stA "/ghost" false = (stA, RemoveResult.notFound) :=
  remove_missing_not_fatal stA "/ghost" false (by decide)

/-! ## C10: listing a path whose first resolved object is a file -/

/-- C10 (amended): for a path other than `/` that resolves to `o :: rest`,
the public listing returns the children of `o` when `o` is a folder, and
otherwise returns the *entire* resolved sequence `o :: rest` (not always a
one-element list: same-titled sibling files all come back). -/
theorem listing_resolved_file (s : DriveState) (path : String)
    (o : DriveObject) (rest : List DriveObject)
    (h1 : path ≠ "/")
    (h2 : getDriveObject s path = o :: rest) :
    getDriveObjects s path =
      if isDriveDir o then listFile s (some o.id) none else o :: rest := by
  unfold getDriveObjects
  rw [if_neg h1, h2]

/-- Counterexample to C10 as stated: two same-titled files under the root;
listing `/f` returns both resolved file objects, not a one-element
sequence containing the first file. -/
theorem listing_resolved_file_counterexample :
    getDriveObjects stDup "/f" =
      [{ id := 0, title := "f", mimeType := "text/plain",
         parents := [none], trashed := false, content := [1] },
       { id := 1, title := "f", mimeType := "text/plain",
         parents := [none], trashed := false, content := [2] }] ∧
      (getDriveObjects stDup "/f").length = 2 ∧
      isDriveDir { id := 0, title := "f", mimeType := "text/plain",
                   parents := [none], trashed := false, content := [1] } = false := by
  refine ⟨by decide, by decide, by decide⟩

/-- Witness for the amended C10 theorem at `stDup`, `/f`. -/
theorem listing_resolved_file_witness :
    getDriveObjects stDup "/f" =
      if isDriveDir { id := 0, title := "f", mimeType := "text/plain",
                      parents := [none], trashed := false, content := [1] } then
        listFile stDup (some 0) none
      else
        [{ id := 0, title := "f", mimeType := "text/plain",
           parents := [none], trashed := false, content := [1] },
         { id := 1, title := "f", mimeType := "text/plain",
           parents := [none], trashed := false, content := [2] }] :=
  listing_resolved_file stDup "/f" _ _ (by decide) (by decide)

/-! ## C5: no-clobber preconditions -/

/-- C5 (amended): when the local source exists and the remote destination
already resolves, upload aborts with the already-exists failure and the
unchanged remote state (zero remote mutations); a download whose (possibly
`'.'`-substituted) local destination already exists aborts with the
already-exists failure, the local filesystem unchanged and the drive never
written (zero local or remote mutations). In the upload direction the
local-existence check runs first, so a missing local source is reported
instead of AlreadyExists. -/
theorem upload_download_no_clobber (fs : LocalFS) (fuel : Nat) (s : DriveState)
    (lp : List String) (dp : String) (cd : Bool) (lp2 : List String) (cre : Bool) :
    (osExists fs lp = true → pathExistInDrive s dp = true →
      uploadObjectsToDrive fs (fuel + 1) s lp dp cd = .error (.driveAlreadyExists, s)) ∧
    (osExists fs (if lp2 = ["."] then fs.cwd ++ [pyBasename dp] else lp2) = true →
      downloadDriveObjects s (fuel + 1) fs dp lp2 cre = .error (.localAlreadyExists, fs)) := by
  constructor
  · intro h1 h2
    unfold uploadObjectsToDrive uploadGo
    simp [h1, h2]
  · intro h1
    unfold downloadDriveObjects downloadGo
    simp [h1]

/-- Counterexample to C5 as stated: the remote destination `/a` exists, but
because the local source is missing and the local check runs first, the
reported failure is the local-not-exists one, not AlreadyExists (remote
state still unchanged). -/
theorem upload_no_clobber_counterexample :
    uploadObjectsToDrive fsG 5 stA ["nolocal"] "/a" true =
        .error (.localNotExists, stA) ∧
      PyErr.localNotExists ≠ PyErr.driveAlreadyExists := by
  refine ⟨by decide, by decide⟩

/-- Witness for the amended C5 theorem: existing local dir + existing remote
path aborts the upload with AlreadyExists, and an existing local destination
aborts the download with the already-exists failure. -/
theorem upload_download_no_clobber_witness :
    (uploadObjectsToDrive fsAA (4 + 1) stA ["home", "aa"] "/a" true =
      .error (.driveAlreadyExists, stA)) ∧
    (downloadDriveObjects stA (4 + 1) fsAA "/a" ["home"] true =
      .error (.localAlreadyExists, fsAA)) :=
  ⟨(upload_download_no_clobber fsAA 4 stA ["home", "aa"] "/a" true ["home"] true).1
      (by decide) (by decide),
   (upload_download_no_clobber fsAA 4 stA ["home", "aa"] "/a" true ["home"] true).2
      (by decide)⟩

/-! ## C6: upload of a single file -/

/-- C6 (amended): uploading an existing single file with
`create_directories = true` to a non-resolving destination first ensures
the parent directory path of the destination, then creates exactly one FILE
object whose title is the basename of the destination, whose content is the
local file's bytes, and whose parent is the *first object in the
resolution of the parent directory path* — which, when the parent path is
the root, is the first object of the root listing, not the root context. -/
theorem upload_file_creates_one (fs : LocalFS) (fuel : Nat) (s : DriveState)
    (lp : List String) (dp : String) {content : List Nat}
    {s2 : DriveState} {k : Nat} {pobj : DriveObject} {prest : List DriveObject}
    (h1 : osExists fs lp = true)
    (h2 : pathExistInDrive s dp = false)
    (h3 : osIsFile fs lp = true)
    (h4 : readFileContent fs lp = some content)
    (h5 : createDrivePath s (pyDirname dp) = .ok (s2, k))
    (h6 : getDriveObject s2 (pyDirname dp) = pobj :: prest) :
    uploadObjectsToDrive fs (fuel + 1) s lp dp true =
      .ok (createFile s2 (some pobj.id) (pyBasename dp) content) := by
  unfold uploadObjectsToDrive uploadGo
  simp [h1, h2, h3, h4, h5, h6]

/-- Counterexample to the root clause of C6 as stated: the root listing of
`stZ` is `[z]` (id 5), and uploading local file `g` to `/foo` creates the
file with parent `some 5` — the first root-listing object — rather than
the root context. -/
theorem upload_file_root_parent_counterexample :
    uploadObjectsToDrive fsG 5 stZ ["g"] "/foo" true =
        .ok (createFile stZ (some 5) "foo" [9]) ∧
      (∀ o ∈ (createFile stZ (some 5) "foo" [9]).objects,
        o.title = "foo" → o.parents = [some 5]) ∧
      ([some 5] : List (Option Nat)) ≠ [none] := by
  refine ⟨by decide, by decide, by decide⟩

/-- Witness for the amended C6 theorem at `stZ` and destination `/foo`. -/
theorem upload_file_creates_one_witness :
    uploadObjectsToDrive fsG (4 + 1) stZ ["g"] "/foo" true =
      .ok (createFile stZ (some 5) (pyBasename "/foo") [9]) :=
  @upload_file_creates_one fsG 4 stZ ["g"] "/foo" [9] stZ 0
    { id := 5, title := "z", mimeType := folderMime,
      parents := [none], trashed := false, content := [] } []
    (by decide) (by decide) (by decide) (by decide) (by decide) (by decide)

/-! ## C7: upload of a directory -/

/-- C7: uploading a local directory ensures the remote path *itself*
regardless of `create_directories` — the flag does not appear in the
behavior — and then recurses over the local children: a child file is
recursed with `create_directories = false`, a child directory with the
default `true` (children that are neither are skipped). -/
theorem upload_dir_structure (fs : LocalFS) (fuel : Nat) (s : DriveState)
    (lp : List String) (dp : String)
    (h1 : osExists fs lp = true)
    (h2 : pathExistInDrive s dp = false)
    (h3 : osIsFile fs lp = false)
    (h4 : osIsDir fs lp = true) :
    (∀ cd : Bool,
      uploadObjectsToDrive fs (fuel + 1) s lp dp cd =
        match createDrivePath s dp with
        | .error s2 => .error (.indexErr, s2)
        | .ok (s2, _) =>
          match getDriveObject s2 (pyDirname dp) with
          | [] => .error (.indexErr, s2)
          | _ :: _ => uploadChildren fs fuel s2 lp dp (osListdir fs lp)) ∧
    (∀ (fuel' : Nat) (s' : DriveState) (item : String) (rest : List String),
      osIsFile fs (lp ++ [item]) = true →
      uploadChildren fs (fuel' + 1) s' lp dp (item :: rest) =
        match uploadObjectsToDrive fs fuel' s' (lp ++ [item]) (dp ++ "/" ++ item) false with
        | .error e => .error e
        | .ok s2 => uploadChildren fs fuel' s2 lp dp rest) ∧
    (∀ (fuel' : Nat) (s' : DriveState) (item : String) (rest : List String),
      osIsFile fs (lp ++ [item]) = false → osIsDir fs (lp ++ [item]) = true →
      uploadChildren fs (fuel' + 1) s' lp dp (item :: rest) =
        match uploadObjectsToDrive fs fuel' s' (lp ++ [item]) (dp ++ "/" ++ item) true with
        | .error e => .error e
        | .ok s2 => uploadChildren fs fuel' s2 lp dp rest) := by
  refine ⟨?_, ?_, ?_⟩
  · intro cd
    unfold uploadObjectsToDrive uploadChildren
    conv_lhs => rw [uploadGo]
    simp [h1, h2, h3, h4]
  · intro fuel' s' item rest hfile
    unfold uploadObjectsToDrive uploadChildren
    conv_lhs => rw [uploadGo]
    simp [hfile]
  · intro fuel' s' item rest hfile hdir
    unfold uploadObjectsToDrive uploadChildren
    conv_lhs => rw [uploadGo]
    simp [hfile, hdir]

/-- Witness for C7 on the concrete tree `fsAA` with the flag set to `false`:
the directory upload still behaves as if it were `true` (its own remote
path is ensured), and the child steps carry the prescribed flags. -/
theorem upload_dir_structure_witness :
    uploadObjectsToDrive fsAA (6 + 1) stEmpty ["home", "aa"] "/aa" false =
      match createDrivePath stEmpty "/aa" with
      | .error s2 => .error (.indexErr, s2)
      | .ok (s2, _) =>
        match getDriveObject s2 (pyDirname "/aa") with
        | [] => .error (.indexErr, s2)
        | _ :: _ => uploadChildren fsAA 6 s2 ["home", "aa"] "/aa"
            (osListdir fsAA ["home", "aa"]) :=
  (upload_dir_structure fsAA 6 stEmpty ["home", "aa"] "/aa"
    (by decide) (by decide) (by decide) (by decide)).1 false

/-! ## String and path-building lemmas -/

theorem mk_data (s : String) : String.mk s.data = s := by
  cases s
  rfl

theorem pySplitAux_no_sep (l : List Char) (acc : List Char) (h : '/' ∉ l) :
    pySplitAux '/' acc l = [String.mk (acc.reverse ++ l)] := by
  induction l generalizing acc with
  | nil => simp [pySplitAux]
  | cons c cs ih =>
    have hc : c ≠ '/' := fun hc => h (hc ▸ List.mem_cons_self c cs)
    have hcs : '/' ∉ cs := fun hm => h (List.mem_cons_of_mem c hm)
    simp only [pySplitAux, if_neg hc]
    rw [ih (c :: acc) hcs]
    simp

theorem pySplit_single (b : String) (h : '/' ∉ b.data) : pySplit b '/' = [b] := by
  simp [pySplit, pySplitAux_no_sep b.data [] h, mk_data]

theorem pySplitAux_mem_no_sep (l : List Char) (acc : List Char) (hacc : '/' ∉ acc) :
    ∀ piece ∈ pySplitAux '/' acc l, '/' ∉ piece.data := by
  induction l generalizing acc with
  | nil =>
    intro piece hp
    simp [pySplitAux] at hp
    subst hp
    simpa using fun hm => hacc (List.mem_reverse.mp hm)
  | cons c cs ih =>
    by_cases hc : c = '/'
    · subst hc
      intro piece hp
      simp [pySplitAux] at hp
      rcases hp with hp | hp
      · subst hp
        simpa using fun hm => hacc (List.mem_reverse.mp hm)
      · exact ih [] (by simp) piece hp
    · intro piece hp
      simp [pySplitAux, hc] at hp
      refine ih (c :: acc) ?_ piece hp
      intro hm
      rcases List.mem_cons.mp hm with h1 | h1
      · exact hc h1.symm
      · exact hacc h1

theorem pySplit_mem_no_sep (s : String) : ∀ piece ∈ pySplit s '/', '/' ∉ piece.data :=
  pySplitAux_mem_no_sep s.data [] (by simp)

theorem cleanInitialSlash_slash_append (b : String) : cleanInitialSlash ("/" ++ b) = b := by
  unfold cleanInitialSlash
  have hd : ("/" ++ b).data = '/' :: b.data := by
    simp [String.data_append]
  rw [hd]
  simp [mk_data]

theorem cleanInitialSlash_empty : cleanInitialSlash "" = "" := rfl

theorem pathFacts_first (seg : String) (h1 : seg ≠ "") (h2 : '/' ∉ seg.data) :
    PathFacts ("" ++ "/" ++ seg) [seg] := by
  have he : ("" ++ "/" ++ seg) = "/" ++ seg := by
    apply String.ext
    simp [String.data_append]
  rw [PathFacts, he, cleanInitialSlash_slash_append]
  exact ⟨h1, pySplit_single seg h2⟩

theorem pathFacts_ne_empty (pb : String) (done : List String) (hf : PathFacts pb done) :
    pb ≠ "" := by
  intro h
  subst h
  exact hf.1 cleanInitialSlash_empty

theorem pathFacts_step (pb : String) (done : List String) (seg : String)
    (hf : PathFacts pb done) (_h1 : seg ≠ "") (h2 : '/' ∉ seg.data) :
    PathFacts (pb ++ "/" ++ seg) (done ++ [seg]) := by
  obtain ⟨hne, hsplit⟩ := hf
  have hpb : pb ≠ "" := pathFacts_ne_empty pb done ⟨hne, hsplit⟩
  have hca : cleanInitialSlash (pb ++ "/" ++ seg) = cleanInitialSlash pb ++ "/" ++ seg := by
    have h3 : pb ++ "/" ++ seg = pb ++ ("/" ++ seg) := by
      apply String.ext
      simp [String.data_append]
    have h4 : cleanInitialSlash pb ++ "/" ++ seg = cleanInitialSlash pb ++ ("/" ++ seg) := by
      apply String.ext
      simp [String.data_append]
    rw [h3, h4, cleanInitialSlash_append_right pb ("/" ++ seg) hpb]
  constructor
  · rw [hca]
    intro h
    have := congrArg String.data h
    simp [String.data_append] at this
  · rw [hca, pySplit_append, hsplit, pySplit_single seg h2]

theorem pathFacts_ne_root (pb : String) (done : List String) (hf : PathFacts pb done) :
    pb ≠ "/" := by
  intro h
  subst h
  exact hf.1 (by decide)

theorem getDriveObject_eq_walkRootSegs (s : DriveState) (pb : String) (done : List String)
    (hf : PathFacts pb done) : getDriveObject s pb = walkRootSegs s done := by
  obtain ⟨hne, hsplit⟩ := hf
  cases done with
  | nil => exact absurd hsplit (pySplitAux_ne_nil '/' [] (cleanInitialSlash pb).data)
  | cons n rest =>
    rw [getDriveObject_eq_walk s pb hne hsplit]
    rfl

theorem getDriveObject_congr (s : DriveState) (p q : String)
    (hp : cleanInitialSlash p ≠ "") (hq : cleanInitialSlash q ≠ "")
    (h : pySplit (cleanInitialSlash p) '/' = pySplit (cleanInitialSlash q) '/') :
    getDriveObject s p = getDriveObject s q := by
  cases hs : pySplit (cleanInitialSlash p) '/' with
  | nil => exact absurd hs (pySplitAux_ne_nil '/' [] (cleanInitialSlash p).data)
  | cons n rest =>
    rw [getDriveObject_eq_walk s p hp hs, getDriveObject_eq_walk s q hq (h ▸ hs)]

theorem walkRootSegs_snoc (s : DriveState) (segs : List String) (t : String)
    (h : segs ≠ []) :
    walkRootSegs s (segs ++ [t]) =
      match walkRootSegs s segs with
      | [] => []
      | x :: _ => listFile s (some x.id) (some t) := by
  cases segs with
  | nil => exact absurd rfl h
  | cons n rest =>
    show walkFrom s (listFile s none (some n)) (rest ++ [t]) = _
    rw [walkFrom_append]
    cases hX : walkFrom s (listFile s none (some n)) rest with
    | nil => simp [walkRootSegs, walkFrom, hX]
    | cons x xs => simp [walkRootSegs, walkFrom, hX]

/-! ## State-extension lemmas -/

theorem appended_refl (s : DriveState) : Appended s s :=
  ⟨[], by simp, le_refl _⟩

theorem appended_trans {s1 s2 s3 : DriveState} (h1 : Appended s1 s2) (h2 : Appended s2 s3) :
    Appended s1 s3 := by
  obtain ⟨t1, ht1, hn1⟩ := h1
  obtain ⟨t2, ht2, hn2⟩ := h2
  exact ⟨t1 ++ t2, by simp [ht2, ht1], le_trans hn1 hn2⟩

theorem listFile_appended {s s' : DriveState} (h : Appended s s')
    (p : Option Nat) (t : Option String) :
    ∃ extra, listFile s' p t = listFile s p t ++ extra := by
  obtain ⟨tail, ht, _⟩ := h
  exact ⟨tail.filter (matchesQuery p t), by simp [listFile, ht, List.filter_append]⟩

theorem walkFrom_appended {s s' : DriveState} (h : Appended s s') :
    ∀ (segs : List String) (objs extra : List DriveObject),
      walkFrom s objs segs ≠ [] →
      ∃ junk, walkFrom s' (objs ++ extra) segs = walkFrom s objs segs ++ junk := by
  intro segs
  induction segs with
  | nil => exact fun objs extra _ => ⟨extra, rfl⟩
  | cons n rest ih =>
    intro objs extra hne
    cases objs with
    | nil => simp [walkFrom] at hne
    | cons x xs =>
      obtain ⟨e2, he⟩ := listFile_appended h (some x.id) (some n)
      show ∃ junk, walkFrom s' (listFile s' (some x.id) (some n)) rest =
        walkFrom s (listFile s (some x.id) (some n)) rest ++ junk
      rw [he]
      exact ih (listFile s (some x.id) (some n)) e2 hne

theorem walkRootSegs_appended {s s' : DriveState} (h : Appended s s')
    (segs : List String) (hne : walkRootSegs s segs ≠ []) :
    ∃ junk, walkRootSegs s' segs = walkRootSegs s segs ++ junk := by
  cases segs with
  | nil => simp [walkRootSegs] at hne
  | cons n rest =>
    obtain ⟨e1, he1⟩ := listFile_appended h none (some n)
    show ∃ junk, walkFrom s' (listFile s' none (some n)) rest = _
    rw [he1]
    exact walkFrom_appended h rest (listFile s none (some n)) e1 hne

theorem listFile_title_eq_nil (s : DriveState) (p : Option Nat) (t : String)
    (h : t ∉ (listFile s p none).map (fun o => o.title)) :
    listFile s p (some t) = [] := by
  unfold listFile
  rw [List.filter_eq_nil_iff]
  intro o ho hq
  apply h
  unfold matchesQuery at hq
  simp at hq
  obtain ⟨⟨hq1, hq2⟩, hq3⟩ := hq
  refine List.mem_map.mpr ⟨o, ?_, hq3⟩
  unfold listFile
  rw [List.mem_filter]
  refine ⟨ho, ?_⟩
  unfold matchesQuery
  simp
  exact ⟨hq1, hq2⟩

/-! ## Well-formedness and creation lemmas -/

theorem matchesQuery_parent_mem {p : Option Nat} {t : Option String} {o : DriveObject}
    (h : matchesQuery p t o = true) : p ∈ o.parents := by
  unfold matchesQuery at h
  rw [Bool.and_eq_true, Bool.and_eq_true] at h
  simpa using h.1.1

theorem belowOk_of_WF {s : DriveState} (h : WFState s) : BelowOk s := by
  obtain ⟨hb, _, hp⟩ := h
  refine ⟨hb, ?_⟩
  intro o ho pid hpid q hq
  obtain ⟨f, hf, hfid, _⟩ := by
    have := hp o ho pid hpid
    rw [hq] at this
    exact this
  exact hfid ▸ hb f hf

theorem file_no_children {s : DriveState} (hwf : WFState s) (X : DriveObject)
    (hX : X ∈ s.objects) (hfile : X.mimeType ≠ folderMime) (t : Option String) :
    listFile s (some X.id) t = [] := by
  unfold listFile
  rw [List.filter_eq_nil_iff]
  intro o ho hq
  have hmem : (some X.id : Option Nat) ∈ o.parents := matchesQuery_parent_mem hq
  have hpo := hwf.2.2 o ho (some X.id) hmem
  obtain ⟨f, hf, hfid, hfol⟩ := hpo
  have : f = X := by
    have hinj := List.inj_on_of_nodup_map hwf.2.1
    exact hinj hf hX hfid
  exact hfile (this ▸ hfol)

theorem fresh_no_children {s : DriveState} (h : BelowOk s) (q : Nat)
    (hq : s.nextId ≤ q) (t : Option String) : listFile s (some q) t = [] := by
  unfold listFile
  rw [List.filter_eq_nil_iff]
  intro o ho hm
  have hmem : (some q : Option Nat) ∈ o.parents := matchesQuery_parent_mem hm
  have := h.2 o ho (some q) hmem q rfl
  omega

theorem createFolder_appended (s : DriveState) (pid : Option Nat) (t : String) :
    Appended s (createFolder s pid t) :=
  ⟨[newFolderObj s pid t], rfl, Nat.le_succ _⟩

theorem createFolder_objects (s : DriveState) (pid : Option Nat) (t : String) :
    (createFolder s pid t).objects = s.objects ++ [newFolderObj s pid t] := rfl

theorem createFolder_nextId (s : DriveState) (pid : Option Nat) (t : String) :
    (createFolder s pid t).nextId = s.nextId + 1 := rfl

theorem listFile_createFolder (s : DriveState) (pid : Option Nat) (t0 : String)
    (p : Option Nat) (t : Option String) :
    listFile (createFolder s pid t0) p t =
      listFile s p t ++
        (if matchesQuery p t (newFolderObj s pid t0) then [newFolderObj s pid t0] else []) := by
  unfold listFile
  rw [createFolder_objects, List.filter_append]
  congr 1
  simp [List.filter]
  split <;> rename_i hsp <;> simp_all

theorem createFolder_belowOk {s : DriveState} (h : BelowOk s) (pid : Option Nat)
    (t : String) (hpid : ∀ q, pid = some q → q < s.nextId) :
    BelowOk (createFolder s pid t) := by
  obtain ⟨hb, hp⟩ := h
  constructor
  · intro o ho
    rw [createFolder_objects] at ho
    rw [createFolder_nextId]
    rcases List.mem_append.mp ho with h1 | h1
    · exact Nat.lt_succ_of_lt (hb o h1)
    · simp [newFolderObj] at h1
      subst h1
      exact Nat.lt_succ_self _
  · intro o ho pid' hpid' q hq
    rw [createFolder_objects] at ho
    rw [createFolder_nextId]
    rcases List.mem_append.mp ho with h1 | h1
    · exact Nat.lt_succ_of_lt (hp o h1 pid' hpid' q hq)
    · simp [newFolderObj] at h1
      subst h1
      simp at hpid'
      subst hpid'
      exact Nat.lt_succ_of_lt (hpid q hq)

theorem createFolder_new_no_children {s : DriveState} (h : BelowOk s) (pid : Option Nat)
    (t0 : String) (hpid : ∀ q, pid = some q → q < s.nextId) (t : Option String) :
    listFile (createFolder s pid t0) (some s.nextId) t = [] := by
  unfold listFile
  rw [createFolder_objects, List.filter_eq_nil_iff]
  intro o ho hm
  have hmem : (some s.nextId : Option Nat) ∈ o.parents := matchesQuery_parent_mem hm
  rcases List.mem_append.mp ho with h1 | h1
  · have := h.2 o h1 (some s.nextId) hmem s.nextId rfl
    omega
  · simp [newFolderObj] at h1
    subst h1
    simp [newFolderObj] at hmem
    have := hpid s.nextId hmem.symm
    omega

theorem getDriveObjects_of_resolve (s : DriveState) (pb : String)
    (x : DriveObject) (t : List DriveObject) (hpb : pb ≠ "/")
    (h : getDriveObject s pb = x :: t) :
    getDriveObjects s pb =
      if isDriveDir x then listFile s (some x.id) none else x :: t := by
  unfold getDriveObjects
  rw [if_neg hpb, h]

theorem getDriveObjects_of_resolve_nil (s : DriveState) (pb : String) (hpb : pb ≠ "/")
    (h : getDriveObject s pb = []) : getDriveObjects s pb = [] := by
  unfold getDriveObjects
  rw [if_neg hpb, h]

/-! ## The `_create_drive_path` loop: creation phase -/

theorem pathFacts_done_ne_nil {pb : String} {done : List String}
    (hf : PathFacts pb done) : done ≠ [] := by
  intro h
  subst h
  exact pySplitAux_ne_nil '/' [] (cleanInitialSlash pb).data hf.2

theorem extendPb_nil (pb : String) : extendPb pb [] = pb := rfl

theorem extendPb_cons (pb : String) (seg : String) (rest : List String) :
    extendPb pb (seg :: rest) = extendPb (pb ++ "/" ++ seg) rest := rfl

theorem isDriveDir_of_folder {F : DriveObject} (h : F.mimeType = folderMime) :
    isDriveDir F = true := by
  simp [isDriveDir, h]

/-- Once `_create_drive_path` has created its first folder, the walk is in a
fresh childless folder: every remaining segment is created, each new folder
is the sole resolution of the grown prefix, and the loop cannot abort. -/
theorem createLoop_post (segs : List String) :
    ∀ (s : DriveState) (pb : String) (done : List String) (n : Nat) (F : DriveObject),
    BelowOk s →
    (∀ seg ∈ segs, seg ≠ "" ∧ '/' ∉ seg.data) →
    PathFacts pb done →
    getDriveObject s pb = [F] →
    F.mimeType = folderMime →
    F ∈ s.objects →
    listFile s (some F.id) none = [] →
    ∃ (s' : DriveState) (F' : DriveObject),
      createLoop s (getDriveObjects s pb) pb n segs = .ok (s', n + segs.length) ∧
      Appended s s' ∧ BelowOk s' ∧
      getDriveObject s' (extendPb pb segs) = [F'] ∧
      F'.mimeType = folderMime ∧ F' ∈ s'.objects ∧
      listFile s' (some F'.id) none = [] ∧
      PathFacts (extendPb pb segs) (done ++ segs) := by
  induction segs with
  | nil =>
    intro s pb done n F hbelow _ hpf hres hfol hmem hchild
    exact ⟨s, F, rfl, appended_refl s, hbelow, hres, hfol, hmem, hchild, by simpa using hpf⟩
  | cons seg rest ih =>
    intro s pb done n F hbelow hsegs hpf hres hfol hmem hchild
    have hgood := hsegs seg (List.mem_cons_self seg rest)
    have hrestgood : ∀ x ∈ rest, x ≠ "" ∧ '/' ∉ x.data :=
      fun x hx => hsegs x (List.mem_cons_of_mem seg hx)
    have hdir : isDriveDir F = true := isDriveDir_of_folder hfol
    have hobj : getDriveObjects s pb = [] := by
      rw [getDriveObjects_of_resolve s pb F [] (pathFacts_ne_root pb done hpf) hres,
        if_pos hdir, hchild]
    have hFid : F.id < s.nextId := hbelow.1 F hmem
    have hpidb : ∀ q, (some F.id : Option Nat) = some q → q < s.nextId := by
      intro q hq
      injection hq with hq
      omega
    set s2 := createFolder s (some F.id) seg with hs2
    set newF := newFolderObj s (some F.id) seg with hnewF
    have hpf2 : PathFacts (pb ++ "/" ++ seg) (done ++ [seg]) :=
      pathFacts_step pb done seg hpf hgood.1 hgood.2
    have happ : Appended s s2 := createFolder_appended s (some F.id) seg
    have hbelow2 : BelowOk s2 := createFolder_belowOk hbelow (some F.id) seg hpidb
    have hres2 : getDriveObject s2 (pb ++ "/" ++ seg) = [newF] := by
      rw [getDriveObject_eq_walkRootSegs s2 (pb ++ "/" ++ seg) (done ++ [seg]) hpf2]
      rw [walkRootSegs_snoc s2 done seg (pathFacts_done_ne_nil hpf)]
      have hws : walkRootSegs s done = [F] := by
        rw [← getDriveObject_eq_walkRootSegs s pb done hpf]
        exact hres
      obtain ⟨junk, hjunk⟩ := walkRootSegs_appended happ done (by rw [hws]; simp)
      rw [hjunk, hws]
      show listFile s2 (some F.id) (some seg) = [newF]
      rw [hs2, listFile_createFolder]
      have h1 : listFile s (some F.id) (some seg) = [] := by
        apply listFile_title_eq_nil
        rw [hchild]
        simp
      have h2 : matchesQuery (some F.id) (some seg) (newFolderObj s (some F.id) seg) = true := by
        simp [matchesQuery, newFolderObj]
      rw [h1, if_pos h2]
      rfl
    have hmem2 : newF ∈ s2.objects := by
      rw [hs2, createFolder_objects]
      simp [hnewF]
    have hfol2 : newF.mimeType = folderMime := rfl
    have hchild2 : listFile s2 (some newF.id) none = [] := by
      have : newF.id = s.nextId := rfl
      rw [this]
      exact createFolder_new_no_children hbelow (some F.id) seg hpidb none
    obtain ⟨s', F', hloop, happ', hbelow', hres', hfol', hmem', hchild', hpf'⟩ :=
      ih s2 (pb ++ "/" ++ seg) (done ++ [seg]) (n + 1) newF
        hbelow2 hrestgood hpf2 hres2 hfol2 hmem2 hchild2
    refine ⟨s', F', ?_, appended_trans happ happ', hbelow', ?_, hfol', hmem', hchild', ?_⟩
    · rw [hobj]
      show createLoop s [] pb n (seg :: rest) = _
      rw [createLoop]
      have hni : ¬ (seg ∈ ([] : List DriveObject).map (fun o => o.title)) := by simp
      rw [if_neg hni]
      have hpid : pathIdOf s pb = some (some F.id) := by
        unfold pathIdOf
        rw [if_neg (pathFacts_ne_empty pb done hpf), hres]
      rw [hpid]
      show createLoop s2 (getDriveObjects s2 (pb ++ "/" ++ seg)) (pb ++ "/" ++ seg)
        (n + 1) rest = _
      rw [hloop]
      have : n + 1 + rest.length = n + (seg :: rest).length := by
        simp
        omega
      rw [this]
    · rw [extendPb_cons]
      exact hres'
    · rw [extendPb_cons]
      have : done ++ seg :: rest = (done ++ [seg]) ++ rest := by simp
      rw [this]
      exact hpf'

/-! ## The `_create_drive_path` loop: walking phase -/

theorem walkFrom_subset (s : DriveState) (segs : List String) :
    ∀ (objs : List DriveObject), (∀ o ∈ objs, o ∈ s.objects) →
    ∀ o ∈ walkFrom s objs segs, o ∈ s.objects := by
  induction segs with
  | nil => exact fun objs h => h
  | cons n rest ih =>
    intro objs h o ho
    cases objs with
    | nil => simp [walkFrom] at ho
    | cons x xs =>
      refine ih (listFile s (some x.id) (some n)) ?_ o ho
      intro o' ho'
      exact List.mem_of_mem_filter ho'

theorem getDriveObject_subset (s : DriveState) (p : String) :
    ∀ o ∈ getDriveObject s p, o ∈ s.objects := by
  unfold getDriveObject
  by_cases h : cleanInitialSlash p = ""
  · rw [if_pos h]
    exact fun o ho => List.mem_of_mem_filter ho
  · rw [if_neg h]
    cases pySplit (cleanInitialSlash p) '/' with
    | nil => simp
    | cons n rest =>
      exact walkFrom_subset s rest (listFile s none (some n))
        (fun o ho => List.mem_of_mem_filter ho)

/-- Before the first creation, the `_create_drive_path` loop either
consumes everything without touching the drive, crashes, or transitions
into the creation phase; a successful run either changed nothing or leaves
the full path resolving to a single fresh folder. -/
theorem createLoop_pre (segs : List String) :
    ∀ (s0 : DriveState) (pb : String) (done : List String) (n : Nat)
      (dObjs : List DriveObject),
    WFState s0 →
    (∀ seg ∈ segs, seg ≠ "" ∧ '/' ∉ seg.data) →
    ((pb = "" ∧ done = [] ∧ dObjs = listFile s0 none none) ∨
      (PathFacts pb done ∧ dObjs = getDriveObjects s0 pb)) →
    ∀ (s1 : DriveState) (n1 : Nat),
      createLoop s0 dObjs pb n segs = .ok (s1, n1) →
      (n1 = n ∧ s1 = s0) ∨
      (∃ F', getDriveObject s1 (extendPb pb segs) = [F'] ∧
        PathFacts (extendPb pb segs) (done ++ segs) ∧ Appended s0 s1) := by
  induction segs with
  | nil =>
    intro s0 pb done n dObjs _ _ _ s1 n1 h
    left
    have h' : (Except.ok (s0, n) : Except DriveState (DriveState × Nat)) =
        Except.ok (s1, n1) := h
    have h2 : s0 = s1 ∧ n = n1 := by simpa using h'
    exact ⟨h2.2.symm, h2.1.symm⟩
  | cons seg rest ih =>
    intro s0 pb done n dObjs hwf hsegs hstart s1 n1 h
    have hgood := hsegs seg (List.mem_cons_self seg rest)
    have hrestgood : ∀ x ∈ rest, x ≠ "" ∧ '/' ∉ x.data :=
      fun x hx => hsegs x (List.mem_cons_of_mem seg hx)
    rw [createLoop] at h
    by_cases hin : seg ∈ dObjs.map (fun o => o.title)
    · rw [if_pos hin] at h
      have hpf2 : PathFacts (pb ++ "/" ++ seg) (done ++ [seg]) := by
        rcases hstart with ⟨hpb, hdone, _⟩ | ⟨hpf, _⟩
        · subst hpb
          subst hdone
          simpa using pathFacts_first seg hgood.1 hgood.2
        · exact pathFacts_step pb done seg hpf hgood.1 hgood.2
      have := ih s0 (pb ++ "/" ++ seg) (done ++ [seg]) n
        (getDriveObjects s0 (pb ++ "/" ++ seg)) hwf hrestgood
        (Or.inr ⟨hpf2, rfl⟩) s1 n1 h
      rcases this with hleft | ⟨F', hres', hpf', happ'⟩
      · exact Or.inl hleft
      · refine Or.inr ⟨F', ?_, ?_, happ'⟩
        · rw [extendPb_cons]
          exact hres'
        · rw [extendPb_cons]
          have he : done ++ seg :: rest = (done ++ [seg]) ++ rest := by simp
          rw [he]
          exact hpf'
    · rw [if_neg hin] at h
      rcases hpid : pathIdOf s0 pb with _ | pid
      · rw [hpid] at h
        exact absurd (show (Except.error s0 : Except DriveState (DriveState × Nat)) =
          .ok (s1, n1) from h) (by simp)
      · rw [hpid] at h
        set s2 := createFolder s0 pid seg with hs2
        set newF := newFolderObj s0 pid seg with hnewF
        have hbelow0 : BelowOk s0 := belowOk_of_WF hwf
        -- the parent id is bounded and the previous-level query for `seg`
        -- is empty, in each of the two start configurations
        have hkey : (∀ q, pid = some q → q < s0.nextId) ∧
            PathFacts (pb ++ "/" ++ seg) (done ++ [seg]) ∧
            getDriveObject s2 (pb ++ "/" ++ seg) = [newF] := by
          rcases hstart with ⟨hpb, hdone, hdo⟩ | ⟨hpf, hdo⟩
          · subst hpb
            have hpidv : pid = none := by
              unfold pathIdOf at hpid
              rw [if_pos rfl] at hpid
              injection hpid with hpid
              exact hpid.symm
            subst hpidv
            have hpf2 : PathFacts ("" ++ "/" ++ seg) [seg] :=
              pathFacts_first seg hgood.1 hgood.2
            refine ⟨fun q hq => absurd hq (by simp), (by simpa [hdone] using hpf2), ?_⟩
            rw [getDriveObject_eq_walkRootSegs s2 ("" ++ "/" ++ seg) [seg] hpf2]
            show listFile s2 none (some seg) = [newF]
            rw [hs2, listFile_createFolder]
            have h1 : listFile s0 none (some seg) = [] := by
              apply listFile_title_eq_nil
              rw [hdo] at hin
              exact hin
            have h2 : matchesQuery none (some seg) (newFolderObj s0 none seg) = true := by
              simp [matchesQuery, newFolderObj]
            rw [h1, if_pos h2]
            rfl
          · have hpbne : pb ≠ "" := pathFacts_ne_empty pb done hpf
            obtain ⟨X, t, hXt⟩ : ∃ X t, getDriveObject s0 pb = X :: t := by
              unfold pathIdOf at hpid
              rw [if_neg hpbne] at hpid
              cases hres0 : getDriveObject s0 pb with
              | nil =>
                rw [hres0] at hpid
                exact absurd hpid (by simp)
              | cons X t => exact ⟨X, t, rfl⟩
            have hpidv : pid = some X.id := by
              unfold pathIdOf at hpid
              rw [if_neg hpbne, hXt] at hpid
              injection hpid with hpid
              exact hpid.symm
            have hXmem : X ∈ s0.objects :=
              getDriveObject_subset s0 pb X (by rw [hXt]; simp)
            have hXid : X.id < s0.nextId := hbelow0.1 X hXmem
            have hq1 : listFile s0 (some X.id) (some seg) = [] := by
              by_cases hXdir : isDriveDir X = true
              · apply listFile_title_eq_nil
                rw [hdo, getDriveObjects_of_resolve s0 pb X t
                  (pathFacts_ne_root pb done hpf) hXt, if_pos hXdir] at hin
                exact hin
              · apply file_no_children hwf X hXmem
                intro hfol
                exact hXdir (isDriveDir_of_folder hfol)
            have hpf2 : PathFacts (pb ++ "/" ++ seg) (done ++ [seg]) :=
              pathFacts_step pb done seg hpf hgood.1 hgood.2
            refine ⟨?_, hpf2, ?_⟩
            · intro q hq
              rw [hpidv] at hq
              injection hq with hq
              omega
            · rw [getDriveObject_eq_walkRootSegs s2 (pb ++ "/" ++ seg) (done ++ [seg]) hpf2]
              rw [walkRootSegs_snoc s2 done seg (pathFacts_done_ne_nil hpf)]
              have hws : walkRootSegs s0 done = X :: t := by
                rw [← getDriveObject_eq_walkRootSegs s0 pb done hpf]
                exact hXt
              obtain ⟨junk, hjunk⟩ := walkRootSegs_appended
                (createFolder_appended s0 pid seg) done (by rw [hws]; simp)
              rw [hs2, hjunk, hws]
              show listFile (createFolder s0 pid seg) (some X.id) (some seg) = [newF]
              rw [listFile_createFolder]
              have h2 : matchesQuery (some X.id) (some seg) (newFolderObj s0 pid seg) = true := by
                simp [matchesQuery, newFolderObj, hpidv]
              rw [hq1, if_pos h2]
              rfl
        obtain ⟨hpidb, hpf2, hres2⟩ := hkey
        have hbelow2 : BelowOk s2 := createFolder_belowOk hbelow0 pid seg hpidb
        have hmem2 : newF ∈ s2.objects := by
          rw [hs2, createFolder_objects]
          simp [hnewF]
        have hchild2 : listFile s2 (some newF.id) none = [] := by
          have hid : newF.id = s0.nextId := rfl
          rw [hid]
          exact createFolder_new_no_children hbelow0 pid seg hpidb none
        obtain ⟨s', F', hloop, happ', _, hres', hfol', _, _, hpf'⟩ :=
          createLoop_post rest s2 (pb ++ "/" ++ seg) (done ++ [seg]) (n + 1) newF
            hbelow2 hrestgood hpf2 hres2 rfl hmem2 hchild2
        have h2 : createLoop s2 (getDriveObjects s2 (pb ++ "/" ++ seg)) (pb ++ "/" ++ seg)
            (n + 1) rest = .ok (s1, n1) := h
        rw [hloop] at h2
        have h3 : s' = s1 ∧ n + 1 + rest.length = n1 := by simpa using h2
        obtain ⟨ha, _⟩ := h3
        refine Or.inr ⟨F', ?_, ?_, ?_⟩
        · rw [extendPb_cons, ← ha]
          exact hres'
        · rw [extendPb_cons]
          have he : done ++ seg :: rest = (done ++ [seg]) ++ rest := by simp
          rw [he]
          exact hpf'
        · rw [← ha]
          exact appended_trans (createFolder_appended s0 pid seg) happ'

/-! ## C4: idempotence of `_create_drive_path` -/

theorem getDriveObject_root (s : DriveState) :
    getDriveObject s "/" = listFile s none none := rfl

/-- A successful `_create_drive_path` run either leaves the path resolving,
or was a complete no-op. -/
theorem createDrivePath_exists_or_noop (s : DriveState) (path : String)
    (hwf : WFState s) (hok : PathOk path) {s1 : DriveState} {n1 : Nat}
    (h : createDrivePath s path = .ok (s1, n1)) :
    pathExistInDrive s1 path = true ∨ (n1 = 0 ∧ s1 = s) := by
  unfold createDrivePath at h
  by_cases hex : pathExistInDrive s path = true
  · rw [if_pos hex] at h
    have h2 : s = s1 ∧ 0 = n1 := by simpa using h
    exact Or.inr ⟨h2.2.symm, h2.1.symm⟩
  · rw [if_neg hex] at h
    have hgood : ∀ seg ∈ pySplit (cleanInitialSlash path) '/', seg ≠ "" ∧ '/' ∉ seg.data :=
      fun seg hs => ⟨hok seg hs, pySplit_mem_no_sep (cleanInitialSlash path) seg hs⟩
    have hrun := createLoop_pre (pySplit (cleanInitialSlash path) '/') s "" [] 0
      (getDriveObject s "/") hwf hgood (Or.inl ⟨rfl, rfl, getDriveObject_root s⟩) s1 n1 h
    rcases hrun with ⟨hn, hs⟩ | ⟨F', hres, hpf, _⟩
    · exact Or.inr ⟨hn, hs⟩
    · left
      have hclean : cleanInitialSlash path ≠ "" := by
        intro hc
        have hm : ("" : String) ∈ pySplit (cleanInitialSlash path) '/' := by
          rw [hc]
          decide
        exact (hok "" hm) rfl
      have hcongr : getDriveObject s1 path =
          getDriveObject s1 (extendPb "" (pySplit (cleanInitialSlash path) '/')) := by
        apply getDriveObject_congr s1 _ _ hclean hpf.1
        rw [hpf.2]
        simp
      rw [pathExistInDrive, hcongr, hres]
      rfl

/-- C4 (amended): for a path all of whose slash-split segments are nonempty,
on a well-formed drive, a second `_create_drive_path` call right after a
successful one performs zero folder creations and leaves the remote object
set unchanged. -/
theorem createDrivePath_idempotent (s : DriveState) (path : String)
    (hwf : WFState s) (hok : PathOk path) {s1 : DriveState} {n1 : Nat}
    (h : createDrivePath s path = .ok (s1, n1)) :
    createDrivePath s1 path = .ok (s1, 0) := by
  rcases createDrivePath_exists_or_noop s path hwf hok h with hex | ⟨hn, hs⟩
  · unfold createDrivePath
    rw [if_pos hex]
  · subst hs
    subst hn
    exact h

/-- Witness for the amended C4 theorem: `/a/b` on the empty drive; the
first call creates the two folders, the second is a complete no-op. -/
theorem createDrivePath_idempotent_witness :
    createDrivePath stAB "/a/b" = .ok (stAB, 0) :=
  @createDrivePath_idempotent stEmpty "/a/b" (by decide) (by decide) stAB 2 (by decide)

/-- Counterexample to C4 as stated: on the well-formed drive `stB` (one
root folder `b`), creating the path `//a` — the empty first segment makes
`path_built` pass through `"/"`, whose resolution is the whole root listing
— succeeds but leaves `//a` unresolvable, so the second call creates yet
another folder: it performs one remote mutation and changes the object
set. -/
theorem createDrivePath_not_idempotent_counterexample :
    createDrivePath stB "//a" = .ok (stB1, 2) ∧
      createDrivePath stB1 "//a" = .ok (stB2, 1) ∧
      stB2 ≠ stB1 ∧ WFState stB := by
  refine ⟨by decide, by decide, by decide, by decide⟩

/-! ## Basename and dirname over appended segments -/

theorem takeWhile_append_stop (p : Char → Bool) (A B : List Char) (b : Char)
    (hA : ∀ a ∈ A, p a = true) (hb : p b = false) :
    (A ++ b :: B).takeWhile p = A := by
  induction A with
  | nil =>
    rw [List.nil_append, List.takeWhile_cons_of_neg (by simp [hb])]
  | cons a A ih =>
    have ha := hA a (List.mem_cons_self a A)
    rw [List.cons_append, List.takeWhile_cons_of_pos ha,
      ih (fun x hx => hA x (List.mem_cons_of_mem a hx))]

theorem dropWhile_append_stop (p : Char → Bool) (A B : List Char) (b : Char)
    (hA : ∀ a ∈ A, p a = true) (hb : p b = false) :
    (A ++ b :: B).dropWhile p = b :: B := by
  induction A with
  | nil =>
    rw [List.nil_append, List.dropWhile_cons_of_neg (by simp [hb])]
  | cons a A ih =>
    have ha := hA a (List.mem_cons_self a A)
    rw [List.cons_append, List.dropWhile_cons_of_pos ha]
    exact ih (fun x hx => hA x (List.mem_cons_of_mem a hx))

theorem append_sep_data (q t : String) :
    (q ++ "/" ++ t).data = q.data ++ '/' :: t.data := by
  simp [String.data_append]

theorem pyBasename_append (q t : String) (ht : '/' ∉ t.data) :
    pyBasename (q ++ "/" ++ t) = t := by
  unfold pyBasename
  rw [append_sep_data]
  have hrev : (q.data ++ '/' :: t.data).reverse =
      t.data.reverse ++ '/' :: q.data.reverse := by
    simp
  rw [hrev, takeWhile_append_stop _ _ _ _ ?_ (by simp)]
  · simp [mk_data]
  · intro a ha
    have : a ∈ t.data := List.mem_reverse.mp ha
    simp
    intro hc
    exact ht (hc ▸ this)

theorem pyDirname_append (q t : String) (ht : '/' ∉ t.data) (hq1 : q ≠ "")
    (hq2 : q.data.getLast? ≠ some '/') :
    pyDirname (q ++ "/" ++ t) = q := by
  have hqd : q.data ≠ [] := fun h => hq1 ((data_eq_nil_iff q).1 h)
  obtain ⟨c, hc⟩ : ∃ c, q.data.getLast? = some c := by
    cases hgl : q.data.getLast? with
    | none => exact absurd (List.getLast?_eq_none_iff.mp hgl) hqd
    | some c => exact ⟨c, rfl⟩
  have hcne : c ≠ '/' := fun h => hq2 (h ▸ hc)
  have hhead : q.data.reverse.head? = some c := by
    rw [List.head?_reverse]
    exact hc
  unfold pyDirname
  rw [append_sep_data]
  have hrev : (q.data ++ '/' :: t.data).reverse =
      t.data.reverse ++ '/' :: q.data.reverse := by
    simp
  rw [hrev, dropWhile_append_stop _ _ _ _ ?_ (by simp)]
  · have hne : ('/' :: q.data.reverse).reverse ≠ [] := by simp
    rw [if_neg hne]
    have hnall : ¬ (('/' :: q.data.reverse).reverse.all (fun ch => ch = '/')) = true := by
      intro hall
      rw [List.all_eq_true] at hall
      have hcq : c ∈ q.data := List.mem_of_mem_getLast? hc
      have hcmem : c ∈ ('/' :: q.data.reverse).reverse := by
        simp
        exact Or.inl hcq
      have := hall c hcmem
      simp at this
      exact hcne this
    rw [if_neg hnall]
    have hsimp : ('/' :: q.data.reverse).reverse.reverse = '/' :: q.data.reverse := by
      simp
    rw [hsimp]
    have hdw : ('/' :: q.data.reverse).dropWhile (fun ch => ch = '/') = q.data.reverse := by
      rw [List.dropWhile]
      simp only [decide_True]
      cases hqr : q.data.reverse with
      | nil => exact absurd (by simpa using congrArg List.reverse hqr) hqd
      | cons x xs =>
        have hx : x = c := by
          rw [hqr] at hhead
          simpa using hhead
        rw [List.dropWhile]
        have : ¬ ((fun ch => decide (ch = '/')) x = true) := by
          simp [hx]
          exact hcne
        simp only [hx]
        simp [hcne]
    rw [hdw]
    simp [mk_data]
  · intro a ha
    have : a ∈ t.data := List.mem_reverse.mp ha
    simp
    intro hcq
    exact ht (hcq ▸ this)

theorem getLast?_cons_ne_nil {α : Type _} (x : α) (L : List α) (h : L ≠ []) :
    (x :: L).getLast? = L.getLast? := by
  cases L with
  | nil => exact absurd rfl h
  | cons y ys => simp [List.getLast?_cons_cons]

theorem pySplitAux_getLast_sep (l : List Char) :
    ∀ acc, l.getLast? = some '/' → (pySplitAux '/' acc l).getLast? = some "" := by
  induction l with
  | nil => intro acc h; simp at h
  | cons ch cs ih =>
    intro acc h
    by_cases hcs : cs = []
    · subst hcs
      have hch : ch = '/' := by simpa using h
      subst hch
      rfl
    · have hlast : cs.getLast? = some '/' := by
        rw [← getLast?_cons_ne_nil ch cs hcs]
        exact h
      by_cases hch : ch = '/'
      · subst hch
        show (String.mk acc.reverse :: pySplitAux '/' [] cs).getLast? = some ""
        rw [getLast?_cons_ne_nil _ _ (pySplitAux_ne_nil '/' [] cs)]
        exact ih [] hlast
      · have hstep : pySplitAux '/' acc (ch :: cs) = pySplitAux '/' (ch :: acc) cs := by
          simp [pySplitAux, hch]
        rw [hstep]
        exact ih (ch :: acc) hlast

theorem pathFacts_no_trailing_slash (Q : String) (segs : List String)
    (hf : PathFacts Q segs) (hne : ∀ seg ∈ segs, seg ≠ "") :
    Q.data.getLast? ≠ some '/' := by
  obtain ⟨hcne, hsplit⟩ := hf
  have hclast : (cleanInitialSlash Q).data.getLast? ≠ some '/' := by
    intro hl
    have hx := pySplitAux_getLast_sep (cleanInitialSlash Q).data [] hl
    rw [show pySplitAux '/' [] (cleanInitialSlash Q).data =
      pySplit (cleanInitialSlash Q) '/' from rfl, hsplit] at hx
    have hmem : ("" : String) ∈ segs := List.mem_of_mem_getLast? hx
    exact hne "" hmem rfl
  intro hql
  apply hclast
  by_cases hh : Q.data.head? = some '/'
  · have hcform : cleanInitialSlash Q = String.mk Q.data.tail := by
      unfold cleanInitialSlash
      rw [if_pos hh]
    rw [hcform]
    show Q.data.tail.getLast? = some '/'
    have htail : Q.data.tail ≠ [] := by
      intro h0
      apply hcne
      rw [hcform, h0]
    cases hQd : Q.data with
    | nil => rw [hQd] at hh; simp at hh
    | cons x xs =>
      rw [hQd] at hql htail
      simp only [List.tail_cons] at htail
      rw [getLast?_cons_ne_nil x xs htail] at hql
      exact hql
  · have hcform : cleanInitialSlash Q = Q := by
      unfold cleanInitialSlash
      rw [if_neg hh]
    rw [hcform]
    exact hql

/-! ## C1: subtree-containment and local-filesystem lemmas -/

theorem under_refl (p : List String) : Under p p := ⟨[], by simp⟩

theorem under_append (base r : List String) : Under base (base ++ r) := ⟨r, rfl⟩

theorem under_extend {base p : List String} (h : Under base p) (rel : List String) :
    Under base (p ++ rel) := by
  obtain ⟨r, hr⟩ := h
  exact ⟨r ++ rel, by simp [hr]⟩

theorem under_widen {base p q : List String} (h : Under (base ++ p) q) : Under base q := by
  obtain ⟨r, hr⟩ := h
  exact ⟨p ++ r, by simp [hr]⟩

theorem under_antisymm {a b : List String} (h1 : Under a b) (h2 : Under b a) : a = b := by
  obtain ⟨r1, hr1⟩ := h1
  obtain ⟨r2, hr2⟩ := h2
  have hlen : b.length = a.length + r1.length := by simp [hr1]
  have hlen2 : a.length = b.length + r2.length := by simp [hr2]
  have : r1.length = 0 := by omega
  have hr1nil : r1 = [] := List.length_eq_zero.mp this
  rw [hr1, hr1nil, List.append_nil]

theorem under_length {a b : List String} (h : Under a b) : a.length ≤ b.length := by
  obtain ⟨r, hr⟩ := h
  simp [hr]

theorem under_comparable {a b q : List String} (ha : Under a q) (hb : Under b q) :
    Under a b ∨ Under b a := by
  obtain ⟨r1, hr1⟩ := ha
  obtain ⟨r2, hr2⟩ := hb
  subst hr1
  induction a generalizing b with
  | nil => exact Or.inl ⟨b, by simp⟩
  | cons x xs ih =>
    cases b with
    | nil => exact Or.inr ⟨x :: xs, by simp⟩
    | cons y ys =>
      have hxy : x = y ∧ xs ++ r1 = ys ++ r2 := by
        have := hr2
        simp only [List.cons_append, List.cons.injEq] at this
        exact this
      rcases ih hxy.2 with ⟨r, hr⟩ | ⟨r, hr⟩
      · exact Or.inl ⟨r, by simp [hxy.1, hr]⟩
      · exact Or.inr ⟨r, by simp [hxy.1, hr]⟩

theorem lookupFS_mem {fs : LocalFS} {p : List String} {n : FSNode}
    (h : lookupFS fs p = some n) : (p, n) ∈ fs.entries := by
  unfold lookupFS at h
  cases hf : fs.entries.find? (fun e => e.1 = p) with
  | none => rw [hf] at h; simp at h
  | some e =>
    rw [hf] at h
    simp at h
    have hm := List.mem_of_find?_eq_some hf
    have hp := List.find?_some hf
    simp at hp
    have : e = (p, n) := by
      cases e
      simp_all
    rw [← this]
    exact hm

theorem lookupFS_ne_none_of_mem {fs : LocalFS} {e : List String × FSNode}
    (h : e ∈ fs.entries) : lookupFS fs e.1 ≠ none := by
  unfold lookupFS
  intro hc
  cases hf : fs.entries.find? (fun x => x.1 = e.1) with
  | some v => rw [hf] at hc; simp at hc
  | none =>
    have := List.find?_eq_none.mp hf e h
    simp at this

theorem lookupFS_none_iff {fs : LocalFS} {p : List String} :
    lookupFS fs p = none ↔ ∀ e ∈ fs.entries, e.1 ≠ p := by
  unfold lookupFS
  constructor
  · intro h e he
    cases hf : fs.entries.find? (fun x => x.1 = p) with
    | some v => rw [hf] at h; simp at h
    | none =>
      have := List.find?_eq_none.mp hf e he
      simpa using this
  · intro h
    cases hf : fs.entries.find? (fun x => x.1 = p) with
    | none => simp
    | some v =>
      have hm := List.mem_of_find?_eq_some hf
      have hp := List.find?_some hf
      simp at hp
      exact absurd hp (h v hm)

theorem wfLocal_fsInv {fs : LocalFS} (h : WFLocal fs) : FSInv fs := by
  obtain ⟨h1, h2, h3, _, _⟩ := h
  exact ⟨h1, fun e he => ⟨(h2 e he).1, (h2 e he).2.2⟩, h3⟩

theorem fsInv_lookup_ne_nil {fs : LocalFS} (hinv : FSInv fs) {p : List String}
    (h : lookupFS fs p ≠ none) : p ≠ [] := by
  cases hl : lookupFS fs p with
  | none => exact absurd hl h
  | some n =>
    have hm := lookupFS_mem hl
    exact (hinv.2.1 (p, n) hm).1

theorem fsInv_ancestor_dir {fs : LocalFS} (hinv : FSInv fs) :
    ∀ (r q : List String), lookupFS fs (q ++ r) ≠ none → q ≠ [] → r ≠ [] →
      lookupFS fs q = some .dir := by
  intro r
  induction r using List.reverseRecOn with
  | nil => intro q _ _ hr; exact absurd rfl hr
  | append_singleton r1 x ih =>
    intro q h hq _
    cases hl : lookupFS fs (q ++ (r1 ++ [x])) with
    | none => exact absurd hl h
    | some n =>
      have hm := lookupFS_mem hl
      have he := hinv.2.1 _ hm
      have hdl : (q ++ (r1 ++ [x])).dropLast = q ++ r1 := by
        rw [List.dropLast_append_of_ne_nil _ (by simp)]
        simp
      rcases he.2 with h0 | hdir
      · rw [hdl] at h0
        exact absurd (List.append_eq_nil.mp h0).1 hq
      · rw [hdl] at hdir
        by_cases hr1 : r1 = []
        · subst hr1
          simpa using hdir
        · exact ih q (by rw [hdir]; simp) hq hr1

theorem fsInv_none_extend {fs : LocalFS} (hinv : FSInv fs) {p : List String}
    (hp : lookupFS fs p = none) (hpne : p ≠ []) :
    ∀ rel, rel ≠ [] → lookupFS fs (p ++ rel) = none := by
  intro rel hrel
  by_contra h
  have := fsInv_ancestor_dir hinv rel p h hpne hrel
  rw [hp] at this
  exact absurd this (by simp)

theorem fsInv_file_extend {fs : LocalFS} (hinv : FSInv fs) {p : List String} {c : List Nat}
    (hp : lookupFS fs p = some (.file c)) :
    ∀ rel, rel ≠ [] → lookupFS fs (p ++ rel) = none := by
  intro rel hrel
  by_contra h
  have hpne : p ≠ [] := fsInv_lookup_ne_nil hinv (by rw [hp]; simp)
  have := fsInv_ancestor_dir hinv rel p h hpne hrel
  rw [hp] at this
  simp at this

theorem fsInv_not_under_cwd {fs : LocalFS} (hinv : FSInv fs) {lp : List String}
    (hlp : lookupFS fs lp = none) (hne : lp ≠ []) : ¬ Under lp fs.cwd := by
  rintro ⟨r, hr⟩
  cases r with
  | nil =>
    rw [List.append_nil] at hr
    have hc := hinv.2.2
    rw [hr, hlp] at hc
    simp at hc
  | cons a l =>
    have := fsInv_ancestor_dir hinv (a :: l) lp (by rw [← hr, hinv.2.2]; simp) hne (by simp)
    rw [hlp] at this
    simp at this

theorem osListdir_entry_eq {p : List String} {e : List String × FSNode} {t : String}
    (h : (if e.1.dropLast = p ∧ e.1 ≠ [] then e.1.getLast? else none) = some t) :
    e.1 = p ++ [t] := by
  by_cases hc : e.1.dropLast = p ∧ e.1 ≠ []
  · rw [if_pos hc] at h
    have := List.dropLast_append_getLast? t h
    rw [hc.1] at this
    exact this.symm
  · rw [if_neg hc] at h
    simp at h

theorem mem_osListdir {fs : LocalFS} {p : List String} {t : String}
    (h : t ∈ osListdir fs p) : ∃ e ∈ fs.entries, e.1 = p ++ [t] := by
  unfold osListdir at h
  obtain ⟨e, he, hfe⟩ := List.mem_filterMap.mp h
  exact ⟨e, he, osListdir_entry_eq hfe⟩

theorem osListdir_lookup {fs : LocalFS} {p : List String} {t : String}
    (h : t ∈ osListdir fs p) : lookupFS fs (p ++ [t]) ≠ none := by
  obtain ⟨e, he, hfe⟩ := mem_osListdir h
  have := lookupFS_ne_none_of_mem he
  rw [hfe] at this
  exact this

theorem lookup_osListdir {fs : LocalFS} {p : List String} {t : String}
    (h : lookupFS fs (p ++ [t]) ≠ none) : t ∈ osListdir fs p := by
  cases hl : lookupFS fs (p ++ [t]) with
  | none => exact absurd hl h
  | some n =>
    have hm := lookupFS_mem hl
    unfold osListdir
    refine List.mem_filterMap.mpr ⟨(p ++ [t], n), hm, ?_⟩
    rw [if_pos ⟨by simp, by simp⟩]
    simp

theorem not_mem_osListdir {fs : LocalFS} {p : List String} {t : String}
    (h : t ∉ osListdir fs p) : lookupFS fs (p ++ [t]) = none := by
  by_contra hc
  exact h (lookup_osListdir hc)

theorem listdirAux_nodup (p : List String) :
    ∀ (l : List (List String × FSNode)), (l.map (fun e => e.1)).Nodup →
      (l.filterMap (fun e =>
        if e.1.dropLast = p ∧ e.1 ≠ [] then e.1.getLast? else none)).Nodup := by
  intro l
  induction l with
  | nil => intro _; simp
  | cons e es ih =>
    intro hpaths
    rw [List.map_cons, List.nodup_cons] at hpaths
    cases hfe : (if e.1.dropLast = p ∧ e.1 ≠ [] then e.1.getLast? else none) with
    | none => simpa [List.filterMap_cons, hfe] using ih hpaths.2
    | some t =>
      simp only [List.filterMap_cons, hfe]
      rw [List.nodup_cons]
      refine ⟨?_, ih hpaths.2⟩
      intro hmem
      obtain ⟨e2, he2, hfe2⟩ := List.mem_filterMap.mp hmem
      have h1 := osListdir_entry_eq hfe
      have h2 := osListdir_entry_eq hfe2
      apply hpaths.1
      refine List.mem_map.mpr ⟨e2, he2, ?_⟩
      show e2.1 = e.1
      rw [h2, ← h1]

theorem osListdir_nodup {fs : LocalFS} (hinv : FSInv fs) (p : List String) :
    (osListdir fs p).Nodup :=
  listdirAux_nodup p fs.entries hinv.1

theorem osListdir_names_good {fs : LocalFS} (hwf : WFLocal fs) (p : List String) :
    ∀ t ∈ osListdir fs p, goodName t := by
  intro t ht
  obtain ⟨e, he, hfe⟩ := mem_osListdir ht
  have := (hwf.2.1 e he).2.1 t
  apply this
  rw [hfe]
  simp

theorem osIsDir_lookup {fs : LocalFS} {p : List String} :
    osIsDir fs p = true ↔ lookupFS fs p = some .dir := by
  unfold osIsDir
  cases lookupFS fs p with
  | none => simp
  | some n => cases n <;> simp

theorem osIsFile_lookup {fs : LocalFS} {p : List String} :
    osIsFile fs p = true ↔ ∃ c, lookupFS fs p = some (.file c) := by
  unfold osIsFile
  cases lookupFS fs p with
  | none => simp
  | some n => cases n <;> simp

theorem osExists_lookup {fs : LocalFS} {p : List String} :
    osExists fs p = false ↔ lookupFS fs p = none := by
  unfold osExists
  cases lookupFS fs p <;> simp

/-! ## C1: drive query, growth and chain lemmas -/

theorem listFile_title_filter (s : DriveState) (p : Option Nat) (t : String) :
    listFile s p (some t) = (listFile s p none).filter (fun o => o.title == t) := by
  unfold listFile
  rw [List.filter_filter]
  congr 1
  funext o
  unfold matchesQuery
  cases o.parents.contains p <;> cases o.trashed <;> cases h : (o.title == t) <;> simp [h]

theorem filter_title_single {C : List DriveObject} {names : List String}
    (hmap : C.map (fun o => o.title) = names) (hnd : names.Nodup) {c : DriveObject}
    (hc : c ∈ C) : C.filter (fun o => o.title == c.title) = [c] := by
  subst hmap
  induction C with
  | nil => simp at hc
  | cons a l ih =>
    rw [List.map_cons, List.nodup_cons] at hnd
    rcases List.mem_cons.mp hc with h | h
    · subst h
      rw [List.filter_cons_of_pos (by simp)]
      have : l.filter (fun o => o.title == c.title) = [] := by
        rw [List.filter_eq_nil_iff]
        intro o ho hq
        simp at hq
        exact hnd.1 (hq ▸ List.mem_map.mpr ⟨o, ho, rfl⟩)
      rw [this]
    · have hne : ¬ (a.title == c.title) = true := by
        simp
        intro he
        exact hnd.1 (he ▸ List.mem_map.mpr ⟨c, h, rfl⟩)
      rw [List.filter_cons, if_neg hne]
      exact ih h hnd.2

theorem filter_title_nil {C : List DriveObject} {t : String}
    (h : t ∉ C.map (fun o => o.title)) : C.filter (fun o => o.title == t) = [] :=
  List.filter_eq_nil_iff.mpr fun o ho hq => h (List.mem_map.mpr ⟨o, ho, by simpa using hq⟩)

theorem listFile_ne_nil_of_title_mem {s : DriveState} {p : Option Nat} {t : String}
    (h : t ∈ (listFile s p none).map (fun o => o.title)) : listFile s p (some t) ≠ [] := by
  obtain ⟨o, ho, hot⟩ := List.mem_map.mp h
  rw [listFile_title_filter]
  intro hc
  have hm : o ∈ (listFile s p none).filter (fun x => x.title == t) :=
    List.mem_filter.mpr ⟨ho, by simp [hot]⟩
  rw [hc] at hm
  simp at hm

theorem title_not_mem_of_listFile_nil {s : DriveState} {p : Option Nat} {t : String}
    (h : listFile s p (some t) = []) : t ∉ (listFile s p none).map (fun o => o.title) :=
  fun hm => listFile_ne_nil_of_title_mem hm h

theorem createFile_objects (s : DriveState) (pid : Option Nat) (t : String) (c : List Nat) :
    (createFile s pid t c).objects = s.objects ++ [newFileObj s pid t c] := rfl

theorem createFile_nextId (s : DriveState) (pid : Option Nat) (t : String) (c : List Nat) :
    (createFile s pid t c).nextId = s.nextId + 1 := rfl

theorem listFile_createFile (s : DriveState) (pid : Option Nat) (t0 : String) (c0 : List Nat)
    (p : Option Nat) (t : Option String) :
    listFile (createFile s pid t0 c0) p t =
      listFile s p t ++
        (if matchesQuery p t (newFileObj s pid t0 c0) then [newFileObj s pid t0 c0] else []) := by
  unfold listFile
  rw [createFile_objects, List.filter_append]
  congr 1
  simp [List.filter]
  split <;> rename_i hsp <;> simp_all

theorem createFile_belowOk {s : DriveState} (h : BelowOk s) (pid : Option Nat)
    (t : String) (c : List Nat) (hpid : ∀ q, pid = some q → q < s.nextId) :
    BelowOk (createFile s pid t c) := by
  obtain ⟨hb, hp⟩ := h
  constructor
  · intro o ho
    rw [createFile_objects] at ho
    rw [createFile_nextId]
    rcases List.mem_append.mp ho with h1 | h1
    · exact Nat.lt_succ_of_lt (hb o h1)
    · simp [newFileObj] at h1
      subst h1
      exact Nat.lt_succ_self _
  · intro o ho pid' hpid' q hq
    rw [createFile_objects] at ho
    rw [createFile_nextId]
    rcases List.mem_append.mp ho with h1 | h1
    · exact Nat.lt_succ_of_lt (hp o h1 pid' hpid' q hq)
    · simp [newFileObj] at h1
      subst h1
      simp at hpid'
      subst hpid'
      exact Nat.lt_succ_of_lt (hpid q hq)

theorem createFile_new_no_children {s : DriveState} (h : BelowOk s) (pid : Option Nat)
    (t0 : String) (c0 : List Nat) (hpid : ∀ q, pid = some q → q < s.nextId)
    (t : Option String) :
    listFile (createFile s pid t0 c0) (some s.nextId) t = [] := by
  unfold listFile
  rw [createFile_objects, List.filter_eq_nil_iff]
  intro o ho hm
  have hmem : (some s.nextId : Option Nat) ∈ o.parents := matchesQuery_parent_mem hm
  rcases List.mem_append.mp ho with h1 | h1
  · have := h.2 o h1 (some s.nextId) hmem s.nextId rfl
    omega
  · simp [newFileObj] at h1
    subst h1
    simp [newFileObj] at hmem
    have := hpid s.nextId hmem.symm
    omega

theorem newFolderObj_dir (s : DriveState) (pid : Option Nat) (t : String) :
    isDriveDir (newFolderObj s pid t) = true := rfl

theorem newFileObj_not_dir (s : DriveState) (pid : Option Nat) (t : String) (c : List Nat) :
    isDriveDir (newFileObj s pid t c) = false := rfl

theorem childGrowth_refl (s : DriveState) (a : Nat) : ChildGrowth s s a :=
  ⟨[], by simp, le_refl _, by simp⟩

theorem childGrowth_appended {s s' : DriveState} {a : Nat} (h : ChildGrowth s s' a) :
    Appended s s' := by
  obtain ⟨t, h1, h2, _⟩ := h
  exact ⟨t, h1, h2⟩

theorem childGrowth_createFolder (s : DriveState) (a : Nat) (t : String) :
    ChildGrowth s (createFolder s (some a) t) a := by
  refine ⟨[newFolderObj s (some a) t], rfl, Nat.le_succ _, ?_⟩
  intro o ho
  simp at ho
  subst ho
  exact ⟨a, rfl, Or.inl rfl⟩

theorem childGrowth_createFile (s : DriveState) (a : Nat) (t : String) (c : List Nat) :
    ChildGrowth s (createFile s (some a) t c) a := by
  refine ⟨[newFileObj s (some a) t c], rfl, Nat.le_succ _, ?_⟩
  intro o ho
  simp at ho
  subst ho
  exact ⟨a, rfl, Or.inl rfl⟩

theorem childGrowth_step {s s2 s' : DriveState} {a b : Nat} (h2 : ChildGrowth s2 s' b)
    (t0 : List DriveObject) (h1 : s2.objects = s.objects ++ t0) (hn : s.nextId ≤ s2.nextId)
    (ht0 : ∀ o ∈ t0, ∃ q, o.parents = [some q] ∧ (q = a ∨ s.nextId ≤ q))
    (hb : b = a ∨ s.nextId ≤ b) : ChildGrowth s s' a := by
  obtain ⟨t1, h1', hn', ht1⟩ := h2
  refine ⟨t0 ++ t1, by rw [h1', h1, List.append_assoc], le_trans hn hn', ?_⟩
  intro o ho
  rcases List.mem_append.mp ho with h | h
  · exact ht0 o h
  · obtain ⟨q, hq1, hq2⟩ := ht1 o h
    refine ⟨q, hq1, ?_⟩
    rcases hq2 with h' | h'
    · subst h'
      exact hb
    · exact Or.inr (le_trans hn h')

theorem childGrowth_trans {s s2 s' : DriveState} {a : Nat} (h1 : ChildGrowth s s2 a)
    (h2 : ChildGrowth s2 s' a) : ChildGrowth s s' a := by
  obtain ⟨t0, ha, hb, hc⟩ := h1
  exact childGrowth_step h2 t0 ha hb hc (Or.inl rfl)

theorem listFile_growth_frozen {s s' : DriveState} {a : Nat} (h : ChildGrowth s s' a)
    {k : Nat} (hk1 : k ≠ a) (hk2 : k < s.nextId) (t : Option String) :
    listFile s' (some k) t = listFile s (some k) t := by
  obtain ⟨tail, h1, _, ht⟩ := h
  unfold listFile
  rw [h1, List.filter_append]
  have hnil : tail.filter (matchesQuery (some k) t) = [] := by
    rw [List.filter_eq_nil_iff]
    intro o ho hm
    have hmem := matchesQuery_parent_mem hm
    obtain ⟨q, hq1, hq2⟩ := ht o ho
    rw [hq1] at hmem
    simp at hmem
    subst hmem
    rcases hq2 with h' | h' <;> omega
  rw [hnil, List.append_nil]

theorem listFile_growth_root_frozen {s s' : DriveState} {a : Nat} (h : ChildGrowth s s' a)
    (t : Option String) : listFile s' none t = listFile s none t := by
  obtain ⟨tail, h1, _, ht⟩ := h
  unfold listFile
  rw [h1, List.filter_append]
  have hnil : tail.filter (matchesQuery none t) = [] := by
    rw [List.filter_eq_nil_iff]
    intro o ho hm
    have hmem := matchesQuery_parent_mem hm
    obtain ⟨q, hq1, _⟩ := ht o ho
    rw [hq1] at hmem
    simp at hmem
  rw [hnil, List.append_nil]

theorem uniqueChain_preserved {s s' : DriveState} {F : DriveObject}
    (hg : ChildGrowth s s' F.id) (hF : F.id < s.nextId) :
    ∀ (segs : List String) (pid : Option Nat),
      (pid = none ∨ ∃ y, pid = some y ∧ y < F.id) →
      UniqueChain s pid segs F → UniqueChain s' pid segs F := by
  intro segs
  induction segs with
  | nil =>
    intro pid _ hc
    exact absurd hc (by simp [UniqueChain])
  | cons seg rest ih =>
    intro pid hpid hc
    have hfroz : listFile s' pid (some seg) = listFile s pid (some seg) := by
      rcases hpid with h | ⟨y, hy, hylt⟩
      · subst h
        exact listFile_growth_root_frozen hg _
      · subst hy
        exact listFile_growth_frozen hg (by omega) (by omega) _
    cases rest with
    | nil =>
      show listFile s' pid (some seg) = [F]
      rw [hfroz]
      exact hc
    | cons r1 rr =>
      obtain ⟨Y, h1, h2, h3, h4⟩ := hc
      exact ⟨Y, by rw [hfroz]; exact h1, h2, h3, ih (some Y.id) (Or.inr ⟨Y.id, rfl, h3⟩) h4⟩

theorem uniqueChain_walkFrom (s : DriveState) (F : DriveObject) :
    ∀ (segs : List String) (pid : Option Nat), UniqueChain s pid segs F →
      match segs with
      | [] => True
      | seg :: rest => walkFrom s (listFile s pid (some seg)) rest = [F] := by
  intro segs
  induction segs with
  | nil => intro _ _; trivial
  | cons seg rest ih =>
    intro pid hc
    cases rest with
    | nil =>
      show walkFrom s (listFile s pid (some seg)) [] = [F]
      have hx : listFile s pid (some seg) = [F] := hc
      simpa [walkFrom] using hx
    | cons r1 rr =>
      obtain ⟨Y, h1, _, _, h4⟩ := hc
      have hw := ih (some Y.id) h4
      show walkFrom s (listFile s pid (some seg)) (r1 :: rr) = [F]
      rw [h1]
      exact hw

theorem uniqueChain_resolve {s : DriveState} {dp : String} {segs : List String}
    {F : DriveObject} (hpf : PathFacts dp segs) (hc : UniqueChain s none segs F) :
    getDriveObject s dp = [F] := by
  cases segs with
  | nil => exact absurd hc (by simp [UniqueChain])
  | cons n rest =>
    rw [getDriveObject_eq_walk s dp hpf.1 hpf.2]
    exact uniqueChain_walkFrom s F (n :: rest) none hc

theorem uniqueChain_snoc {s : DriveState} {F G : DriveObject} {t : String}
    (hfol : F.mimeType = folderMime) (hlt : F.id < G.id)
    (hG : listFile s (some F.id) (some t) = [G]) :
    ∀ {segs : List String} {pid : Option Nat}, UniqueChain s pid segs F →
      UniqueChain s pid (segs ++ [t]) G := by
  intro segs
  induction segs with
  | nil =>
    intro pid hc
    exact absurd hc (by simp [UniqueChain])
  | cons seg rest ih =>
    intro pid hc
    cases rest with
    | nil =>
      have hx : listFile s pid (some seg) = [F] := hc
      exact ⟨F, hx, hfol, hlt, hG⟩
    | cons r1 rr =>
      obtain ⟨Y, h1, h2, h3, h4⟩ := hc
      exact ⟨Y, h1, h2, by omega, ih h4⟩

theorem resolve_snoc {s : DriveState} {dp : String} {segs : List String} {F : DriveObject}
    {t : String} (hpf : PathFacts dp segs) (hres : getDriveObject s dp = [F])
    (ht1 : t ≠ "") (ht2 : '/' ∉ t.data) :
    getDriveObject s (dp ++ "/" ++ t) = listFile s (some F.id) (some t) := by
  have hpf2 : PathFacts (dp ++ "/" ++ t) (segs ++ [t]) := pathFacts_step dp segs t hpf ht1 ht2
  rw [getDriveObject_eq_walkRootSegs s _ _ hpf2,
    walkRootSegs_snoc s segs t (pathFacts_done_ne_nil hpf)]
  have hws : walkRootSegs s segs = [F] := by
    rw [← getDriveObject_eq_walkRootSegs s dp segs hpf]
    exact hres
  rw [hws]

/-! ## C1: head-chain lemmas -/

theorem head_append_of_head {α : Type _} {l l' : List α} {a : α}
    (h : l.head? = some a) : (l ++ l').head? = some a := by
  cases l with
  | nil => cases h
  | cons x xs => simpa using h

theorem head_cons_of_head {α : Type _} {l : List α} {a : α}
    (h : l.head? = some a) : ∃ tl, l = a :: tl := by
  cases l with
  | nil => cases h
  | cons x xs =>
    have hxa : x = a := by simpa using h
    exact ⟨xs, by rw [hxa]⟩

theorem mem_of_head {α : Type _} {l : List α} {a : α}
    (h : l.head? = some a) : a ∈ l := by
  obtain ⟨tl, htl⟩ := head_cons_of_head h
  rw [htl]
  simp

theorem headChain_appended {s s' : DriveState} (h : Appended s s')
    (jp : Option (Nat × String)) (F : DriveObject) :
    ∀ (segs : List String) (pid : Option Nat),
      HeadChain s jp pid segs F → HeadChain s' jp pid segs F := by
  intro segs
  induction segs with
  | nil =>
    intro pid hc
    exact absurd hc (by simp [HeadChain])
  | cons seg rest ih =>
    intro pid hc
    obtain ⟨extra, hex⟩ := listFile_appended h pid (some seg)
    cases rest with
    | nil =>
      show (listFile s' pid (some seg)).head? = some F
      rw [hex]
      exact head_append_of_head hc
    | cons r1 rr =>
      obtain ⟨Y, h1, h2, h3⟩ := hc
      exact ⟨Y, by rw [hex]; exact head_append_of_head h1, h2, ih (some Y.id) h3⟩

theorem headChain_jp_any {s : DriveState} {jp : Option (Nat × String)} {F : DriveObject} :
    ∀ {segs : List String} {pid : Option Nat},
      HeadChain s none pid segs F → HeadChain s jp pid segs F := by
  intro segs
  induction segs with
  | nil =>
    intro pid hc
    exact absurd hc (by simp [HeadChain])
  | cons seg rest ih =>
    intro pid hc
    cases rest with
    | nil => exact hc
    | cons r1 rr =>
      obtain ⟨Y, h1, h2, h3⟩ := hc
      refine ⟨Y, h1, ?_, ih h3⟩
      rcases h2 with h2 | h2
      · exact Or.inl h2
      · cases h2

theorem headChain_of_uniqueChain {s : DriveState} {F : DriveObject}
    (jp : Option (Nat × String)) :
    ∀ {segs : List String} {pid : Option Nat},
      UniqueChain s pid segs F → HeadChain s jp pid segs F := by
  intro segs
  induction segs with
  | nil =>
    intro pid hc
    exact absurd hc (by simp [UniqueChain])
  | cons seg rest ih =>
    intro pid hc
    cases rest with
    | nil =>
      show (listFile s pid (some seg)).head? = some F
      have h1 : listFile s pid (some seg) = [F] := hc
      rw [h1]
      rfl
    | cons r1 rr =>
      obtain ⟨Y, h1, h2, _, h4⟩ := hc
      exact ⟨Y, by rw [h1]; rfl, Or.inl h2, ih h4⟩

theorem headChain_walkFrom (s : DriveState) (jp : Option (Nat × String)) (F : DriveObject) :
    ∀ (segs : List String) (pid : Option Nat), HeadChain s jp pid segs F →
      match segs with
      | [] => True
      | seg :: rest => ∃ tl, walkFrom s (listFile s pid (some seg)) rest = F :: tl := by
  intro segs
  induction segs with
  | nil => intro _ _; trivial
  | cons seg rest ih =>
    intro pid hc
    cases rest with
    | nil =>
      show ∃ tl, walkFrom s (listFile s pid (some seg)) [] = F :: tl
      obtain ⟨tl, htl⟩ := head_cons_of_head hc
      exact ⟨tl, by rw [walkFrom, htl]⟩
    | cons r1 rr =>
      obtain ⟨Y, h1, _, h3⟩ := hc
      have hw := ih (some Y.id) h3
      obtain ⟨tl, htl⟩ := head_cons_of_head h1
      show ∃ tl2, walkFrom s (listFile s pid (some seg)) (r1 :: rr) = F :: tl2
      rw [htl]
      exact hw

theorem headChain_resolve {s : DriveState} {jp : Option (Nat × String)} {dp : String}
    {segs : List String} {F : DriveObject} (hpf : PathFacts dp segs)
    (hc : HeadChain s jp none segs F) :
    ∃ tl, getDriveObject s dp = F :: tl := by
  cases segs with
  | nil => exact absurd hc (by simp [HeadChain])
  | cons n rest =>
    rw [getDriveObject_eq_walk s dp hpf.1 hpf.2]
    exact headChain_walkFrom s jp F (n :: rest) none hc

theorem headChain_snoc {s : DriveState} {jp : Option (Nat × String)} {F G : DriveObject}
    {t : String} (hFc : F.mimeType = folderMime ∨ jp = some (F.id, t))
    (hG : (listFile s (some F.id) (some t)).head? = some G) :
    ∀ {segs : List String} {pid : Option Nat}, HeadChain s jp pid segs F →
      HeadChain s jp pid (segs ++ [t]) G := by
  intro segs
  induction segs with
  | nil =>
    intro pid hc
    exact absurd hc (by simp [HeadChain])
  | cons seg rest ih =>
    intro pid hc
    cases rest with
    | nil =>
      have hx : (listFile s pid (some seg)).head? = some F := hc
      exact ⟨F, hx, hFc, hG⟩
    | cons r1 rr =>
      obtain ⟨Y, h1, h2, h3⟩ := hc
      exact ⟨Y, h1, h2, ih h3⟩

theorem resolve_head_appended {s s' : DriveState} (h : Appended s s') {pb : String}
    {X : DriveObject} {tl : List DriveObject} (hres : getDriveObject s pb = X :: tl) :
    ∃ tl', getDriveObject s' pb = X :: tl' := by
  by_cases hp : cleanInitialSlash pb = ""
  · unfold getDriveObject at hres ⊢
    rw [if_pos hp] at hres ⊢
    obtain ⟨extra, hex⟩ := listFile_appended h none none
    rw [hex, hres]
    exact ⟨tl ++ extra, by simp⟩
  · cases hs : pySplit (cleanInitialSlash pb) '/' with
    | nil => exact absurd hs (pySplitAux_ne_nil '/' [] (cleanInitialSlash pb).data)
    | cons n rest =>
      rw [getDriveObject_eq_walk s pb hp hs] at hres
      rw [getDriveObject_eq_walk s' pb hp hs]
      have hne : walkRootSegs s (n :: rest) ≠ [] := by
        show walkFrom s (listFile s none (some n)) rest ≠ []
        rw [hres]
        simp
      obtain ⟨junk, hj⟩ := walkRootSegs_appended h (n :: rest) hne
      refine ⟨tl ++ junk, ?_⟩
      have hj2 : walkFrom s' (listFile s' none (some n)) rest =
          walkFrom s (listFile s none (some n)) rest ++ junk := hj
      rw [hj2, hres]
      simp

theorem resolve_snoc_head {s : DriveState} {dp : String} {segs : List String}
    {X : DriveObject} {tl : List DriveObject} {t : String} (hpf : PathFacts dp segs)
    (hres : getDriveObject s dp = X :: tl) (ht1 : t ≠ "") (ht2 : '/' ∉ t.data) :
    getDriveObject s (dp ++ "/" ++ t) = listFile s (some X.id) (some t) := by
  have hpf2 : PathFacts (dp ++ "/" ++ t) (segs ++ [t]) := pathFacts_step dp segs t hpf ht1 ht2
  rw [getDriveObject_eq_walkRootSegs s _ _ hpf2,
    walkRootSegs_snoc s segs t (pathFacts_done_ne_nil hpf)]
  have hws : walkRootSegs s segs = X :: tl := by
    rw [← getDriveObject_eq_walkRootSegs s dp segs hpf]
    exact hres
  rw [hws]

theorem resolve_snoc_dead {s : DriveState} {dp : String} {segs : List String}
    {t : String} (hpf : PathFacts dp segs) (hres : getDriveObject s dp = [])
    (ht1 : t ≠ "") (ht2 : '/' ∉ t.data) :
    getDriveObject s (dp ++ "/" ++ t) = [] := by
  have hpf2 : PathFacts (dp ++ "/" ++ t) (segs ++ [t]) := pathFacts_step dp segs t hpf ht1 ht2
  rw [getDriveObject_eq_walkRootSegs s _ _ hpf2,
    walkRootSegs_snoc s segs t (pathFacts_done_ne_nil hpf)]
  have hws : walkRootSegs s segs = [] := by
    rw [← getDriveObject_eq_walkRootSegs s dp segs hpf]
    exact hres
  rw [hws]

/-! ## C1: junk-tolerant growth lemmas -/

theorem growthJ_refl (s : DriveState) (a : Nat) (jp : Option (Nat × String)) :
    GrowthJ s s a jp :=
  ⟨[], by simp, le_refl _, by simp⟩

theorem growthJ_of_child {s s' : DriveState} {a : Nat} (jp : Option (Nat × String))
    (h : ChildGrowth s s' a) : GrowthJ s s' a jp := by
  obtain ⟨t, h1, h2, h3⟩ := h
  refine ⟨t, h1, h2, ?_⟩
  intro o ho
  obtain ⟨q, hq1, hq2⟩ := h3 o ho
  refine ⟨q, hq1, ?_⟩
  rcases hq2 with h' | h'
  · exact Or.inl h'
  · exact Or.inr (Or.inl h')

theorem growthJ_appended {s s' : DriveState} {a : Nat} {jp : Option (Nat × String)}
    (h : GrowthJ s s' a jp) : Appended s s' := by
  obtain ⟨t, h1, h2, _⟩ := h
  exact ⟨t, h1, h2⟩

theorem growthJ_step {s s2 s' : DriveState} {a b : Nat} {jp : Option (Nat × String)}
    (h2 : GrowthJ s2 s' b jp) (t0 : List DriveObject)
    (h1 : s2.objects = s.objects ++ t0) (hn : s.nextId ≤ s2.nextId)
    (ht0 : ∀ o ∈ t0, ∃ q, o.parents = [some q] ∧
      (q = a ∨ s.nextId ≤ q ∨ jp = some (q, o.title)))
    (hb : b = a ∨ s.nextId ≤ b) : GrowthJ s s' a jp := by
  obtain ⟨t1, h1', hn', ht1⟩ := h2
  refine ⟨t0 ++ t1, by rw [h1', h1, List.append_assoc], le_trans hn hn', ?_⟩
  intro o ho
  rcases List.mem_append.mp ho with h | h
  · exact ht0 o h
  · obtain ⟨q, hq1, hq2⟩ := ht1 o h
    refine ⟨q, hq1, ?_⟩
    rcases hq2 with h' | h' | h'
    · subst h'
      rcases hb with hb | hb
      · exact Or.inl hb
      · exact Or.inr (Or.inl hb)
    · exact Or.inr (Or.inl (le_trans hn h'))
    · exact Or.inr (Or.inr h')

theorem growthJ_trans {s s2 s' : DriveState} {a : Nat} {jp : Option (Nat × String)}
    (h1 : GrowthJ s s2 a jp) (h2 : GrowthJ s2 s' a jp) : GrowthJ s s' a jp := by
  obtain ⟨t0, ha, hb, hc⟩ := h1
  exact growthJ_step h2 t0 ha hb hc (Or.inl rfl)

theorem listFile_growthJ_frozen {s s' : DriveState} {a : Nat} {jp : Option (Nat × String)}
    (h : GrowthJ s s' a jp) {k : Nat} (hk1 : k ≠ a) (hk2 : k < s.nextId)
    (hk3 : ∀ tj, jp ≠ some (k, tj)) (t : Option String) :
    listFile s' (some k) t = listFile s (some k) t := by
  obtain ⟨tail, h1, _, ht⟩ := h
  unfold listFile
  rw [h1, List.filter_append]
  have hnil : tail.filter (matchesQuery (some k) t) = [] := by
    rw [List.filter_eq_nil_iff]
    intro o ho hm
    have hmem := matchesQuery_parent_mem hm
    obtain ⟨q, hq1, hq2⟩ := ht o ho
    rw [hq1] at hmem
    simp at hmem
    subst hmem
    rcases hq2 with h' | h' | h'
    · omega
    · omega
    · exact hk3 o.title h'
  rw [hnil, List.append_nil]

theorem listFile_growthJ_root_frozen {s s' : DriveState} {a : Nat}
    {jp : Option (Nat × String)} (h : GrowthJ s s' a jp) (t : Option String) :
    listFile s' none t = listFile s none t := by
  obtain ⟨tail, h1, _, ht⟩ := h
  unfold listFile
  rw [h1, List.filter_append]
  have hnil : tail.filter (matchesQuery none t) = [] := by
    rw [List.filter_eq_nil_iff]
    intro o ho hm
    have hmem := matchesQuery_parent_mem hm
    obtain ⟨q, hq1, _⟩ := ht o ho
    rw [hq1] at hmem
    simp at hmem
  rw [hnil, List.append_nil]

theorem growthJ_frozen_above {s s' : DriveState} {F : DriveObject}
    {jp : Option (Nat × String)} (hg : GrowthJ s s' F.id jp)
    (hjp : ∀ pj tj, jp = some (pj, tj) → pj < F.id) :
    ∀ k, F.id + 1 ≤ k → k < s.nextId → ∀ t,
      listFile s' (some k) t = listFile s (some k) t := by
  intro k h1 h2 t
  refine listFile_growthJ_frozen hg (by omega) h2 ?_ t
  intro tj hc
  have := hjp k tj hc
  omega

theorem junkOnly_refl (s : DriveState) (jp : Option (Nat × String)) : JunkOnly s s jp :=
  ⟨[], by simp, le_refl _, by simp⟩

theorem junkOnly_appended {s s' : DriveState} {jp : Option (Nat × String)}
    (h : JunkOnly s s' jp) : Appended s s' := by
  obtain ⟨t, h1, h2, _⟩ := h
  exact ⟨t, h1, h2⟩

theorem junkOnly_create {s : DriveState} {p : Nat} {t : String}
    {jp : Option (Nat × String)} (hjp : jp = some (p, t)) :
    JunkOnly s (createFolder s (some p) t) jp := by
  refine ⟨[newFolderObj s (some p) t], rfl, Nat.le_succ _, ?_⟩
  intro o ho
  simp at ho
  subst ho
  exact ⟨p, t, hjp, rfl, rfl⟩

theorem junkOnly_step {s s2 s' : DriveState} {jp : Option (Nat × String)}
    (h1 : JunkOnly s s2 jp) (h2 : JunkOnly s2 s' jp) : JunkOnly s s' jp := by
  obtain ⟨t0, ha, hb, hc⟩ := h1
  obtain ⟨t1, ha', hb', hc'⟩ := h2
  refine ⟨t0 ++ t1, by rw [ha', ha, List.append_assoc], le_trans hb hb', ?_⟩
  intro o ho
  rcases List.mem_append.mp ho with h | h
  · exact hc o h
  · exact hc' o h

theorem listFile_junkOnly_frozen {s s' : DriveState} {jp : Option (Nat × String)}
    (h : JunkOnly s s' jp) {k : Nat} (hk : ∀ tj, jp ≠ some (k, tj)) (t : Option String) :
    listFile s' (some k) t = listFile s (some k) t := by
  obtain ⟨tail, h1, _, ht⟩ := h
  unfold listFile
  rw [h1, List.filter_append]
  have hnil : tail.filter (matchesQuery (some k) t) = [] := by
    rw [List.filter_eq_nil_iff]
    intro o ho hm
    have hmem := matchesQuery_parent_mem hm
    obtain ⟨p, tj, hjp, hq1, hq2⟩ := ht o ho
    rw [hq1] at hmem
    simp at hmem
    subst hmem
    exact hk tj hjp
  rw [hnil, List.append_nil]

theorem growthJ_of_junkOnly {s s' : DriveState} {a : Nat} {jp : Option (Nat × String)}
    (h : JunkOnly s s' jp) : GrowthJ s s' a jp := by
  obtain ⟨t, h1, h2, h3⟩ := h
  refine ⟨t, h1, h2, ?_⟩
  intro o ho
  obtain ⟨p, tj, hjp, hq1, hq2⟩ := h3 o ho
  exact ⟨p, hq1, Or.inr (Or.inr (by rw [hjp, hq2]))⟩

/-! ## C1: mirror and subtree lemmas -/

theorem remoteNodeAt_step {s : DriveState} {c y : DriveObject} {t : String}
    (hdir : isDriveDir c = true) (h : listFile s (some c.id) (some t) = [y])
    (rel : List String) : remoteNodeAt s c (t :: rel) = remoteNodeAt s y rel := by
  conv_lhs => rw [remoteNodeAt]
  rw [if_pos hdir, h]

theorem remoteNodeAt_not_dir {s : DriveState} {c : DriveObject}
    (h : isDriveDir c = false) (t : String) (rel : List String) :
    remoteNodeAt s c (t :: rel) = none := by
  unfold remoteNodeAt
  rw [if_neg (by simp [h])]

theorem mirror_child {s : DriveState} {X : DriveObject} {fs0 : LocalFS} {base : List String}
    (hm : MirrorSubtree s X fs0 base) (hdir : isDriveDir X = true)
    {t : String} {c : DriveObject} (hc : listFile s (some X.id) (some t) = [c]) :
    MirrorSubtree s c fs0 (base ++ [t]) := by
  intro rel
  have h := hm (t :: rel)
  rw [remoteNodeAt_step hdir hc] at h
  have e : base ++ [t] ++ rel = base ++ t :: rel := by simp
  rw [e]
  exact h

theorem subtreeIn_child {s : DriveState} {X : DriveObject} {lo hi : Nat}
    (h : SubtreeIn s X lo hi) (hdir : isDriveDir X = true)
    {t : String} {c : DriveObject} (hc : listFile s (some X.id) (some t) = [c]) :
    SubtreeIn s c lo hi := by
  intro rel o ho
  apply h (t :: rel) o
  rw [remoteNodeAt_step hdir hc]
  exact ho

theorem subtreeIn_mono {s : DriveState} {c : DriveObject} {lo hi lo' hi' : Nat}
    (h : SubtreeIn s c lo hi) (h1 : lo' ≤ lo) (h2 : hi ≤ hi') : SubtreeIn s c lo' hi' :=
  fun rel o ho => ⟨le_trans h1 (h rel o ho).1, lt_of_lt_of_le (h rel o ho).2 h2⟩

theorem remoteNodeAt_frozen {s s' : DriveState} {lo hi : Nat}
    (hfroz : ∀ k, lo ≤ k → k < hi → ∀ t, listFile s' (some k) t = listFile s (some k) t) :
    ∀ (rel : List String) (c : DriveObject), SubtreeIn s c lo hi →
      remoteNodeAt s' c rel = remoteNodeAt s c rel := by
  intro rel
  induction rel with
  | nil => intro c _; rfl
  | cons t r ih =>
    intro c hin
    by_cases hdir : isDriveDir c = true
    · have hcb := hin [] c rfl
      have hf := hfroz c.id hcb.1 hcb.2 (some t)
      unfold remoteNodeAt
      rw [if_pos hdir, if_pos hdir, hf]
      cases hl : listFile s (some c.id) (some t) with
      | nil => rfl
      | cons y ys =>
        cases ys with
        | nil => exact ih y (subtreeIn_child hin hdir hl)
        | cons z zs => rfl
    · unfold remoteNodeAt
      rw [if_neg hdir, if_neg hdir]

theorem mirror_frozen {s s' : DriveState} {fs0 : LocalFS} {base : List String}
    {lo hi : Nat} {c : DriveObject}
    (hfroz : ∀ k, lo ≤ k → k < hi → ∀ t, listFile s' (some k) t = listFile s (some k) t)
    (hin : SubtreeIn s c lo hi) (hm : MirrorSubtree s c fs0 base) :
    MirrorSubtree s' c fs0 base := by
  intro rel
  rw [remoteNodeAt_frozen hfroz rel c hin]
  refine ⟨(hm rel).1, ?_⟩
  intro o ho hdo
  rw [hfroz o.id (hin rel o ho).1 (hin rel o ho).2 none]
  exact (hm rel).2 o ho hdo

theorem subtreeIn_frozen {s s' : DriveState} {lo hi : Nat} {c : DriveObject}
    (hfroz : ∀ k, lo ≤ k → k < hi → ∀ t, listFile s' (some k) t = listFile s (some k) t)
    (hin : SubtreeIn s c lo hi) : SubtreeIn s' c lo hi := by
  intro rel o ho
  rw [remoteNodeAt_frozen hfroz rel c hin] at ho
  exact hin rel o ho

theorem growth_frozen_above {s s' : DriveState} {F : DriveObject}
    (hg : ChildGrowth s s' F.id) :
    ∀ k, F.id + 1 ≤ k → k < s.nextId → ∀ t, listFile s' (some k) t = listFile s (some k) t :=
  fun k h1 h2 t => listFile_growth_frozen hg (by omega) h2 t

theorem subtreeIn_file {s : DriveState} {G : DriveObject} {lo hi : Nat}
    (hnd : isDriveDir G = false) (h1 : lo ≤ G.id) (h2 : G.id < hi) :
    SubtreeIn s G lo hi := by
  intro rel o ho
  cases rel with
  | nil =>
    have he : G = o := Option.some.inj ho
    subst he
    exact ⟨h1, h2⟩
  | cons t r =>
    rw [remoteNodeAt_not_dir hnd] at ho
    simp at ho

theorem subtreeIn_dir {s : DriveState} {G : DriveObject} {lo hi : Nat}
    (hdir : isDriveDir G = true) (h1 : lo ≤ G.id) (h2 : G.id < hi)
    {C : List DriveObject} (hC : listFile s (some G.id) none = C)
    (hper : ∀ c ∈ C, SubtreeIn s c lo hi) : SubtreeIn s G lo hi := by
  intro rel o ho
  cases rel with
  | nil =>
    have he : G = o := Option.some.inj ho
    subst he
    exact ⟨h1, h2⟩
  | cons t r =>
    unfold remoteNodeAt at ho
    rw [if_pos hdir] at ho
    cases hl : listFile s (some G.id) (some t) with
    | nil =>
      rw [hl] at ho
      simp at ho
    | cons y ys =>
      cases ys with
      | nil =>
        rw [hl] at ho
        have hy : y ∈ C := by
          rw [← hC]
          have hym : y ∈ listFile s (some G.id) (some t) := by rw [hl]; simp
          rw [listFile_title_filter] at hym
          exact List.mem_of_mem_filter hym
        exact hper y hy r o ho
      | cons z zs =>
        rw [hl] at ho
        simp at ho

theorem mirror_file {s : DriveState} {G : DriveObject} {fs0 : LocalFS} {lp : List String}
    (hwfl : WFLocal fs0) (hnd : isDriveDir G = false)
    (hfile : lookupFS fs0 lp = some (.file G.content)) :
    MirrorSubtree s G fs0 lp := by
  intro rel
  cases rel with
  | nil =>
    constructor
    · show remoteAsFS (some G) = lookupFS fs0 (lp ++ [])
      rw [List.append_nil]
      simp [remoteAsFS, hnd, hfile]
    · intro o ho hdo
      have he : G = o := Option.some.inj ho
      subst he
      rw [hnd] at hdo
      cases hdo
  | cons t r =>
    have h0 : remoteNodeAt s G (t :: r) = none := remoteNodeAt_not_dir hnd t r
    constructor
    · rw [h0]
      show (none : Option FSNode) = lookupFS fs0 (lp ++ t :: r)
      rw [fsInv_file_extend (wfLocal_fsInv hwfl) hfile (t :: r) (by simp)]
    · intro o ho
      rw [h0] at ho
      simp at ho

theorem assembleMirror {s : DriveState} {G : DriveObject} {fs0 : LocalFS} {lp : List String}
    (hwfl : WFLocal fs0) (hdir : isDriveDir G = true) (hlk : lookupFS fs0 lp = some .dir)
    (hinv : UpInv s G fs0 lp (osListdir fs0 lp)) : MirrorSubtree s G fs0 lp := by
  obtain ⟨C, hC, hmap, hper⟩ := hinv
  have hfsinv : FSInv fs0 := wfLocal_fsInv hwfl
  intro rel
  cases rel with
  | nil =>
    constructor
    · show remoteAsFS (some G) = lookupFS fs0 (lp ++ [])
      rw [List.append_nil]
      simp [remoteAsFS, hdir, hlk]
    · intro o ho hdo
      have he : G = o := Option.some.inj ho
      subst he
      rw [List.append_nil, hC, hmap]
  | cons t r =>
    by_cases ht : t ∈ osListdir fs0 lp
    · obtain ⟨c, hcmem, hct⟩ : ∃ c ∈ C, c.title = t := by
        rw [← hmap] at ht
        obtain ⟨c, hcm, hct⟩ := List.mem_map.mp ht
        exact ⟨c, hcm, hct⟩
      have hsingle : listFile s (some G.id) (some t) = [c] := by
        rw [listFile_title_filter, hC, ← hct]
        exact filter_title_single hmap (hmap ▸ osListdir_nodup hfsinv lp) hcmem
      have hmc : MirrorSubtree s c fs0 (lp ++ [t]) := hct ▸ (hper c hcmem).1
      have e : lp ++ t :: r = lp ++ [t] ++ r := by simp
      constructor
      · rw [remoteNodeAt_step hdir hsingle, e]
        exact (hmc r).1
      · intro o ho hdo
        rw [remoteNodeAt_step hdir hsingle] at ho
        rw [e]
        exact (hmc r).2 o ho hdo
    · have hnil : listFile s (some G.id) (some t) = [] := by
        rw [listFile_title_filter, hC]
        apply filter_title_nil
        rw [hmap]
        exact ht
      have hnone : remoteNodeAt s G (t :: r) = none := by
        unfold remoteNodeAt
        rw [if_pos hdir, hnil]
      constructor
      · rw [hnone]
        show (none : Option FSNode) = lookupFS fs0 (lp ++ t :: r)
        have h1 : lookupFS fs0 (lp ++ [t]) = none := not_mem_osListdir ht
        cases r with
        | nil => simpa using h1.symm
        | cons a l =>
          have h2 := fsInv_none_extend hfsinv h1 (by simp) (a :: l) (by simp)
          have e : lp ++ t :: a :: l = (lp ++ [t]) ++ a :: l := by simp
          rw [e, h2]
      · intro o ho
        rw [hnone] at ho
        simp at ho

/-! ## C1: `_create_drive_path` along an existing unique chain -/

theorem mem_listFile_title {s : DriveState} {p : Option Nat} {t : String} {o : DriveObject}
    (h : o ∈ listFile s p (some t)) : o ∈ listFile s p none ∧ o.title = t := by
  rw [listFile_title_filter] at h
  exact ⟨List.mem_of_mem_filter h, by simpa using (List.mem_filter.mp h).2⟩

theorem listFile_title_of_none_nil {s : DriveState} {k : Nat} (t : String)
    (h : listFile s (some k) none = []) : listFile s (some k) (some t) = [] := by
  rw [listFile_title_filter, h]
  rfl

/-- Every object in a resolution carries the path's last segment as its
title (it is a member of the final query). -/
theorem resolution_titles {s : DriveState} {pb : String} {done' : List String}
    {ls : String} (hpf : PathFacts pb (done' ++ [ls])) :
    ∀ o ∈ getDriveObject s pb, o.title = ls := by
  intro o ho
  rw [getDriveObject_eq_walkRootSegs s pb (done' ++ [ls]) hpf] at ho
  cases done' with
  | nil =>
    simp only [List.nil_append] at ho
    have ho2 : o ∈ listFile s none (some ls) := ho
    exact (mem_listFile_title ho2).2
  | cons d ds =>
    rw [walkRootSegs_snoc s (d :: ds) ls (by simp)] at ho
    cases hw : walkRootSegs s (d :: ds) with
    | nil =>
      rw [hw] at ho
      simp at ho
    | cons x xs =>
      rw [hw] at ho
      exact (mem_listFile_title ho).2

/-- The walking phase of `_create_drive_path` over a head-chain ending at
folder `F` that has no child titled `item`: at every folder head the
segment is found in the listing and the walk skips; at a non-folder head
the membership check sees the resolved list instead of the children, so a
stray folder at the junk pair may be deposited without disturbing the
chain; the last step creates exactly one folder `item` under `F`. -/
theorem createLoop_chain_head (F : DriveObject) (item : String)
    (jp : Option (Nat × String)) :
    ∀ (chain : List String) (s : DriveState) (pb : String) (done : List String)
      (dObjs : List DriveObject) (n : Nat),
    BelowOk s →
    (∀ pj tj, jp = some (pj, tj) → pj < F.id) →
    F.id < s.nextId →
    (∀ x ∈ chain, x ≠ "" ∧ '/' ∉ x.data) →
    (match chain with
     | [] => ∃ tlF, PathFacts pb done ∧ getDriveObject s pb = F :: tlF ∧
         dObjs = getDriveObjects s pb
     | seg1 :: _ =>
       (pb = "" ∧ done = [] ∧ dObjs = listFile s none none ∧
          HeadChain s jp none chain F) ∨
       (∃ X tlX, PathFacts pb done ∧ getDriveObject s pb = X :: tlX ∧
          (X.mimeType = folderMime ∨ jp = some (X.id, seg1)) ∧ X ∈ s.objects ∧
          dObjs = getDriveObjects s pb ∧ HeadChain s jp (some X.id) chain F)) →
    F.mimeType = folderMime →
    listFile s (some F.id) (some item) = [] →
    ∃ (s₁ : DriveState) (m : Nat), JunkOnly s s₁ jp ∧ BelowOk s₁ ∧
      createLoop s dObjs pb n (chain ++ [item]) =
        .ok (createFolder s₁ (some F.id) item, n + 1 + m) := by
  intro chain
  induction chain with
  | nil =>
    intro s pb done dObjs n hwb hjp hFlt _ hcfg hFfol hempty
    obtain ⟨tlF, hpf, hres, hdo⟩ := hcfg
    refine ⟨s, 0, junkOnly_refl s jp, hwb, ?_⟩
    rw [List.nil_append, createLoop]
    have hdoC : dObjs = listFile s (some F.id) none := by
      rw [hdo, getDriveObjects_of_resolve s pb F tlF (pathFacts_ne_root _ _ hpf) hres,
        if_pos (isDriveDir_of_folder hFfol)]
    have hnin : ¬ (item ∈ dObjs.map (fun o => o.title)) := by
      rw [hdoC]
      exact title_not_mem_of_listFile_nil hempty
    rw [if_neg hnin]
    have hpidv : pathIdOf s pb = some (some F.id) := by
      unfold pathIdOf
      rw [if_neg (pathFacts_ne_empty pb done hpf), hres]
    rw [hpidv]
    rfl
  | cons seg rest ih =>
    intro s pb done dObjs n hwb hjp hFlt hgood hcfg hFfol hempty
    have hseg := hgood seg (List.mem_cons_self seg rest)
    have hrest : ∀ x ∈ rest, x ≠ "" ∧ '/' ∉ x.data :=
      fun x hx => hgood x (List.mem_cons_of_mem seg hx)
    rcases hcfg with ⟨hpb0, hdone0, hdo0, hchain0⟩ |
      ⟨X, tlX, hpf, hres, hXcond, hXmem, hdo, hchainX⟩
    · -- root level: the head of the root query is in the root listing
      subst hpb0
      subst hdone0
      obtain ⟨Y, hY, hYcond⟩ :
          ∃ Y, (listFile s none (some seg)).head? = some Y ∧
            (match rest with
             | [] => Y = F
             | r1 :: _ => (Y.mimeType = folderMime ∨ jp = some (Y.id, r1)) ∧
                 HeadChain s jp (some Y.id) rest F) := by
        cases rest with
        | nil => exact ⟨F, hchain0, rfl⟩
        | cons r1 rr =>
          obtain ⟨Y, h1, h2, h3⟩ := hchain0
          exact ⟨Y, h1, h2, h3⟩
      have hYq : Y ∈ listFile s none (some seg) := mem_of_head hY
      have hin : seg ∈ dObjs.map (fun o => o.title) := by
        rw [hdo0]
        obtain ⟨hm, hteq⟩ := mem_listFile_title hYq
        exact List.mem_map.mpr ⟨Y, hm, hteq⟩
      have hpf1 : PathFacts ("" ++ "/" ++ seg) [seg] := pathFacts_first seg hseg.1 hseg.2
      have hres1 : getDriveObject s ("" ++ "/" ++ seg) = listFile s none (some seg) := by
        rw [getDriveObject_eq_walkRootSegs s _ _ hpf1]
        rfl
      obtain ⟨tlY, htlY⟩ := head_cons_of_head hY
      have hstep := ih s ("" ++ "/" ++ seg) [seg]
        (getDriveObjects s ("" ++ "/" ++ seg)) n hwb hjp hFlt hrest
        (by
          cases rest with
          | nil =>
            have hYF : Y = F := hYcond
            subst hYF
            exact ⟨tlY, hpf1, by rw [hres1]; exact htlY, rfl⟩
          | cons r1 rr =>
            refine Or.inr ⟨Y, tlY, hpf1, by rw [hres1]; exact htlY, hYcond.1,
              List.mem_of_mem_filter hYq, rfl, hYcond.2⟩)
        hFfol hempty
      obtain ⟨s₁, m, hj, hb₁, hloop⟩ := hstep
      refine ⟨s₁, m, hj, hb₁, ?_⟩
      rw [List.cons_append, createLoop, if_pos hin]
      exact hloop
    · -- below the root: the current resolution head is `X`
      have hpbne : pb ≠ "" := pathFacts_ne_empty pb done hpf
      obtain ⟨Y, hY, hYcond⟩ :
          ∃ Y, (listFile s (some X.id) (some seg)).head? = some Y ∧
            (match rest with
             | [] => Y = F
             | r1 :: _ => (Y.mimeType = folderMime ∨ jp = some (Y.id, r1)) ∧
                 HeadChain s jp (some Y.id) rest F) := by
        cases rest with
        | nil => exact ⟨F, hchainX, rfl⟩
        | cons r1 rr =>
          obtain ⟨Y, h1, h2, h3⟩ := hchainX
          exact ⟨Y, h1, h2, h3⟩
      have hYq : Y ∈ listFile s (some X.id) (some seg) := mem_of_head hY
      obtain ⟨tlY, htlY⟩ := head_cons_of_head hY
      have hresnext : getDriveObject s (pb ++ "/" ++ seg) =
          listFile s (some X.id) (some seg) :=
        resolve_snoc_head hpf hres hseg.1 hseg.2
      have hpfnext : PathFacts (pb ++ "/" ++ seg) (done ++ [seg]) :=
        pathFacts_step pb done seg hpf hseg.1 hseg.2
      -- the whole skip continuation, independent of how membership held
      have hskip : seg ∈ dObjs.map (fun o => o.title) →
          ∃ (s₁ : DriveState) (m : Nat), JunkOnly s s₁ jp ∧ BelowOk s₁ ∧
            createLoop s dObjs pb n ((seg :: rest) ++ [item]) =
              .ok (createFolder s₁ (some F.id) item, n + 1 + m) := by
        intro hin
        have hstep := ih s (pb ++ "/" ++ seg) (done ++ [seg])
          (getDriveObjects s (pb ++ "/" ++ seg)) n hwb hjp hFlt hrest
          (by
            cases rest with
            | nil =>
              have hYF : Y = F := hYcond
              subst hYF
              exact ⟨tlY, hpfnext, by rw [hresnext]; exact htlY, rfl⟩
            | cons r1 rr =>
              refine Or.inr ⟨Y, tlY, hpfnext, by rw [hresnext]; exact htlY, hYcond.1,
                List.mem_of_mem_filter hYq, rfl, hYcond.2⟩)
          hFfol hempty
        obtain ⟨s₁, m, hj, hb₁, hloop⟩ := hstep
        refine ⟨s₁, m, hj, hb₁, ?_⟩
        rw [List.cons_append, createLoop, if_pos hin]
        exact hloop
      by_cases hXdir : isDriveDir X = true
      · -- folder head: the next chain node is among the listed children
        refine hskip ?_
        rw [hdo, getDriveObjects_of_resolve s pb X tlX (pathFacts_ne_root _ _ hpf) hres,
          if_pos hXdir]
        obtain ⟨hm, hteq⟩ := mem_listFile_title hYq
        exact List.mem_map.mpr ⟨Y, hm, hteq⟩
      · -- non-folder head: the membership check sees the resolved list
        have hjpX : jp = some (X.id, seg) := by
          rcases hXcond with h | h
          · exact absurd (isDriveDir_of_folder h) hXdir
          · exact h
        have hdoC : dObjs = X :: tlX := by
          rw [hdo, getDriveObjects_of_resolve s pb X tlX (pathFacts_ne_root _ _ hpf) hres,
            if_neg hXdir]
        obtain ⟨done', ls, hdls⟩ : ∃ done' ls, done = done' ++ [ls] := by
          rcases List.eq_nil_or_concat done with h | ⟨L, b, h⟩
          · exact absurd h (pathFacts_done_ne_nil hpf)
          · exact ⟨L, b, by simpa [List.concat_eq_append] using h⟩
        have htitles : ∀ o ∈ getDriveObject s pb, o.title = ls :=
          resolution_titles (hdls ▸ hpf)
        by_cases hseq : seg = ls
        · -- a repeated segment: the membership check passes and skips
          refine hskip ?_
          rw [hdoC, hseq]
          have hXt : X.title = ls := htitles X (by rw [hres]; simp)
          exact List.mem_map.mpr ⟨X, by simp, hXt⟩
        · -- the divergence: create a stray folder at the junk pair
          have hnin : ¬ (seg ∈ dObjs.map (fun o => o.title)) := by
            rw [hdoC]
            intro hc
            obtain ⟨o, hom, hot⟩ := List.mem_map.mp hc
            have := htitles o (by rw [hres]; exact hom)
            exact hseq (by rw [← hot, this])
          have hpidv : pathIdOf s pb = some (some X.id) := by
            unfold pathIdOf
            rw [if_neg hpbne, hres]
          set s2 := createFolder s (some X.id) seg with hs2
          have happ : Appended s s2 := createFolder_appended s (some X.id) seg
          have hXlt : X.id < s.nextId := hwb.1 X hXmem
          have hwb2 : BelowOk s2 :=
            createFolder_belowOk hwb (some X.id) seg
              (by intro q hq; injection hq with hq; omega)
          have hjk : JunkOnly s s2 jp := junkOnly_create hjpX
          have hmq : ¬ (matchesQuery (some F.id) (some item)
              (newFolderObj s (some X.id) seg) = true) := by
            have hXF : X.id ≠ F.id := by
              have := hjp X.id seg hjpX
              omega
            simp [matchesQuery, newFolderObj]
            intro hc
            exact absurd hc.symm hXF
          have hemp2 : listFile s2 (some F.id) (some item) = [] := by
            rw [hs2, listFile_createFolder, hempty, if_neg hmq]
            rfl
          have hchain2 : HeadChain s2 jp (some X.id) (seg :: rest) F :=
            headChain_appended happ jp F (seg :: rest) (some X.id) hchainX
          obtain ⟨tl2, hres2⟩ := resolve_head_appended happ hres
          have hresnext2 : getDriveObject s2 (pb ++ "/" ++ seg) =
              listFile s2 (some X.id) (some seg) :=
            resolve_snoc_head hpf hres2 hseg.1 hseg.2
          obtain ⟨Y2, hY2, hYcond2⟩ :
              ∃ Y2, (listFile s2 (some X.id) (some seg)).head? = some Y2 ∧
                (match rest with
                 | [] => Y2 = F
                 | r1 :: _ => (Y2.mimeType = folderMime ∨ jp = some (Y2.id, r1)) ∧
                     HeadChain s2 jp (some Y2.id) rest F) := by
            cases rest with
            | nil => exact ⟨F, hchain2, rfl⟩
            | cons r1 rr =>
              obtain ⟨Y2, h1, h2, h3⟩ := hchain2
              exact ⟨Y2, h1, h2, h3⟩
          have hY2q : Y2 ∈ listFile s2 (some X.id) (some seg) := mem_of_head hY2
          obtain ⟨tlY2, htlY2⟩ := head_cons_of_head hY2
          have hstep := ih s2 (pb ++ "/" ++ seg) (done ++ [seg])
            (getDriveObjects s2 (pb ++ "/" ++ seg)) (n + 1) hwb2 hjp
            (by
              have : s2.nextId = s.nextId + 1 := rfl
              omega)
            hrest
            (by
              cases rest with
              | nil =>
                have hYF : Y2 = F := hYcond2
                subst hYF
                exact ⟨tlY2, hpfnext, by rw [hresnext2]; exact htlY2, rfl⟩
              | cons r1 rr =>
                refine Or.inr ⟨Y2, tlY2, hpfnext, by rw [hresnext2]; exact htlY2,
                  hYcond2.1, List.mem_of_mem_filter hY2q, rfl, hYcond2.2⟩)
            hFfol hemp2
          obtain ⟨s₁, m, hj, hb₁, hloop⟩ := hstep
          refine ⟨s₁, m + 1, junkOnly_step hjk hj, hb₁, ?_⟩
          rw [List.cons_append, createLoop, if_neg hnin, hpidv]
          have hcnt : n + 1 + 1 + m = n + 1 + (m + 1) := by omega
          rw [hcnt] at hloop
          exact hloop

/-- `_create_drive_path` for a fresh child `item` of the anchor folder `F`
at the end of a head-chain: some stray folders may be deposited at the junk
pair, and exactly one folder `item` is created, under `F`. -/
theorem createDrivePath_child_head {s : DriveState} {dp : String} {segs : List String}
    {F : DriveObject} {jp : Option (Nat × String)} (hwb : BelowOk s)
    (hjp : ∀ pj tj, jp = some (pj, tj) → pj < F.id)
    (hgood : ∀ x ∈ segs, x ≠ "" ∧ '/' ∉ x.data)
    (hpf : PathFacts dp segs) (hchain : HeadChain s jp none segs F)
    (hFfol : F.mimeType = folderMime) (hFmem : F ∈ s.objects) {item : String}
    (hitem : item ≠ "" ∧ '/' ∉ item.data)
    (hempty : listFile s (some F.id) (some item) = []) :
    ∃ (s₁ : DriveState) (m : Nat), JunkOnly s s₁ jp ∧ BelowOk s₁ ∧
      listFile s₁ (some F.id) (some item) = [] ∧
      createDrivePath s (dp ++ "/" ++ item) =
        .ok (createFolder s₁ (some F.id) item, 1 + m) := by
  have hdpne : dp ≠ "" := pathFacts_ne_empty dp segs hpf
  obtain ⟨tl, hres⟩ := headChain_resolve hpf hchain
  have hresdp : getDriveObject s (dp ++ "/" ++ item) =
      listFile s (some F.id) (some item) :=
    resolve_snoc_head hpf hres hitem.1 hitem.2
  have hex : pathExistInDrive s (dp ++ "/" ++ item) = false := by
    rw [pathExistInDrive, hresdp, hempty]
    rfl
  have hsplit : pySplit (cleanInitialSlash (dp ++ "/" ++ item)) '/' = segs ++ [item] := by
    have h1 : dp ++ "/" ++ item = dp ++ ("/" ++ item) := by
      apply String.ext
      simp [String.data_append]
    rw [h1, cleanInitialSlash_append_right dp ("/" ++ item) hdpne]
    have h2 : cleanInitialSlash dp ++ ("/" ++ item) = cleanInitialSlash dp ++ "/" ++ item := by
      apply String.ext
      simp [String.data_append]
    rw [h2, pySplit_append, hpf.2, pySplit_single item hitem.2]
  cases hsegs0 : segs with
  | nil =>
    rw [hsegs0] at hchain
    exact absurd hchain (by simp [HeadChain])
  | cons n0 nrest =>
    obtain ⟨s₁, m, hj, hb₁, hloop⟩ := createLoop_chain_head F item jp (n0 :: nrest)
      s "" [] (getDriveObject s "/") 0 hwb hjp (hwb.1 F hFmem)
      (by rw [← hsegs0]; exact hgood)
      (Or.inl ⟨rfl, rfl, getDriveObject_root s, by rw [← hsegs0]; exact hchain⟩)
      hFfol hempty
    refine ⟨s₁, m, hj, hb₁, ?_, ?_⟩
    · rw [listFile_junkOnly_frozen hj
        (fun tj hc => by have := hjp F.id tj hc; omega) (some item)]
      exact hempty
    · unfold createDrivePath
      rw [hex]
      show createLoop s (getDriveObject s "/") "" 0
        (pySplit (cleanInitialSlash (dp ++ "/" ++ item)) '/') = _
      rw [hsplit, hsegs0, hloop]

/-- `_create_drive_path` creating a whole fresh chain from a folder `F`
whose path resolves with head `F`: every remaining segment is created as a
fresh childless folder, and the head-chain extends accordingly. -/
theorem createLoop_create_chain_head (jp : Option (Nat × String)) (segs : List String) :
    ∀ (s : DriveState) (pb : String) (done : List String) (n : Nat) (F : DriveObject),
    BelowOk s →
    (∀ seg ∈ segs, seg ≠ "" ∧ '/' ∉ seg.data) →
    PathFacts pb done →
    getDriveObject s pb = [F] →
    F.mimeType = folderMime →
    F ∈ s.objects →
    listFile s (some F.id) none = [] →
    HeadChain s jp none done F →
    ∃ (s' : DriveState) (F' : DriveObject),
      createLoop s (getDriveObjects s pb) pb n segs = .ok (s', n + segs.length) ∧
      ChildGrowth s s' F.id ∧ BelowOk s' ∧
      HeadChain s' jp none (done ++ segs) F' ∧
      F'.mimeType = folderMime ∧ F' ∈ s'.objects ∧
      listFile s' (some F'.id) none = [] ∧
      F.id ≤ F'.id ∧ F'.id < s'.nextId ∧
      PathFacts (extendPb pb segs) (done ++ segs) := by
  induction segs with
  | nil =>
    intro s pb done n F hwb _ hpf hres hfol hmem hchild hchain
    have hloop : createLoop s (getDriveObjects s pb) pb n [] =
        .ok (s, n + ([] : List String).length) := by
      show (Except.ok (s, n) : Except DriveState (DriveState × Nat)) = _
      simp
    exact ⟨s, F, hloop, childGrowth_refl s F.id, hwb, by simpa using hchain,
      hfol, hmem, hchild, le_refl _, hwb.1 F hmem, by simpa using hpf⟩
  | cons seg rest ih =>
    intro s pb done n F hwb hsegs hpf hres hfol hmem hchild hchain
    have hgood := hsegs seg (List.mem_cons_self seg rest)
    have hrestgood : ∀ x ∈ rest, x ≠ "" ∧ '/' ∉ x.data :=
      fun x hx => hsegs x (List.mem_cons_of_mem seg hx)
    have hdir : isDriveDir F = true := isDriveDir_of_folder hfol
    have hobj : getDriveObjects s pb = [] := by
      rw [getDriveObjects_of_resolve s pb F [] (pathFacts_ne_root pb done hpf) hres,
        if_pos hdir, hchild]
    have hFid : F.id < s.nextId := hwb.1 F hmem
    have hpidb : ∀ q, (some F.id : Option Nat) = some q → q < s.nextId := by
      intro q hq
      injection hq with hq
      omega
    set s2 := createFolder s (some F.id) seg with hs2
    set newF := newFolderObj s (some F.id) seg with hnewF
    have hpf2 : PathFacts (pb ++ "/" ++ seg) (done ++ [seg]) :=
      pathFacts_step pb done seg hpf hgood.1 hgood.2
    have hgrow : ChildGrowth s s2 F.id := childGrowth_createFolder s F.id seg
    have hbelow2 : BelowOk s2 := createFolder_belowOk hwb (some F.id) seg hpidb
    have hsegQ : listFile s2 (some F.id) (some seg) = [newF] := by
      rw [hs2, listFile_createFolder]
      rw [listFile_title_of_none_nil seg hchild]
      have h2 : matchesQuery (some F.id) (some seg) (newFolderObj s (some F.id) seg) = true := by
        simp [matchesQuery, newFolderObj]
      rw [if_pos h2]
      rfl
    have hchain2 : HeadChain s2 jp none (done ++ [seg]) newF := by
      have hpres : HeadChain s2 jp none done F :=
        headChain_appended (createFolder_appended s (some F.id) seg) jp F done none hchain
      exact headChain_snoc (Or.inl hfol) (by rw [hsegQ]; rfl) hpres
    obtain ⟨tlr, hress2⟩ :=
      resolve_head_appended (createFolder_appended s (some F.id) seg) hres
    have hres2 : getDriveObject s2 (pb ++ "/" ++ seg) = [newF] := by
      rw [resolve_snoc_head hpf hress2 hgood.1 hgood.2]
      exact hsegQ
    have hmem2 : newF ∈ s2.objects := by
      rw [hs2, createFolder_objects]
      simp [hnewF]
    have hfol2 : newF.mimeType = folderMime := rfl
    have hchild2 : listFile s2 (some newF.id) none = [] := by
      have hid : newF.id = s.nextId := rfl
      rw [hid]
      exact createFolder_new_no_children hwb (some F.id) seg hpidb none
    obtain ⟨s', F', hloop, hg', hb', hchain', hfol', hmem', hchild', hle', hlt', hpf'⟩ :=
      ih s2 (pb ++ "/" ++ seg) (done ++ [seg]) (n + 1) newF
        hbelow2 hrestgood hpf2 hres2 hfol2 hmem2 hchild2 hchain2
    have hgtot : ChildGrowth s s' F.id := by
      refine childGrowth_step hg' [newF] ?_ (Nat.le_succ _) ?_ (Or.inr ?_)
      · rw [hs2, createFolder_objects]
      · intro o ho
        simp at ho
        subst ho
        exact ⟨F.id, rfl, Or.inl rfl⟩
      · show s.nextId ≤ newF.id
        exact le_refl _
    refine ⟨s', F', ?_, hgtot, hb', ?_, hfol', hmem', hchild', ?_, hlt', ?_⟩
    · rw [hobj]
      show createLoop s [] pb n (seg :: rest) = _
      rw [createLoop]
      have hni : ¬ (seg ∈ ([] : List DriveObject).map (fun o => o.title)) := by simp
      rw [if_neg hni]
      have hpidr : pathIdOf s pb = some (some F.id) := by
        unfold pathIdOf
        rw [if_neg (pathFacts_ne_empty pb done hpf), hres]
      rw [hpidr]
      show createLoop s2 (getDriveObjects s2 (pb ++ "/" ++ seg)) (pb ++ "/" ++ seg)
        (n + 1) rest = _
      rw [hloop]
      have he : n + 1 + rest.length = n + (seg :: rest).length := by
        simp
        omega
      rw [he]
    · have he : done ++ seg :: rest = (done ++ [seg]) ++ rest := by simp
      rw [he]
      exact hchain'
    · have : newF.id = s.nextId := rfl
      omega
    · rw [extendPb_cons]
      have he : done ++ seg :: rest = (done ++ [seg]) ++ rest := by simp
      rw [he]
      exact hpf'

/-- The walking phase of `_create_drive_path` over a unique chain ending at
folder `F` that has no child titled `item`: every segment is found in the
listing, no folder is created on the way, and the last step creates exactly
the one folder `item` under `F`. -/
theorem createLoop_chain (F : DriveObject) (item : String) :
    ∀ (chain : List String) (s : DriveState) (pb : String) (done : List String)
      (dObjs : List DriveObject) (pid : Option Nat) (n : Nat),
    BelowOk s →
    (∀ x ∈ chain, x ≠ "" ∧ '/' ∉ x.data) →
    ((pb = "" ∧ done = [] ∧ dObjs = listFile s none none ∧ pid = none) ∨
      (∃ X : DriveObject, PathFacts pb done ∧ getDriveObject s pb = [X] ∧
        X.mimeType = folderMime ∧ dObjs = listFile s (some X.id) none ∧ pid = some X.id)) →
    (match chain with
     | [] => pid = some F.id
     | _ :: _ => UniqueChain s pid chain F) →
    F.mimeType = folderMime →
    listFile s (some F.id) (some item) = [] →
    createLoop s dObjs pb n (chain ++ [item]) =
      .ok (createFolder s (some F.id) item, n + 1) := by
  intro chain
  induction chain with
  | nil =>
    intro s pb done dObjs pid n _ _ hcfg hpid hFfol hempty
    rcases hcfg with ⟨_, _, _, hpn⟩ | ⟨X, hpf, hres, _, hdo, hXpid⟩
    · rw [hpn] at hpid
      cases hpid
    · rw [hXpid] at hpid
      have hXF : X.id = F.id := by injection hpid
      rw [List.nil_append, createLoop]
      have hnin : ¬ (item ∈ dObjs.map (fun o => o.title)) := by
        rw [hdo, hXF]
        exact title_not_mem_of_listFile_nil hempty
      rw [if_neg hnin]
      have hpidv : pathIdOf s pb = some (some X.id) := by
        unfold pathIdOf
        rw [if_neg (pathFacts_ne_empty pb done hpf), hres]
      rw [hpidv]
      show (Except.ok (createFolder s (some X.id) item, n + 1) :
        Except DriveState (DriveState × Nat)) = _
      rw [hXF]
  | cons seg rest ih =>
    intro s pb done dObjs pid n hwb hgood hcfg hchain hFfol hempty
    have hseg := hgood seg (List.mem_cons_self seg rest)
    have hrest : ∀ x ∈ rest, x ≠ "" ∧ '/' ∉ x.data :=
      fun x hx => hgood x (List.mem_cons_of_mem seg hx)
    obtain ⟨Y, hY, hYfol, hYnext⟩ :
        ∃ Y, listFile s pid (some seg) = [Y] ∧ Y.mimeType = folderMime ∧
          (match rest with
           | [] => Y = F
           | _ :: _ => Y.id < F.id ∧ UniqueChain s (some Y.id) rest F) := by
      cases rest with
      | nil => exact ⟨F, hchain, hFfol, rfl⟩
      | cons r1 rr =>
        obtain ⟨Y, h1, h2, h3, h4⟩ := hchain
        exact ⟨Y, h1, h2, h3, h4⟩
    have hYmem : Y ∈ listFile s pid (some seg) := by
      rw [hY]
      simp
    have hin : seg ∈ dObjs.map (fun o => o.title) := by
      obtain ⟨hm, hteq⟩ := mem_listFile_title hYmem
      rcases hcfg with ⟨_, _, hdo, hpn⟩ | ⟨X, _, _, _, hdo, hXpid⟩
      · rw [hdo]
        rw [hpn] at hm
        exact List.mem_map.mpr ⟨Y, hm, hteq⟩
      · rw [hdo]
        rw [hXpid] at hm
        exact List.mem_map.mpr ⟨Y, hm, hteq⟩
    have hres2 : getDriveObject s (pb ++ "/" ++ seg) = [Y] ∧
        PathFacts (pb ++ "/" ++ seg) (done ++ [seg]) := by
      rcases hcfg with ⟨hpb, hdone, _, hpn⟩ | ⟨X, hpf, hres, _, _, hXpid⟩
      · subst hpb
        subst hdone
        have hpf1 : PathFacts ("" ++ "/" ++ seg) [seg] := pathFacts_first seg hseg.1 hseg.2
        constructor
        · rw [getDriveObject_eq_walkRootSegs s _ _ hpf1]
          show listFile s none (some seg) = [Y]
          rw [← hpn]
          exact hY
        · simpa using hpf1
      · constructor
        · rw [resolve_snoc hpf hres hseg.1 hseg.2, ← hXpid]
          exact hY
        · exact pathFacts_step pb done seg hpf hseg.1 hseg.2
    have hdo2 : getDriveObjects s (pb ++ "/" ++ seg) = listFile s (some Y.id) none := by
      rw [getDriveObjects_of_resolve s _ Y []
        (pathFacts_ne_root _ _ hres2.2) hres2.1, if_pos (isDriveDir_of_folder hYfol)]
    have hstep := ih s (pb ++ "/" ++ seg) (done ++ [seg])
      (getDriveObjects s (pb ++ "/" ++ seg)) (some Y.id) n hwb hrest
      (Or.inr ⟨Y, hres2.2, hres2.1, hYfol, hdo2.symm ▸ rfl, rfl⟩)
      (by
        cases rest with
        | nil =>
          have : Y = F := hYnext
          rw [this]
        | cons r1 rr => exact hYnext.2)
      hFfol hempty
    rw [List.cons_append, createLoop, if_pos hin]
    exact hstep

/-- `_create_drive_path` for a fresh child `item` of folder `F` at the end
of a unique chain: exactly one folder is created, under `F`. -/
theorem createDrivePath_child {s : DriveState} {dp : String} {segs : List String}
    {F : DriveObject} (hwb : BelowOk s)
    (hgood : ∀ x ∈ segs, x ≠ "" ∧ '/' ∉ x.data)
    (hpf : PathFacts dp segs) (hchain : UniqueChain s none segs F)
    (hFfol : F.mimeType = folderMime) {item : String}
    (hitem : item ≠ "" ∧ '/' ∉ item.data)
    (hempty : listFile s (some F.id) (some item) = []) :
    createDrivePath s (dp ++ "/" ++ item) =
      .ok (createFolder s (some F.id) item, 1) := by
  have hdpne : dp ≠ "" := pathFacts_ne_empty dp segs hpf
  have hres : getDriveObject s dp = [F] := uniqueChain_resolve hpf hchain
  have hresdp : getDriveObject s (dp ++ "/" ++ item) = [] := by
    rw [resolve_snoc hpf hres hitem.1 hitem.2]
    exact hempty
  unfold createDrivePath
  have hex : pathExistInDrive s (dp ++ "/" ++ item) = false := by
    rw [pathExistInDrive, hresdp]
    rfl
  rw [hex]
  show createLoop s (getDriveObject s "/") "" 0
    (pySplit (cleanInitialSlash (dp ++ "/" ++ item)) '/') = _
  have hsplit : pySplit (cleanInitialSlash (dp ++ "/" ++ item)) '/' = segs ++ [item] := by
    have h1 : dp ++ "/" ++ item = dp ++ ("/" ++ item) := by
      apply String.ext
      simp [String.data_append]
    rw [h1, cleanInitialSlash_append_right dp ("/" ++ item) hdpne]
    have h2 : cleanInitialSlash dp ++ ("/" ++ item) = cleanInitialSlash dp ++ "/" ++ item := by
      apply String.ext
      simp [String.data_append]
    rw [h2, pySplit_append, hpf.2, pySplit_single item hitem.2]
  rw [hsplit]
  cases segs with
  | nil => exact absurd hchain (by simp [UniqueChain])
  | cons n0 nrest =>
    have hcl := createLoop_chain F item (n0 :: nrest) s "" [] (getDriveObject s "/") none 0
      hwb hgood (Or.inl ⟨rfl, rfl, getDriveObject_root s, rfl⟩) hchain hFfol hempty
    rw [hcl]

/-- `_create_drive_path` creating a whole fresh chain from a folder `F`
whose path resolves uniquely: every remaining segment is created as a fresh
childless folder, and the unique chain extends accordingly. -/
theorem createLoop_create_chain (segs : List String) :
    ∀ (s : DriveState) (pb : String) (done : List String) (n : Nat) (F : DriveObject),
    BelowOk s →
    (∀ seg ∈ segs, seg ≠ "" ∧ '/' ∉ seg.data) →
    PathFacts pb done →
    getDriveObject s pb = [F] →
    F.mimeType = folderMime →
    F ∈ s.objects →
    listFile s (some F.id) none = [] →
    UniqueChain s none done F →
    ∃ (s' : DriveState) (F' : DriveObject),
      createLoop s (getDriveObjects s pb) pb n segs = .ok (s', n + segs.length) ∧
      ChildGrowth s s' F.id ∧ BelowOk s' ∧
      UniqueChain s' none (done ++ segs) F' ∧
      F'.mimeType = folderMime ∧ F' ∈ s'.objects ∧
      listFile s' (some F'.id) none = [] ∧
      F.id ≤ F'.id ∧ F'.id < s'.nextId ∧
      PathFacts (extendPb pb segs) (done ++ segs) := by
  induction segs with
  | nil =>
    intro s pb done n F hwb _ hpf hres hfol hmem hchild hchain
    have hloop : createLoop s (getDriveObjects s pb) pb n [] =
        .ok (s, n + ([] : List String).length) := by
      show (Except.ok (s, n) : Except DriveState (DriveState × Nat)) = _
      simp
    exact ⟨s, F, hloop, childGrowth_refl s F.id, hwb, by simpa using hchain,
      hfol, hmem, hchild, le_refl _, hwb.1 F hmem, by simpa using hpf⟩
  | cons seg rest ih =>
    intro s pb done n F hwb hsegs hpf hres hfol hmem hchild hchain
    have hgood := hsegs seg (List.mem_cons_self seg rest)
    have hrestgood : ∀ x ∈ rest, x ≠ "" ∧ '/' ∉ x.data :=
      fun x hx => hsegs x (List.mem_cons_of_mem seg hx)
    have hdir : isDriveDir F = true := isDriveDir_of_folder hfol
    have hobj : getDriveObjects s pb = [] := by
      rw [getDriveObjects_of_resolve s pb F [] (pathFacts_ne_root pb done hpf) hres,
        if_pos hdir, hchild]
    have hFid : F.id < s.nextId := hwb.1 F hmem
    have hpidb : ∀ q, (some F.id : Option Nat) = some q → q < s.nextId := by
      intro q hq
      injection hq with hq
      omega
    set s2 := createFolder s (some F.id) seg with hs2
    set newF := newFolderObj s (some F.id) seg with hnewF
    have hpf2 : PathFacts (pb ++ "/" ++ seg) (done ++ [seg]) :=
      pathFacts_step pb done seg hpf hgood.1 hgood.2
    have hgrow : ChildGrowth s s2 F.id := childGrowth_createFolder s F.id seg
    have hbelow2 : BelowOk s2 := createFolder_belowOk hwb (some F.id) seg hpidb
    have hsegQ : listFile s2 (some F.id) (some seg) = [newF] := by
      rw [hs2, listFile_createFolder]
      rw [listFile_title_of_none_nil seg hchild]
      have h2 : matchesQuery (some F.id) (some seg) (newFolderObj s (some F.id) seg) = true := by
        simp [matchesQuery, newFolderObj]
      rw [if_pos h2]
      rfl
    have hchain2 : UniqueChain s2 none (done ++ [seg]) newF := by
      have hpres : UniqueChain s2 none done F :=
        uniqueChain_preserved hgrow hFid done none (Or.inl rfl) hchain
      exact uniqueChain_snoc hfol (by rw [hnewF]; exact hFid) hsegQ hpres
    have hres2 : getDriveObject s2 (pb ++ "/" ++ seg) = [newF] :=
      uniqueChain_resolve hpf2 hchain2
    have hmem2 : newF ∈ s2.objects := by
      rw [hs2, createFolder_objects]
      simp [hnewF]
    have hfol2 : newF.mimeType = folderMime := rfl
    have hchild2 : listFile s2 (some newF.id) none = [] := by
      have hid : newF.id = s.nextId := rfl
      rw [hid]
      exact createFolder_new_no_children hwb (some F.id) seg hpidb none
    obtain ⟨s', F', hloop, hg', hb', hchain', hfol', hmem', hchild', hle', hlt', hpf'⟩ :=
      ih s2 (pb ++ "/" ++ seg) (done ++ [seg]) (n + 1) newF
        hbelow2 hrestgood hpf2 hres2 hfol2 hmem2 hchild2 hchain2
    have hgtot : ChildGrowth s s' F.id := by
      refine childGrowth_step hg' [newF] ?_ (Nat.le_succ _) ?_ (Or.inr ?_)
      · rw [hs2, createFolder_objects]
      · intro o ho
        simp at ho
        subst ho
        exact ⟨F.id, rfl, Or.inl rfl⟩
      · show s.nextId ≤ newF.id
        exact le_refl _
    refine ⟨s', F', ?_, hgtot, hb', ?_, hfol', hmem', hchild', ?_, hlt', ?_⟩
    · rw [hobj]
      show createLoop s [] pb n (seg :: rest) = _
      rw [createLoop]
      have hni : ¬ (seg ∈ ([] : List DriveObject).map (fun o => o.title)) := by simp
      rw [if_neg hni]
      have hpidr : pathIdOf s pb = some (some F.id) := by
        unfold pathIdOf
        rw [if_neg (pathFacts_ne_empty pb done hpf), hres]
      rw [hpidr]
      show createLoop s2 (getDriveObjects s2 (pb ++ "/" ++ seg)) (pb ++ "/" ++ seg)
        (n + 1) rest = _
      rw [hloop]
      have he : n + 1 + rest.length = n + (seg :: rest).length := by
        simp
        omega
      rw [he]
    · have he : done ++ seg :: rest = (done ++ [seg]) ++ rest := by simp
      rw [he]
      exact hchain'
    · have : newF.id = s.nextId := rfl
      omega
    · rw [extendPb_cons]
      have he : done ++ seg :: rest = (done ++ [seg]) ++ rest := by simp
      rw [he]
      exact hpf'

/-! ## C1: the upload recursion -/

theorem createDrivePath_noop {s : DriveState} {dp : String}
    (h : pathExistInDrive s dp = true) : createDrivePath s dp = .ok (s, 0) := by
  unfold createDrivePath
  rw [if_pos h]

theorem appended_mem {s s' : DriveState} (h : Appended s s') {o : DriveObject}
    (ho : o ∈ s.objects) : o ∈ s'.objects := by
  obtain ⟨t, ht, _⟩ := h
  rw [ht]
  exact List.mem_append.mpr (Or.inl ho)

theorem readFileContent_of_lookup {fs : LocalFS} {p : List String} {c : List Nat}
    (h : lookupFS fs p = some (.file c)) : readFileContent fs p = some c := by
  unfold readFileContent
  rw [h]

/-- The upload recursion, unrolled against the invariants: a successful
`.one` child call creates exactly the mirrored subtree under its anchor
(plus possibly stray folders at the junk pair of the head-chain), and a
successful `.many` loop extends the anchor's children by one mirrored
subtree per local entry, in enumeration order. -/
theorem uploadGo_spec (fs0 : LocalFS) (hwfl : WFLocal fs0) (jp : Option (Nat × String)) :
    ∀ (fuel : Nat) (task : UpTask) (s s' : DriveState),
      uploadGo fs0 fuel s task = .ok s' →
      BelowOk s →
      ((∀ (lp : List String) (dpar t : String) (cd : Bool) (segsdp : List String)
          (F : DriveObject),
          task = .one lp (dpar ++ "/" ++ t) cd →
          PathFacts dpar segsdp →
          (∀ x ∈ segsdp, x ≠ "" ∧ '/' ∉ x.data) →
          t ≠ "" → '/' ∉ t.data →
          HeadChain s jp none segsdp F →
          F.mimeType = folderMime →
          F ∈ s.objects →
          (∀ pj tj, jp = some (pj, tj) → pj < F.id) →
          OneConc fs0 s s' F t lp jp) ∧
       (∀ (lp : List String) (dp : String) (items : List String)
          (segsdp : List String) (F : DriveObject) (procd : List String),
          task = .many lp dp items →
          PathFacts dp segsdp →
          (∀ x ∈ segsdp, x ≠ "" ∧ '/' ∉ x.data) →
          HeadChain s jp none segsdp F →
          F.mimeType = folderMime →
          F ∈ s.objects →
          (∀ pj tj, jp = some (pj, tj) → pj < F.id) →
          osIsDir fs0 lp = true →
          osListdir fs0 lp = procd ++ items →
          UpInv s F fs0 lp procd →
          GrowthJ s s' F.id jp ∧ BelowOk s' ∧ UpInv s' F fs0 lp (procd ++ items))) := by
  intro fuel
  induction fuel with
  | zero =>
    intro task s s' hrun
    exact absurd hrun (by simp [uploadGo])
  | succ fuel ih =>
    intro task s s' hrun hwb
    constructor
    · -- the `.one` case
      intro lp dpar t cd segsdp F htask hpf hsegs ht1 ht2 hchain hFfol hFmem hjp
      subst htask
      have hFid : F.id < s.nextId := hwb.1 F hFmem
      obtain ⟨tlp, hres_par⟩ := headChain_resolve hpf hchain
      have hdirname : pyDirname (dpar ++ "/" ++ t) = dpar :=
        pyDirname_append dpar t ht2 (pathFacts_ne_empty _ _ hpf)
          (pathFacts_no_trailing_slash dpar segsdp hpf (fun seg hs => (hsegs seg hs).1))
      have hbasename : pyBasename (dpar ++ "/" ++ t) = t := pyBasename_append dpar t ht2
      have hresdp : getDriveObject s (dpar ++ "/" ++ t) = listFile s (some F.id) (some t) :=
        resolve_snoc_head hpf hres_par ht1 ht2
      rw [uploadGo] at hrun
      cases hlp : lookupFS fs0 lp with
      | none =>
        have hex : osExists fs0 lp = false := osExists_lookup.mpr hlp
        rw [if_pos (by simp [hex])] at hrun
        cases hrun
      | some node =>
        have hex : osExists fs0 lp = true := by simp [osExists, hlp]
        rw [if_neg (by simp [hex])] at hrun
        by_cases hq : listFile s (some F.id) (some t) = []
        case neg =>
          have hpe : pathExistInDrive s (dpar ++ "/" ++ t) = true := by
            rw [pathExistInDrive, hresdp]
            cases hll : listFile s (some F.id) (some t) with
            | nil => exact absurd hll hq
            | cons a l => rfl
          rw [if_pos (by simp [hpe])] at hrun
          cases hrun
        case pos =>
          have hpe : pathExistInDrive s (dpar ++ "/" ++ t) = false := by
            rw [pathExistInDrive, hresdp, hq]
            rfl
          rw [if_neg (by simp [hpe])] at hrun
          cases node with
          | file content =>
            have hfile : osIsFile fs0 lp = true := osIsFile_lookup.mpr ⟨content, hlp⟩
            have hnoop : createDrivePath s dpar = .ok (s, 0) :=
              createDrivePath_noop (by rw [pathExistInDrive, hres_par]; rfl)
            have hcontent : readFileContent fs0 lp = some content :=
              readFileContent_of_lookup hlp
            simp only [hfile, if_true, hdirname, hbasename, hnoop, hres_par, hcontent,
              if_pos trivial] at hrun
            have hcd : (if cd then (Except.ok (s, 0) : Except DriveState (DriveState × Nat))
                else .ok (s, 0)) = .ok (s, 0) := by
              cases cd <;> rfl
            rw [hcd] at hrun
            simp only [hres_par] at hrun
            have hs' : s' = createFile s (some F.id) t content :=
              (by simpa using hrun : createFile s (some F.id) t content = s').symm
            subst hs'
            have hpidb : ∀ q, (some F.id : Option Nat) = some q → q < s.nextId := by
              intro q hqe
              injection hqe with hqe
              omega
            refine ⟨growthJ_of_child jp (childGrowth_createFile s F.id t content),
              createFile_belowOk hwb (some F.id) t content hpidb,
              newFileObj s (some F.id) t content, ?_, rfl, ?_, ?_, ?_⟩
            · rw [listFile_createFile, hq,
                if_pos (by simp [matchesQuery, newFileObj])]
              rfl
            · rw [listFile_createFile,
                if_pos (by simp [matchesQuery, newFileObj])]
            · exact mirror_file hwfl (newFileObj_not_dir s (some F.id) t content) hlp
            · refine subtreeIn_file (newFileObj_not_dir s (some F.id) t content) ?_ ?_
              · show F.id + 1 ≤ s.nextId
                omega
              · show s.nextId < s.nextId + 1
                omega
          | dir =>
            have hfile : osIsFile fs0 lp = false := by simp [osIsFile, hlp]
            have hdir : osIsDir fs0 lp = true := by simp [osIsDir, hlp]
            obtain ⟨s₁, mj, hjunk, hwb₁, hq₁, hcreate⟩ :=
              createDrivePath_child_head hwb hjp hsegs hpf hchain hFfol hFmem
                ⟨ht1, ht2⟩ hq
            obtain ⟨tailJ, htJ, hnJ, hcJ⟩ := hjunk
            set sG := createFolder s₁ (some F.id) t with hsG
            set G := newFolderObj s₁ (some F.id) t with hG
            have happG : Appended s sG :=
              appended_trans ⟨tailJ, htJ, hnJ⟩ (createFolder_appended s₁ (some F.id) t)
            have hgrowG : GrowthJ s sG F.id jp :=
              growthJ_trans (growthJ_of_junkOnly ⟨tailJ, htJ, hnJ, hcJ⟩)
                (growthJ_of_child jp (childGrowth_createFolder s₁ F.id t))
            have hchainG : HeadChain sG jp none segsdp F :=
              headChain_appended happG jp F segsdp none hchain
            obtain ⟨tlg, hresG⟩ := headChain_resolve hpf hchainG
            simp only [hfile, hdir, if_false, if_true, hdirname, hcreate, hresG,
              Bool.false_eq_true] at hrun
            have hrun2 : uploadGo fs0 fuel sG (.many lp (dpar ++ "/" ++ t)
                (osListdir fs0 lp)) = .ok s' := hrun
            have hFid1 : F.id < s₁.nextId := by omega
            have hpidb1 : ∀ q, (some F.id : Option Nat) = some q → q < s₁.nextId := by
              intro q hqe
              injection hqe with hqe
              omega
            have hbG : BelowOk sG := createFolder_belowOk hwb₁ (some F.id) t hpidb1
            have hsingles : listFile sG (some F.id) (some t) = [G] := by
              rw [hsG, listFile_createFolder, hq₁,
                if_pos (by simp [matchesQuery, newFolderObj])]
              rfl
            have hchainG2 : HeadChain sG jp none (segsdp ++ [t]) G :=
              headChain_snoc (Or.inl hFfol) (by rw [hsingles]; rfl) hchainG
            have hGfol : G.mimeType = folderMime := rfl
            have hGmem : G ∈ sG.objects := by
              rw [hsG, createFolder_objects]
              simp [hG]
            have hGid : G.id = s₁.nextId := rfl
            have hjpG : ∀ pj tj, jp = some (pj, tj) → pj < G.id := by
              intro pj tj hc
              have := hjp pj tj hc
              omega
            have hGchildless : listFile sG (some G.id) none = [] := by
              rw [hGid]
              exact createFolder_new_no_children hwb₁ (some F.id) t hpidb1 none
            have hpf2 : PathFacts (dpar ++ "/" ++ t) (segsdp ++ [t]) :=
              pathFacts_step dpar segsdp t hpf ht1 ht2
            have hsegs2 : ∀ x ∈ segsdp ++ [t], x ≠ "" ∧ '/' ∉ x.data := by
              intro x hx
              rcases List.mem_append.mp hx with h | h
              · exact hsegs x h
              · simp at h
                subst h
                exact ⟨ht1, ht2⟩
            have hinvG : UpInv sG G fs0 lp [] := ⟨[], hGchildless, rfl, by simp⟩
            obtain ⟨hg', hb', hinv'⟩ :=
              (ih (.many lp (dpar ++ "/" ++ t) (osListdir fs0 lp)) sG s' hrun2 hbG).2
                lp (dpar ++ "/" ++ t) (osListdir fs0 lp) (segsdp ++ [t]) G []
                rfl hpf2 hsegs2 hchainG2 hGfol hGmem hjpG hdir (by simp) hinvG
            simp only [List.nil_append] at hinv'
            have hgtot : GrowthJ s s' F.id jp := by
              refine growthJ_step hg' (tailJ ++ [G]) ?_ ?_ ?_ (Or.inr ?_)
              · rw [hsG, createFolder_objects, htJ, List.append_assoc]
              · show s.nextId ≤ sG.nextId
                have : sG.nextId = s₁.nextId + 1 := rfl
                omega
              · intro o ho
                rcases List.mem_append.mp ho with h | h
                · obtain ⟨p, tj, hjpv, hq1, hq2⟩ := hcJ o h
                  exact ⟨p, hq1, Or.inr (Or.inr (by rw [hjpv, hq2]))⟩
                · simp at h
                  subst h
                  exact ⟨F.id, rfl, Or.inl rfl⟩
              · show s.nextId ≤ G.id
                omega
            have hjpavoid : ∀ tj, jp ≠ some (F.id, tj) := by
              intro tj hc
              have := hjp F.id tj hc
              omega
            have hGgt : F.id < G.id := by omega
            have hfroz : listFile s' (some F.id) (some t) = [G] := by
              rw [listFile_growthJ_frozen hg' (by omega) (by
                show F.id < sG.nextId
                have : sG.nextId = s₁.nextId + 1 := rfl
                omega) hjpavoid (some t)]
              exact hsingles
            have hfroznone : listFile s' (some F.id) none =
                listFile s (some F.id) none ++ [G] := by
              rw [listFile_growthJ_frozen hg' (by omega) (by
                show F.id < sG.nextId
                have : sG.nextId = s₁.nextId + 1 := rfl
                omega) hjpavoid none]
              rw [hsG, listFile_createFolder,
                if_pos (by simp [matchesQuery, newFolderObj])]
              rw [listFile_junkOnly_frozen ⟨tailJ, htJ, hnJ, hcJ⟩ hjpavoid none]
            obtain ⟨C', hC', hmap', hper'⟩ := hinv'
            refine ⟨hgtot, hb', G, hfroz, rfl, hfroznone, ?_, ?_⟩
            · exact assembleMirror hwfl (isDriveDir_of_folder hGfol) hlp
                ⟨C', hC', hmap', hper'⟩
            · refine subtreeIn_dir (isDriveDir_of_folder hGfol) (by omega) ?_ hC' ?_
              · show G.id < s'.nextId
                obtain ⟨_, _, hn, _⟩ := hg'
                have : sG.nextId = s₁.nextId + 1 := rfl
                omega
              · intro c hc
                exact subtreeIn_mono (hper' c hc).2 (by omega) (le_refl _)
    · -- the `.many` case
      intro lp dp items segsdp F procd htask hpf hsegs hchain hFfol hFmem hjp
        hldir hlistdir hinv
      subst htask
      have hFid : F.id < s.nextId := hwb.1 F hFmem
      cases items with
      | nil =>
        have hs' : s = s' := by
          have h2 : (Except.ok s : Except (PyErr × DriveState) DriveState) = .ok s' := hrun
          simpa using h2
        subst hs'
        exact ⟨growthJ_refl s F.id jp, hwb, by simpa using hinv⟩
      | cons item rest =>
        rw [uploadGo] at hrun
        have hitemmem : item ∈ osListdir fs0 lp := by
          rw [hlistdir]
          simp
        have hitemgood : goodName item := osListdir_names_good hwfl lp item hitemmem
        cases hlpi : lookupFS fs0 (lp ++ [item]) with
        | none => exact absurd hlpi (osListdir_lookup hitemmem)
        | some node =>
          have hstep : ∀ (cdflag : Bool) (s2 : DriveState),
              uploadGo fs0 fuel s (.one (lp ++ [item]) (dp ++ "/" ++ item) cdflag) =
                .ok s2 →
              uploadGo fs0 fuel s2 (.many lp dp rest) = .ok s' →
              GrowthJ s s' F.id jp ∧ BelowOk s' ∧
                UpInv s' F fs0 lp (procd ++ item :: rest) := by
            intro cdflag s2 hone hmany
            obtain ⟨hg2, hb2, G, hGsingle, hGtitle, hGlistnone, hGmir, hGsub⟩ :=
              (ih (.one (lp ++ [item]) (dp ++ "/" ++ item) cdflag) s s2 hone hwb).1
                (lp ++ [item]) dp item cdflag segsdp F rfl hpf hsegs
                hitemgood.1 hitemgood.2 hchain hFfol hFmem hjp
            have hchain2 : HeadChain s2 jp none segsdp F :=
              headChain_appended (growthJ_appended hg2) jp F segsdp none hchain
            have hFmem2 : F ∈ s2.objects := appended_mem (growthJ_appended hg2) hFmem
            obtain ⟨C, hC, hmap, hper⟩ := hinv
            have hfrozperm := growthJ_frozen_above hg2 hjp
            have hinv2 : UpInv s2 F fs0 lp (procd ++ [item]) := by
              refine ⟨C ++ [G], ?_, ?_, ?_⟩
              · rw [hGlistnone, hC]
              · rw [List.map_append, hmap]
                simp [hGtitle]
              · intro c hc
                rcases List.mem_append.mp hc with h | h
                · have hold := hper c h
                  have hsub2 : SubtreeIn s2 c (F.id + 1) s.nextId :=
                    subtreeIn_frozen hfrozperm hold.2
                  obtain ⟨_, _, hn2, _⟩ := hg2
                  exact ⟨mirror_frozen hfrozperm hold.2 hold.1,
                    subtreeIn_mono hsub2 (le_refl _) hn2⟩
                · simp at h
                  rw [h, hGtitle]
                  exact ⟨hGmir, hGsub⟩
            have hlistdir2 : osListdir fs0 lp = (procd ++ [item]) ++ rest := by
              rw [hlistdir]
              simp
            obtain ⟨hg3, hb3, hinv3⟩ :=
              (ih (.many lp dp rest) s2 s' hmany hb2).2 lp dp rest segsdp F
                (procd ++ [item]) rfl hpf hsegs hchain2 hFfol hFmem2 hjp hldir
                hlistdir2 hinv2
            refine ⟨growthJ_trans hg2 hg3, hb3, ?_⟩
            have he : (procd ++ [item]) ++ rest = procd ++ item :: rest := by simp
            rw [← he]
            exact hinv3
          cases node with
          | file c =>
            have hfile : osIsFile fs0 (lp ++ [item]) = true :=
              osIsFile_lookup.mpr ⟨c, hlpi⟩
            rw [if_pos (by simp [hfile])] at hrun
            cases hone : uploadGo fs0 fuel s (.one (lp ++ [item]) (dp ++ "/" ++ item)
                false) with
            | error e =>
              rw [hone] at hrun
              cases hrun
            | ok s2 =>
              rw [hone] at hrun
              exact hstep false s2 hone hrun
          | dir =>
            have hfile : osIsFile fs0 (lp ++ [item]) = false := by
              simp [osIsFile, hlpi]
            have hdir : osIsDir fs0 (lp ++ [item]) = true := by
              simp [osIsDir, hlpi]
            rw [if_neg (by simp [hfile]), if_pos (by simp [hdir])] at hrun
            cases hone : uploadGo fs0 fuel s (.one (lp ++ [item]) (dp ++ "/" ++ item)
                true) with
            | error e =>
              rw [hone] at hrun
              cases hrun
            | ok s2 =>
              rw [hone] at hrun
              exact hstep true s2 hone hrun

/-! ## C1: top-level upload assembly -/

/-- `_create_drive_path` on a destination whose first segment has no match
under the root: the whole chain is created fresh, one folder per segment,
resolving uniquely to a childless folder. -/
theorem createDrivePath_fresh {s : DriveState} {P : String} {n0 : String}
    {nrest : List String} (hwb : BelowOk s)
    (hpf : PathFacts P (n0 :: nrest))
    (hgood : ∀ x ∈ n0 :: nrest, x ≠ "" ∧ '/' ∉ x.data)
    (hnores : listFile s none (some n0) = []) :
    ∃ (s' : DriveState) (F' : DriveObject),
      createDrivePath s P = .ok (s', 1 + nrest.length) ∧
      BelowOk s' ∧ UniqueChain s' none (n0 :: nrest) F' ∧
      F'.mimeType = folderMime ∧ F' ∈ s'.objects ∧
      listFile s' (some F'.id) none = [] ∧ Appended s s' := by
  have hgn0 := hgood n0 (List.mem_cons_self n0 nrest)
  have hgrest : ∀ x ∈ nrest, x ≠ "" ∧ '/' ∉ x.data :=
    fun x hx => hgood x (List.mem_cons_of_mem n0 hx)
  have hP0 : getDriveObject s P = [] := by
    rw [getDriveObject_eq_walk s P hpf.1 hpf.2, hnores, walkFrom_nil_objs]
  have hpe : pathExistInDrive s P = false := by
    rw [pathExistInDrive, hP0]
    rfl
  set s2 := createFolder s none n0 with hs2
  set newF := newFolderObj s none n0 with hnewF
  have hvac : ∀ q, (none : Option Nat) = some q → q < s.nextId := by
    intro q hq
    cases hq
  have hb2 : BelowOk s2 := createFolder_belowOk hwb none n0 hvac
  have hpf1 : PathFacts ("" ++ "/" ++ n0) [n0] := pathFacts_first n0 hgn0.1 hgn0.2
  have hchain1 : UniqueChain s2 none [n0] newF := by
    show listFile s2 none (some n0) = [newF]
    rw [hs2, listFile_createFolder, hnores,
      if_pos (by simp [matchesQuery, newFolderObj])]
    rfl
  have hres1 : getDriveObject s2 ("" ++ "/" ++ n0) = [newF] :=
    uniqueChain_resolve hpf1 hchain1
  have hmem1 : newF ∈ s2.objects := by
    rw [hs2, createFolder_objects]
    simp [hnewF]
  have hchild1 : listFile s2 (some newF.id) none = [] := by
    have hid : newF.id = s.nextId := rfl
    rw [hid]
    exact createFolder_new_no_children hwb none n0 hvac none
  obtain ⟨s', F', hloop, hg', hb', hchain', hfol', hmem', hchild', _, _, _⟩ :=
    createLoop_create_chain nrest s2 ("" ++ "/" ++ n0) [n0] 1 newF
      hb2 hgrest hpf1 hres1 rfl hmem1 hchild1 hchain1
  refine ⟨s', F', ?_, hb', by simpa using hchain', hfol', hmem', hchild', ?_⟩
  · unfold createDrivePath
    rw [if_neg (by simp [hpe])]
    show createLoop s (getDriveObject s "/") "" 0 (pySplit (cleanInitialSlash P) '/') = _
    rw [hpf.2, createLoop]
    have hnin : ¬ (n0 ∈ (getDriveObject s "/").map (fun o => o.title)) := by
      rw [getDriveObject_root]
      exact title_not_mem_of_listFile_nil hnores
    rw [if_neg hnin]
    have hpidr : pathIdOf s "" = some none := by
      unfold pathIdOf
      rw [if_pos rfl]
    rw [hpidr]
    show createLoop s2 (getDriveObjects s2 ("" ++ "/" ++ n0)) ("" ++ "/" ++ n0) 1 nrest = _
    rw [hloop]
  · exact appended_trans (createFolder_appended s none n0) (childGrowth_appended hg')

theorem folder_of_isDriveDir {X : DriveObject} (h : isDriveDir X = true) :
    X.mimeType = folderMime := by
  simpa [isDriveDir] using h

theorem walkRootSegs_append (s : DriveState) (done rest : List String)
    (h : done ≠ []) :
    walkRootSegs s (done ++ rest) = walkFrom s (walkRootSegs s done) rest := by
  cases done with
  | nil => exact absurd rfl h
  | cons n ds =>
    show walkFrom s (listFile s none (some n)) (ds ++ rest) = _
    rw [walkFrom_append]
    rfl

theorem pySplit_extend {dp : String} {segs : List String} (hpf : PathFacts dp segs)
    {item : String} (h2 : '/' ∉ item.data) :
    pySplit (cleanInitialSlash (dp ++ "/" ++ item)) '/' = segs ++ [item] := by
  have hdpne : dp ≠ "" := pathFacts_ne_empty dp segs hpf
  have h1 : dp ++ "/" ++ item = dp ++ ("/" ++ item) := by
    apply String.ext
    simp [String.data_append]
  rw [h1, cleanInitialSlash_append_right dp ("/" ++ item) hdpne]
  have h3 : cleanInitialSlash dp ++ ("/" ++ item) = cleanInitialSlash dp ++ "/" ++ item := by
    apply String.ext
    simp [String.data_append]
  rw [h3, pySplit_append, hpf.2, pySplit_single item h2]

/-- The walking phase of a top-level `_create_drive_path` over a path that
does not resolve: following the existing heads, the loop either crashes, or
ends having changed nothing (the degenerate repeated-segment skip at a
non-folder head — in which case one more segment always crashes), or
reaches the first missing level and builds the remaining chain fresh,
producing a childless folder at the end of a head-chain. -/
theorem createLoop_phaseA {s0 : DriveState} (hwf : WFState s0) :
    ∀ (rest : List String) (pb : String) (done : List String)
      (dObjs : List DriveObject) (n : Nat),
    (∀ x ∈ rest, x ≠ "" ∧ '/' ∉ x.data) →
    ((pb = "" ∧ done = [] ∧ dObjs = listFile s0 none none ∧ rest ≠ []) ∨
     (∃ X tlX, PathFacts pb done ∧ getDriveObject s0 pb = X :: tlX ∧
        dObjs = getDriveObjects s0 pb ∧ HeadChain s0 none none done X)) →
    walkRootSegs s0 (done ++ rest) = [] →
    ((∃ e, createLoop s0 dObjs pb n rest = .error e) ∨
     (createLoop s0 dObjs pb n rest = .ok (s0, n) ∧
        ∀ more : List String, more ≠ [] →
          ∃ e, createLoop s0 dObjs pb n (rest ++ more) = .error e) ∨
     (∃ (jp : Option (Nat × String)) (s' : DriveState) (F' : DriveObject) (cnt : Nat),
        createLoop s0 dObjs pb n rest = .ok (s', cnt) ∧
        Appended s0 s' ∧ BelowOk s' ∧
        HeadChain s' jp none (done ++ rest) F' ∧
        F'.mimeType = folderMime ∧ F' ∈ s'.objects ∧
        listFile s' (some F'.id) none = [] ∧
        s0.nextId ≤ F'.id ∧
        (∀ pj tj, jp = some (pj, tj) → pj < s0.nextId))) := by
  have hwb : BelowOk s0 := belowOk_of_WF hwf
  intro rest
  induction rest with
  | nil =>
    intro pb done dObjs n _ hcfg hdead
    rcases hcfg with ⟨_, _, _, hne⟩ | ⟨X, tlX, hpf, hres, _, _⟩
    · exact absurd rfl hne
    · exfalso
      rw [getDriveObject_eq_walkRootSegs s0 pb done hpf] at hres
      rw [List.append_nil] at hdead
      rw [hdead] at hres
      cases hres
  | cons seg r' ih =>
    intro pb done dObjs n hgood hcfg hdead
    have hseg := hgood seg (List.mem_cons_self seg r')
    have hr' : ∀ x ∈ r', x ≠ "" ∧ '/' ∉ x.data :=
      fun x hx => hgood x (List.mem_cons_of_mem seg hx)
    rcases hcfg with ⟨hpb0, hdone0, hdo0, _⟩ |
      ⟨X, tlX, hpf, hres, hdo, hchainD⟩
    · -- at the root level
      subst hpb0
      subst hdone0
      have hpf1 : PathFacts ("" ++ "/" ++ seg) [seg] := pathFacts_first seg hseg.1 hseg.2
      have hres1 : getDriveObject s0 ("" ++ "/" ++ seg) = listFile s0 none (some seg) := by
        rw [getDriveObject_eq_walkRootSegs s0 _ _ hpf1]
        rfl
      cases hq : listFile s0 none (some seg) with
      | nil =>
        -- first segment missing at the root: create the whole chain fresh
        have hnin : ¬ (seg ∈ dObjs.map (fun o => o.title)) := by
          rw [hdo0]
          exact title_not_mem_of_listFile_nil hq
        have hpidr : pathIdOf s0 "" = some none := by
          unfold pathIdOf
          rw [if_pos rfl]
        set s2 := createFolder s0 none seg with hs2
        set newF := newFolderObj s0 none seg with hnewF
        have hvac : ∀ q, (none : Option Nat) = some q → q < s0.nextId := by
          intro q hq2
          cases hq2
        have hb2 : BelowOk s2 := createFolder_belowOk hwb none seg hvac
        have hsegQ : listFile s2 none (some seg) = [newF] := by
          rw [hs2, listFile_createFolder, hq,
            if_pos (by simp [matchesQuery, newFolderObj])]
          rfl
        have hchain1 : HeadChain s2 none none [seg] newF := by
          show (listFile s2 none (some seg)).head? = some newF
          rw [hsegQ]
          rfl
        have hres2 : getDriveObject s2 ("" ++ "/" ++ seg) = [newF] := by
          rw [getDriveObject_eq_walkRootSegs s2 _ _ hpf1]
          exact hsegQ
        have hmem2 : newF ∈ s2.objects := by
          rw [hs2, createFolder_objects]
          simp [hnewF]
        have hchild2 : listFile s2 (some newF.id) none = [] := by
          have hid : newF.id = s0.nextId := rfl
          rw [hid]
          exact createFolder_new_no_children hwb none seg hvac none
        obtain ⟨s', F', hloop, hg', hb', hchain', hfol', hmem', hchild', hle', _, _⟩ :=
          createLoop_create_chain_head none r' s2 ("" ++ "/" ++ seg) [seg] (n + 1) newF
            hb2 hr' hpf1 hres2 rfl hmem2 hchild2 hchain1
        refine Or.inr (Or.inr ⟨none, s', F', n + 1 + r'.length, ?_,
          appended_trans (createFolder_appended s0 none seg) (childGrowth_appended hg'),
          hb', ?_, hfol', hmem', hchild', ?_, by intro pj tj hc; cases hc⟩)
        · rw [createLoop, if_neg hnin, hpidr]
          show createLoop s2 (getDriveObjects s2 ("" ++ "/" ++ seg)) ("" ++ "/" ++ seg)
            (n + 1) r' = _
          rw [hloop]
        · show HeadChain s' none none ([] ++ seg :: r') F'
          exact hchain'
        · have hid : newF.id = s0.nextId := rfl
          omega
      | cons x xs =>
        -- first segment found at the root: skip through its head
        have hxq : x ∈ listFile s0 none (some seg) := by
          rw [hq]
          simp
        have hin : seg ∈ dObjs.map (fun o => o.title) := by
          rw [hdo0]
          obtain ⟨hm, hteq⟩ := mem_listFile_title hxq
          exact List.mem_map.mpr ⟨x, hm, hteq⟩
        have hchain1 : HeadChain s0 none none [seg] x := by
          show (listFile s0 none (some seg)).head? = some x
          rw [hq]
          rfl
        have hdead' : walkRootSegs s0 ([seg] ++ r') = [] := by
          simpa using hdead
        have hrec := ih ("" ++ "/" ++ seg) [seg]
          (getDriveObjects s0 ("" ++ "/" ++ seg)) n hr'
          (Or.inr ⟨x, xs, hpf1, by rw [hres1]; exact hq, rfl, hchain1⟩) hdead'
        rcases hrec with ⟨e, herr⟩ | ⟨hok, hmore⟩ |
          ⟨jp, s', F', cnt, hok, happ, hb', hchain', hfol', hmem', hchild', hge, hjpb⟩
        · refine Or.inl ⟨e, ?_⟩
          rw [createLoop, if_pos hin]
          exact herr
        · refine Or.inr (Or.inl ⟨?_, ?_⟩)
          · rw [createLoop, if_pos hin]
            exact hok
          · intro more hm
            obtain ⟨e, he⟩ := hmore more hm
            refine ⟨e, ?_⟩
            rw [List.cons_append, createLoop, if_pos hin]
            exact he
        · refine Or.inr (Or.inr ⟨jp, s', F', cnt, ?_, happ, hb', ?_, hfol', hmem',
            hchild', hge, hjpb⟩)
          · rw [createLoop, if_pos hin]
            exact hok
          · show HeadChain s' jp none ([] ++ seg :: r') F'
            exact hchain'
    · -- below the root: the current head is `X`
      have hXmem : X ∈ s0.objects :=
        getDriveObject_subset s0 pb X (by rw [hres]; simp)
      have hXlt : X.id < s0.nextId := hwb.1 X hXmem
      have hpidb : ∀ q, (some X.id : Option Nat) = some q → q < s0.nextId := by
        intro q hq2
        injection hq2 with hq2
        omega
      have hpfnext : PathFacts (pb ++ "/" ++ seg) (done ++ [seg]) :=
        pathFacts_step pb done seg hpf hseg.1 hseg.2
      have hresnext : getDriveObject s0 (pb ++ "/" ++ seg) =
          listFile s0 (some X.id) (some seg) :=
        resolve_snoc_head hpf hres hseg.1 hseg.2
      have hdead' : walkRootSegs s0 ((done ++ [seg]) ++ r') = [] := by
        have he : (done ++ [seg]) ++ r' = done ++ seg :: r' := by simp
        rw [he]
        exact hdead
      -- the skip continuation, applicable once membership holds and the
      -- next level's query is known nonempty with head `y`
      have hskip : ∀ (y : DriveObject) (ys : List DriveObject),
          listFile s0 (some X.id) (some seg) = y :: ys →
          seg ∈ dObjs.map (fun o => o.title) →
          ((∃ e, createLoop s0 dObjs pb n (seg :: r') = .error e) ∨
           (createLoop s0 dObjs pb n (seg :: r') = .ok (s0, n) ∧
              ∀ more : List String, more ≠ [] →
                ∃ e, createLoop s0 dObjs pb n ((seg :: r') ++ more) = .error e) ∨
           (∃ (jp : Option (Nat × String)) (s' : DriveState) (F' : DriveObject)
              (cnt : Nat),
              createLoop s0 dObjs pb n (seg :: r') = .ok (s', cnt) ∧
              Appended s0 s' ∧ BelowOk s' ∧
              HeadChain s' jp none (done ++ seg :: r') F' ∧
              F'.mimeType = folderMime ∧ F' ∈ s'.objects ∧
              listFile s' (some F'.id) none = [] ∧
              s0.nextId ≤ F'.id ∧
              (∀ pj tj, jp = some (pj, tj) → pj < s0.nextId))) := by
        intro y ys hq hin
        have hchain1 : HeadChain s0 none none (done ++ [seg]) y := by
          refine headChain_snoc ?_ (by rw [hq]; rfl) hchainD
          -- the previous head was walked through alive, so it is a folder
          -- (a non-folder head has no children in a well-formed state)
          by_cases hXdir : isDriveDir X = true
          · exact Or.inl (folder_of_isDriveDir hXdir)
          · exfalso
            have hXfile : X.mimeType ≠ folderMime :=
              fun hc => hXdir (isDriveDir_of_folder hc)
            have := file_no_children hwf X hXmem hXfile (some seg)
            rw [this] at hq
            cases hq
        have hrec := ih (pb ++ "/" ++ seg) (done ++ [seg])
          (getDriveObjects s0 (pb ++ "/" ++ seg)) n hr'
          (Or.inr ⟨y, ys, hpfnext, by rw [hresnext]; exact hq, rfl, hchain1⟩) hdead'
        rcases hrec with ⟨e, herr⟩ | ⟨hok, hmore⟩ |
          ⟨jp, s', F', cnt, hok, happ, hb', hchain', hfol', hmem', hchild', hge, hjpb⟩
        · refine Or.inl ⟨e, ?_⟩
          rw [createLoop, if_pos hin]
          exact herr
        · refine Or.inr (Or.inl ⟨?_, ?_⟩)
          · rw [createLoop, if_pos hin]
            exact hok
          · intro more hm
            obtain ⟨e, he⟩ := hmore more hm
            refine ⟨e, ?_⟩
            rw [List.cons_append, createLoop, if_pos hin]
            exact he
        · refine Or.inr (Or.inr ⟨jp, s', F', cnt, ?_, happ, hb', ?_, hfol', hmem',
            hchild', hge, hjpb⟩)
          · rw [createLoop, if_pos hin]
            exact hok
          · have he : (done ++ [seg]) ++ r' = done ++ seg :: r' := by simp
            rw [he] at hchain'
            exact hchain'
      -- the create continuation, applicable once membership fails and the
      -- next level's query is known empty
      have hcreate : listFile s0 (some X.id) (some seg) = [] →
          ¬ (seg ∈ dObjs.map (fun o => o.title)) →
          ((∃ e, createLoop s0 dObjs pb n (seg :: r') = .error e) ∨
           (createLoop s0 dObjs pb n (seg :: r') = .ok (s0, n) ∧
              ∀ more : List String, more ≠ [] →
                ∃ e, createLoop s0 dObjs pb n ((seg :: r') ++ more) = .error e) ∨
           (∃ (jp : Option (Nat × String)) (s' : DriveState) (F' : DriveObject)
              (cnt : Nat),
              createLoop s0 dObjs pb n (seg :: r') = .ok (s', cnt) ∧
              Appended s0 s' ∧ BelowOk s' ∧
              HeadChain s' jp none (done ++ seg :: r') F' ∧
              F'.mimeType = folderMime ∧ F' ∈ s'.objects ∧
              listFile s' (some F'.id) none = [] ∧
              s0.nextId ≤ F'.id ∧
              (∀ pj tj, jp = some (pj, tj) → pj < s0.nextId))) := by
        intro hq hnin
        have hpidv : pathIdOf s0 pb = some (some X.id) := by
          unfold pathIdOf
          rw [if_neg (pathFacts_ne_empty pb done hpf), hres]
        set jpv : Option (Nat × String) :=
          if X.mimeType = folderMime then none else some (X.id, seg) with hjpv
        have hjpb : ∀ pj tj, jpv = some (pj, tj) → pj < s0.nextId := by
          intro pj tj hc
          rw [hjpv] at hc
          by_cases hXf : X.mimeType = folderMime
          · rw [if_pos hXf] at hc
            cases hc
          · rw [if_neg hXf] at hc
            injection hc with hc
            have h2 : X.id = pj := by
              have h3 := congrArg Prod.fst hc
              simpa using h3
            omega
        set s2 := createFolder s0 (some X.id) seg with hs2
        set newF := newFolderObj s0 (some X.id) seg with hnewF
        have hb2 : BelowOk s2 := createFolder_belowOk hwb (some X.id) seg hpidb
        have hsegQ : listFile s2 (some X.id) (some seg) = [newF] := by
          rw [hs2, listFile_createFolder, hq,
            if_pos (by simp [matchesQuery, newFolderObj])]
          rfl
        have hchain1 : HeadChain s2 jpv none (done ++ [seg]) newF := by
          refine headChain_snoc ?_ (by rw [hsegQ]; rfl)
            (headChain_jp_any (headChain_appended
              (createFolder_appended s0 (some X.id) seg) none X done none hchainD))
          rw [hjpv]
          by_cases hXf : X.mimeType = folderMime
          · rw [if_pos hXf]
            exact Or.inl hXf
          · rw [if_neg hXf]
            exact Or.inr rfl
        obtain ⟨tlr, hress2⟩ :=
          resolve_head_appended (createFolder_appended s0 (some X.id) seg) hres
        have hres2 : getDriveObject s2 (pb ++ "/" ++ seg) = [newF] := by
          rw [resolve_snoc_head hpf hress2 hseg.1 hseg.2]
          exact hsegQ
        have hmem2 : newF ∈ s2.objects := by
          rw [hs2, createFolder_objects]
          simp [hnewF]
        have hchild2 : listFile s2 (some newF.id) none = [] := by
          have hid : newF.id = s0.nextId := rfl
          rw [hid]
          exact createFolder_new_no_children hwb (some X.id) seg hpidb none
        obtain ⟨s', F', hloop, hg', hb', hchain', hfol', hmem', hchild', hle', _, _⟩ :=
          createLoop_create_chain_head jpv r' s2 (pb ++ "/" ++ seg) (done ++ [seg])
            (n + 1) newF hb2 hr' hpfnext hres2 rfl hmem2 hchild2 hchain1
        refine Or.inr (Or.inr ⟨jpv, s', F', n + 1 + r'.length, ?_,
          appended_trans (createFolder_appended s0 (some X.id) seg)
            (childGrowth_appended hg'),
          hb', ?_, hfol', hmem', hchild', ?_, hjpb⟩)
        · rw [createLoop, if_neg hnin, hpidv]
          show createLoop s2 (getDriveObjects s2 (pb ++ "/" ++ seg)) (pb ++ "/" ++ seg)
            (n + 1) r' = _
          rw [hloop]
        · have he : (done ++ [seg]) ++ r' = done ++ seg :: r' := by simp
          rw [he] at hchain'
          exact hchain'
        · have hid : newF.id = s0.nextId := rfl
          omega
      by_cases hXdir : isDriveDir X = true
      · -- folder head: membership coincides with query nonemptiness
        have hXfol : X.mimeType = folderMime := folder_of_isDriveDir hXdir
        have hdoC : dObjs = listFile s0 (some X.id) none := by
          rw [hdo, getDriveObjects_of_resolve s0 pb X tlX
            (pathFacts_ne_root _ _ hpf) hres, if_pos hXdir]
        cases hq : listFile s0 (some X.id) (some seg) with
        | nil =>
          refine hcreate hq ?_
          rw [hdoC]
          exact title_not_mem_of_listFile_nil hq
        | cons y ys =>
          refine hskip y ys hq ?_
          have hyq : y ∈ listFile s0 (some X.id) (some seg) := by
            rw [hq]
            simp
          rw [hdoC]
          obtain ⟨hm, hteq⟩ := mem_listFile_title hyq
          exact List.mem_map.mpr ⟨y, hm, hteq⟩
      · -- non-folder head: no children; membership sees the resolved list
        have hXfile : X.mimeType ≠ folderMime :=
          fun hc => hXdir (isDriveDir_of_folder hc)
        have hq0 : listFile s0 (some X.id) (some seg) = [] :=
          file_no_children hwf X hXmem hXfile (some seg)
        have hdoC : dObjs = X :: tlX := by
          rw [hdo, getDriveObjects_of_resolve s0 pb X tlX
            (pathFacts_ne_root _ _ hpf) hres, if_neg hXdir]
        obtain ⟨done', ls, hdls⟩ : ∃ done' ls, done = done' ++ [ls] := by
          rcases List.eq_nil_or_concat done with h | ⟨L, b, h⟩
          · exact absurd h (pathFacts_done_ne_nil hpf)
          · exact ⟨L, b, by simpa [List.concat_eq_append] using h⟩
        have htitles : ∀ o ∈ getDriveObject s0 pb, o.title = ls :=
          resolution_titles (hdls ▸ hpf)
        by_cases hseq : seg = ls
        · -- the degenerate repeated-segment skip at a dead query
          have hin : seg ∈ dObjs.map (fun o => o.title) := by
            rw [hdoC, hseq]
            have hXt : X.title = ls := htitles X (by rw [hres]; simp)
            exact List.mem_map.mpr ⟨X, by simp, hXt⟩
          have hresnext0 : getDriveObject s0 (pb ++ "/" ++ seg) = [] := by
            rw [hresnext]
            exact hq0
          have hdonext : getDriveObjects s0 (pb ++ "/" ++ seg) = [] :=
            getDriveObjects_of_resolve_nil s0 _
              (pathFacts_ne_root _ _ hpfnext) hresnext0
          have hpidnext : pathIdOf s0 (pb ++ "/" ++ seg) = none := by
            unfold pathIdOf
            rw [if_neg (pathFacts_ne_empty _ _ hpfnext), hresnext0]
          cases r' with
          | nil =>
            refine Or.inr (Or.inl ⟨?_, ?_⟩)
            · rw [createLoop, if_pos hin]
              rfl
            · intro more hm
              cases more with
              | nil => exact absurd rfl hm
              | cons m0 ms =>
                refine ⟨s0, ?_⟩
                rw [List.cons_append, createLoop, if_pos hin]
                show createLoop s0 (getDriveObjects s0 (pb ++ "/" ++ seg))
                  (pb ++ "/" ++ seg) n ([] ++ m0 :: ms) = _
                rw [List.nil_append, hdonext, createLoop,
                  if_neg (by simp), hpidnext]
          | cons r0 rs =>
            refine Or.inl ⟨s0, ?_⟩
            rw [createLoop, if_pos hin]
            show createLoop s0 (getDriveObjects s0 (pb ++ "/" ++ seg))
              (pb ++ "/" ++ seg) n (r0 :: rs) = _
            rw [hdonext, createLoop, if_neg (by simp), hpidnext]
        · -- a fresh segment under a non-folder head: create with the junk pair
          refine hcreate hq0 ?_
          rw [hdoC]
          intro hc
          obtain ⟨o, hom, hot⟩ := List.mem_map.mp hc
          have := htitles o (by rw [hres]; exact hom)
          exact hseq (by rw [← hot, this])

/-- A successful top-level `_create_drive_path` on a non-resolving path:
either nothing changed and the path still does not resolve (and appending
any segment makes the creator crash), or the state extends to one holding a
head-chain for the path down to a fresh childless folder. -/
theorem createDrivePath_top {s0 : DriveState} (hwf : WFState s0) {P : String}
    {segs : List String} (hpf : PathFacts P segs)
    (hsegs : ∀ x ∈ segs, x ≠ "" ∧ '/' ∉ x.data)
    (hP0 : getDriveObject s0 P = [])
    {s2 : DriveState} {cnt : Nat}
    (hrun : createDrivePath s0 P = .ok (s2, cnt)) :
    (s2 = s0 ∧
      ∀ item : String, item ≠ "" → '/' ∉ item.data →
        ∃ e, createDrivePath s0 (P ++ "/" ++ item) = .error e) ∨
    (∃ (jp : Option (Nat × String)) (Ftop : DriveObject),
      Appended s0 s2 ∧ BelowOk s2 ∧
      HeadChain s2 jp none segs Ftop ∧
      Ftop.mimeType = folderMime ∧ Ftop ∈ s2.objects ∧
      listFile s2 (some Ftop.id) none = [] ∧
      s0.nextId ≤ Ftop.id ∧
      (∀ pj tj, jp = some (pj, tj) → pj < s0.nextId)) := by
  have hpe : pathExistInDrive s0 P = false := by
    rw [pathExistInDrive, hP0]
    rfl
  unfold createDrivePath at hrun
  rw [if_neg (by simp [hpe])] at hrun
  have hrun2 : createLoop s0 (getDriveObject s0 "/") "" 0
      (pySplit (cleanInitialSlash P) '/') = .ok (s2, cnt) := hrun
  rw [hpf.2] at hrun2
  have hdead : walkRootSegs s0 (([] : List String) ++ segs) = [] := by
    rw [List.nil_append]
    rw [getDriveObject_eq_walkRootSegs s0 P segs hpf] at hP0
    exact hP0
  have hsegne : segs ≠ [] := pathFacts_done_ne_nil hpf
  rcases createLoop_phaseA hwf segs "" [] (getDriveObject s0 "/") 0 hsegs
      (Or.inl ⟨rfl, rfl, getDriveObject_root s0, hsegne⟩) hdead with
    ⟨e, herr⟩ | ⟨hok, hmore⟩ |
    ⟨jp, s', F', cnt', hok, happ, hb, hchain, hfol, hmem, hch, hge, hjpb⟩
  · rw [herr] at hrun2
    cases hrun2
  · rw [hok] at hrun2
    have hs20 : s2 = s0 := by
      injection hrun2 with h2
      injection h2 with h2a _
      exact h2a.symm
    refine Or.inl ⟨hs20, ?_⟩
    intro item h1 h2
    have hpeI : pathExistInDrive s0 (P ++ "/" ++ item) = false := by
      rw [pathExistInDrive, resolve_snoc_dead hpf hP0 h1 h2]
      rfl
    obtain ⟨e, he⟩ := hmore [item] (by simp)
    refine ⟨e, ?_⟩
    unfold createDrivePath
    rw [if_neg (by simp [hpeI])]
    show createLoop s0 (getDriveObject s0 "/") "" 0
      (pySplit (cleanInitialSlash (P ++ "/" ++ item)) '/') = _
    rw [pySplit_extend hpf h2]
    exact he
  · rw [hok] at hrun2
    have hs2 : s2 = s' := by
      injection hrun2 with h2
      injection h2 with h2a _
      exact h2a.symm
    subst hs2
    refine Or.inr ⟨jp, F', happ, hb, ?_, hfol, hmem, hch, hge, hjpb⟩
    have he : ([] : List String) ++ segs = segs := by simp
    rw [he] at hchain
    exact hchain

/-- A successful top-level upload of a local directory `L` to a fresh
destination `P` (first segment unmatched at the root) leaves the drive with
`P` resolving uniquely to a folder that mirrors the local tree at `L`. -/
theorem upload_top {fs0 : LocalFS} (hwfl : WFLocal fs0) {s0 : DriveState}
    (hwf : WFState s0) {L : List String} {P : String} {fuel : Nat} {s1 : DriveState}
    {n0 : String} {nrest : List String}
    (hpf : PathFacts P (n0 :: nrest))
    (hgood : ∀ x ∈ n0 :: nrest, x ≠ "" ∧ '/' ∉ x.data)
    (hLdir : osIsDir fs0 L = true)
    (hup : uploadObjectsToDrive fs0 fuel s0 L P true = .ok s1) :
    getDriveObject s1 P = [] ∨
    ∃ (Ftop : DriveObject) (tl : List DriveObject),
      getDriveObject s1 P = Ftop :: tl ∧ isDriveDir Ftop = true ∧
      MirrorSubtree s1 Ftop fs0 L := by
  have hwb : BelowOk s0 := belowOk_of_WF hwf
  have hlk : lookupFS fs0 L = some .dir := osIsDir_lookup.mp hLdir
  have hdirname : pyDirname P = pyDirname P := rfl
  cases fuel with
  | zero => exact absurd hup (by simp [uploadObjectsToDrive, uploadGo])
  | succ fuel =>
    unfold uploadObjectsToDrive at hup
    rw [uploadGo] at hup
    have hex : osExists fs0 L = true := by simp [osExists, hlk]
    rw [if_neg (by simp [hex])] at hup
    cases hP0 : getDriveObject s0 P with
    | cons a l =>
      have hpe : pathExistInDrive s0 P = true := by
        rw [pathExistInDrive, hP0]
        rfl
      rw [if_pos (by simp [hpe])] at hup
      cases hup
    | nil =>
      have hpe : pathExistInDrive s0 P = false := by
        rw [pathExistInDrive, hP0]
        rfl
      rw [if_neg (by simp [hpe])] at hup
      have hfile : osIsFile fs0 L = false := by simp [osIsFile, hlk]
      cases hcdp : createDrivePath s0 P with
      | error e2 =>
        simp only [hfile, hLdir, if_false, if_true, hcdp, Bool.false_eq_true] at hup
        cases hup
      | ok pr =>
        obtain ⟨s3, cnt⟩ := pr
        simp only [hfile, hLdir, if_false, if_true, hcdp, Bool.false_eq_true] at hup
        rcases createDrivePath_top hwf hpf hgood hP0 hcdp with
          ⟨hs30, hkids⟩ |
          ⟨jp, Ftop, happ3, hb3, hchain3, hfol3, hmem3, hchild3, hge3, hjpb⟩
        · -- the degenerate case: nothing was created and the path still
          -- does not resolve, so every child upload would crash — the
          -- local directory must be empty and the drive is untouched
          have hs03 : s0 = s3 := hs30.symm
          subst hs03
          cases hdres : getDriveObject s0 (pyDirname P) with
          | nil =>
            rw [hdres] at hup
            simp at hup
          | cons d drest =>
            rw [hdres] at hup
            have hmany : uploadGo fs0 fuel s0 (.many L P (osListdir fs0 L)) =
                .ok s1 := hup
            left
            cases hld : osListdir fs0 L with
            | nil =>
              rw [hld] at hmany
              cases fuel with
              | zero => exact absurd hmany (by simp [uploadGo])
              | succ fuel2 =>
                have hs10 : s0 = s1 := by
                  have h2 : (Except.ok s0 : Except (PyErr × DriveState) DriveState) =
                      .ok s1 := hmany
                  simpa using h2
                rw [← hs10]
                exact hP0
            | cons item irest =>
              exfalso
              rw [hld] at hmany
              cases fuel with
              | zero => exact absurd hmany (by simp [uploadGo])
              | succ fuel2 =>
                rw [uploadGo] at hmany
                have hitemmem : item ∈ osListdir fs0 L := by
                  rw [hld]
                  simp
                have hitemgood : goodName item :=
                  osListdir_names_good hwfl L item hitemmem
                have hipe : pathExistInDrive s0 (P ++ "/" ++ item) = false := by
                  rw [pathExistInDrive,
                    resolve_snoc_dead hpf hP0 hitemgood.1 hitemgood.2]
                  rfl
                have hidn : pyDirname (P ++ "/" ++ item) = P :=
                  pyDirname_append P item hitemgood.2 (pathFacts_ne_empty _ _ hpf)
                    (pathFacts_no_trailing_slash P (n0 :: nrest) hpf
                      (fun seg hs => (hgood seg hs).1))
                cases hlpi : lookupFS fs0 (L ++ [item]) with
                | none => exact absurd hlpi (osListdir_lookup hitemmem)
                | some node =>
                  have hiex : osExists fs0 (L ++ [item]) = true := by
                    simp [osExists, hlpi]
                  cases node with
                  | file c =>
                    have hifile : osIsFile fs0 (L ++ [item]) = true :=
                      osIsFile_lookup.mpr ⟨c, hlpi⟩
                    rw [if_pos (by simp [hifile])] at hmany
                    cases hone : uploadGo fs0 fuel2 s0
                        (.one (L ++ [item]) (P ++ "/" ++ item) false) with
                    | error e =>
                      rw [hone] at hmany
                      cases hmany
                    | ok s2x =>
                      cases fuel2 with
                      | zero => exact absurd hone (by simp [uploadGo])
                      | succ fuel3 =>
                        rw [uploadGo] at hone
                        rw [if_neg (by simp [hiex])] at hone
                        rw [if_neg (by simp [hipe])] at hone
                        simp only [hifile, if_true, hidn] at hone
                        rw [show (if (false : Bool) then
                            createDrivePath s0 P else .ok (s0, 0)) = .ok (s0, 0)
                          from rfl] at hone
                        simp only [hP0] at hone
                        cases hone
                  | dir =>
                    have hifile : osIsFile fs0 (L ++ [item]) = false := by
                      simp [osIsFile, hlpi]
                    have hidir : osIsDir fs0 (L ++ [item]) = true := by
                      simp [osIsDir, hlpi]
                    rw [if_neg (by simp [hifile]),
                      if_pos (by simp [hidir])] at hmany
                    cases hone : uploadGo fs0 fuel2 s0
                        (.one (L ++ [item]) (P ++ "/" ++ item) true) with
                    | error e =>
                      rw [hone] at hmany
                      cases hmany
                    | ok s2x =>
                      cases fuel2 with
                      | zero => exact absurd hone (by simp [uploadGo])
                      | succ fuel3 =>
                        rw [uploadGo] at hone
                        rw [if_neg (by simp [hiex])] at hone
                        rw [if_neg (by simp [hipe])] at hone
                        obtain ⟨e, he⟩ := hkids item hitemgood.1 hitemgood.2
                        simp only [hifile, hidir, if_false, if_true,
                          Bool.false_eq_true, he] at hone
                        cases hone
        · -- the proper case: the chain anchor mirrors the upload
          cases hdres : getDriveObject s3 (pyDirname P) with
          | nil =>
            rw [hdres] at hup
            simp at hup
          | cons d drest =>
            rw [hdres] at hup
            have hmany : uploadGo fs0 fuel s3 (.many L P (osListdir fs0 L)) =
                .ok s1 := hup
            have hjpF : ∀ pj tj, jp = some (pj, tj) → pj < Ftop.id := by
              intro pj tj hc
              have := hjpb pj tj hc
              omega
            obtain ⟨hgm, hbm, hinvm⟩ :=
              (uploadGo_spec fs0 hwfl jp fuel (.many L P (osListdir fs0 L)) s3 s1
                hmany hb3).2 L P (osListdir fs0 L) (n0 :: nrest) Ftop [] rfl hpf
                hgood hchain3 hfol3 hmem3 hjpF hLdir (by simp)
                ⟨[], hchild3, rfl, by simp⟩
            simp only [List.nil_append] at hinvm
            have hchainF : HeadChain s1 jp none (n0 :: nrest) Ftop :=
              headChain_appended (growthJ_appended hgm) jp Ftop (n0 :: nrest)
                none hchain3
            obtain ⟨tl, hres1⟩ := headChain_resolve hpf hchainF
            exact Or.inr ⟨Ftop, tl, hres1, isDriveDir_of_folder hfol3,
              assembleMirror hwfl (isDriveDir_of_folder hfol3) hlk hinvm⟩

/-! ## C1: local filesystem operation lemmas -/

theorem dropLast_ne_self {p : List String} (h : p ≠ []) : p.dropLast ≠ p := by
  intro he
  have hlen := congrArg List.length he
  rw [List.length_dropLast] at hlen
  have hpos : p.length ≠ 0 := fun h0 => h (List.length_eq_zero.mp h0)
  omega

theorem replaceEntry_paths (l : List (List String × FSNode)) (p : List String) (n : FSNode) :
    (replaceEntry l p n).map (fun e => e.1) = l.map (fun e => e.1) := by
  induction l with
  | nil => rfl
  | cons e es ih =>
    unfold replaceEntry
    by_cases hep : e.1 = p
    · rw [if_pos hep]
      simp [hep]
    · rw [if_neg hep]
      simp [ih]

theorem mem_replaceEntry {l : List (List String × FSNode)} {p : List String} {n : FSNode}
    {e : List String × FSNode} (h : e ∈ replaceEntry l p n) : e = (p, n) ∨ e ∈ l := by
  induction l with
  | nil => simp [replaceEntry] at h
  | cons a as ih =>
    unfold replaceEntry at h
    by_cases hap : a.1 = p
    · rw [if_pos hap] at h
      rcases List.mem_cons.mp h with h1 | h1
      · exact Or.inl h1
      · exact Or.inr (List.mem_cons_of_mem a h1)
    · rw [if_neg hap] at h
      rcases List.mem_cons.mp h with h1 | h1
      · exact Or.inr (h1 ▸ List.mem_cons_self a as)
      · rcases ih h1 with h2 | h2
        · exact Or.inl h2
        · exact Or.inr (List.mem_cons_of_mem a h2)

theorem replace_find (l : List (List String × FSNode)) (p : List String) (n : FSNode)
    (q : List String) :
    ((replaceEntry l p n).find? (fun e => e.1 = q)).map (fun e => e.2) =
      if q = p then
        ((l.find? (fun e => e.1 = p)).map (fun e => e.2)).map (fun _ => n)
      else (l.find? (fun e => e.1 = q)).map (fun e => e.2) := by
  induction l with
  | nil =>
    by_cases hqp : q = p <;> simp [replaceEntry, hqp]
  | cons e es ih =>
    by_cases hqp : q = p
    · subst hqp
      rw [if_pos rfl] at ih ⊢
      unfold replaceEntry
      by_cases hep : e.1 = q
      · rw [if_pos hep]
        rw [List.find?_cons_of_pos _ (by simp), List.find?_cons_of_pos _ (by simp [hep])]
        simp
      · rw [if_neg hep]
        rw [List.find?_cons_of_neg _ (by simp [hep]),
          List.find?_cons_of_neg _ (by simp [hep])]
        exact ih
    · rw [if_neg hqp] at ih ⊢
      unfold replaceEntry
      by_cases hep : e.1 = p
      · rw [if_pos hep]
        have hepq : ¬ e.1 = q := fun hc => hqp (hc.symm.trans hep)
        rw [List.find?_cons_of_neg _ (by simp; exact fun hc => hqp hc.symm),
          List.find?_cons_of_neg _ (by simp [hepq])]
      · rw [if_neg hep]
        by_cases heq : e.1 = q
        · rw [List.find?_cons_of_pos _ (by simp [heq]),
            List.find?_cons_of_pos _ (by simp [heq])]
        · rw [List.find?_cons_of_neg _ (by simp [heq]),
            List.find?_cons_of_neg _ (by simp [heq])]
          exact ih

theorem lookupFS_replace (fs : LocalFS) (p : List String) (n : FSNode) (q : List String) :
    lookupFS { fs with entries := replaceEntry fs.entries p n } q =
      if q = p then (lookupFS fs p).map (fun _ => n) else lookupFS fs q := by
  show ((replaceEntry fs.entries p n).find? (fun e => e.1 = q)).map (fun e => e.2) = _
  rw [replace_find]
  by_cases hqp : q = p
  · rw [if_pos hqp, if_pos hqp]
    try rfl
  · rw [if_neg hqp, if_neg hqp]
    try rfl

theorem remove_find (l : List (List String × FSNode)) (p : List String) (q : List String) :
    (removeEntry l p).find? (fun e => e.1 = q) =
      if q = p then none else l.find? (fun e => e.1 = q) := by
  induction l with
  | nil => by_cases hqp : q = p <;> simp [removeEntry, hqp]
  | cons e es ih =>
    by_cases hqp : q = p
    · subst hqp
      rw [if_pos rfl] at ih ⊢
      unfold removeEntry at ih ⊢
      rw [List.filter_cons]
      by_cases hep : e.1 = q
      · rw [if_neg (by simp [hep])]
        exact ih
      · rw [if_pos (by simp [hep])]
        rw [List.find?_cons_of_neg _ (by simp [hep])]
        exact ih
    · rw [if_neg hqp] at ih ⊢
      unfold removeEntry at ih ⊢
      rw [List.filter_cons]
      by_cases hep : e.1 = p
      · rw [if_neg (by simp [hep])]
        rw [ih, List.find?_cons_of_neg _ (by simp; exact fun hc => hqp (hc.symm.trans hep))]
      · rw [if_pos (by simp [hep])]
        by_cases heq : e.1 = q
        · rw [List.find?_cons_of_pos _ (by simp [heq]),
            List.find?_cons_of_pos _ (by simp [heq])]
        · rw [List.find?_cons_of_neg _ (by simp [heq]),
            List.find?_cons_of_neg _ (by simp [heq])]
          exact ih

theorem lookupFS_remove (fs : LocalFS) (p : List String) (q : List String) :
    lookupFS { fs with entries := removeEntry fs.entries p } q =
      if q = p then none else lookupFS fs q := by
  show ((removeEntry fs.entries p).find? (fun e => e.1 = q)).map (fun e => e.2) = _
  rw [remove_find]
  by_cases hqp : q = p
  · rw [if_pos hqp, if_pos hqp]
    try rfl
  · rw [if_neg hqp, if_neg hqp]
    try rfl

theorem lookupFS_append_entry (fs : LocalFS) (p : List String) (n : FSNode)
    (q : List String) :
    lookupFS { fs with entries := fs.entries ++ [(p, n)] } q =
      (lookupFS fs q).or (if q = p then some n else none) := by
  show ((fs.entries ++ [(p, n)]).find? (fun e => e.1 = q)).map (fun e => e.2) = _
  rw [List.find?_append]
  cases hf : fs.entries.find? (fun e => e.1 = q) with
  | some v =>
    have hlq : lookupFS fs q = some v.2 := by
      show (fs.entries.find? (fun e => e.1 = q)).map (fun e => e.2) = _
      rw [hf]
      rfl
    rw [hlq]
    rfl
  | none =>
    have hlq : lookupFS fs q = none := by
      show (fs.entries.find? (fun e => e.1 = q)).map (fun e => e.2) = _
      rw [hf]
      rfl
    rw [hlq]
    by_cases hqp : q = p
    · subst hqp
      rw [if_pos rfl]
      simp [List.find?]
    · rw [if_neg hqp]
      simp only [List.find?]
      have hd : decide (p = q) = false := decide_eq_false (fun hc => hqp hc.symm)
      rw [hd]
      rfl

theorem writeFileAt_spec {fs : LocalFS} (hinv : FSInv fs) {p : List String} {c : List Nat}
    {fs1 : LocalFS} (h : writeFileAt fs p c = .ok fs1) :
    FSInv fs1 ∧ fs1.cwd = fs.cwd ∧ lookupFS fs1 p = some (.file c) ∧
      (∀ q, q ≠ p → lookupFS fs1 q = lookupFS fs q) ∧
      lookupFS fs p ≠ some .dir := by
  unfold writeFileAt at h
  cases hl : lookupFS fs p with
  | some node =>
    cases node with
    | dir =>
      rw [hl] at h
      cases h
    | file c0 =>
      rw [hl] at h
      have hfs1 : fs1 = { fs with entries := replaceEntry fs.entries p (.file c) } := by
        have h2 : (Except.ok { fs with entries := replaceEntry fs.entries p (.file c) } :
            Except Unit LocalFS) = .ok fs1 := h
        simpa using h2.symm
      subst hfs1
      have hpne : p ≠ [] := fsInv_lookup_ne_nil hinv (by rw [hl]; simp)
      refine ⟨⟨?_, ?_, ?_⟩, rfl, ?_, ?_, ?_⟩
      · show ((replaceEntry fs.entries p (.file c)).map (fun e => e.1)).Nodup
        rw [replaceEntry_paths]
        exact hinv.1
      · intro e he
        rcases mem_replaceEntry he with he1 | he1
        · subst he1
          refine ⟨hpne, ?_⟩
          have hold := hinv.2.1 (p, .file c0) (lookupFS_mem hl)
          rcases hold.2 with h0 | h0
          · exact Or.inl h0
          · right
            rw [lookupFS_replace, if_neg (dropLast_ne_self hpne)]
            exact h0
        · have hold := hinv.2.1 e he1
          refine ⟨hold.1, ?_⟩
          rcases hold.2 with h0 | h0
          · exact Or.inl h0
          · right
            have hne : e.1.dropLast ≠ p := by
              intro hc
              rw [hc, hl] at h0
              simp at h0
            rw [lookupFS_replace, if_neg hne]
            exact h0
      · show lookupFS { fs with entries := replaceEntry fs.entries p (.file c) }
          fs.cwd = some .dir
        have hcwdne : fs.cwd ≠ p := by
          intro hc
          have hdd := hinv.2.2
          rw [hc, hl] at hdd
          simp at hdd
        rw [lookupFS_replace, if_neg hcwdne]
        exact hinv.2.2
      · rw [lookupFS_replace, if_pos rfl, hl]
        rfl
      · intro q hq
        rw [lookupFS_replace, if_neg hq]
      · simp
  | none =>
    rw [hl] at h
    by_cases hpd : osIsDir fs p.dropLast = true
    · rw [if_pos hpd] at h
      have hfs1 : fs1 = { fs with entries := fs.entries ++ [(p, .file c)] } := by
        have h2 : (Except.ok { fs with entries := fs.entries ++ [(p, .file c)] } :
            Except Unit LocalFS) = .ok fs1 := h
        simpa using h2.symm
      subst hfs1
      have hpdl : lookupFS fs p.dropLast = some .dir := osIsDir_lookup.mp hpd
      have hpne : p ≠ [] := by
        intro hc
        subst hc
        simp at hpdl
        have := lookupFS_mem hpdl
        exact (hinv.2.1 _ this).1 rfl
      have hplook : ∀ q, lookupFS { fs with entries := fs.entries ++ [(p, .file c)] } q =
          if q = p then some (.file c) else lookupFS fs q := by
        intro q
        rw [lookupFS_append_entry]
        by_cases hqp : q = p
        · subst hqp
          rw [hl, if_pos rfl]
          rfl
        · rw [if_neg hqp, if_neg hqp]
          cases lookupFS fs q <;> rfl
      refine ⟨⟨?_, ?_, ?_⟩, rfl, ?_, ?_, ?_⟩
      · show ((fs.entries ++ [(p, FSNode.file c)]).map (fun e => e.1)).Nodup
        rw [List.map_append]
        rw [List.nodup_append]
        refine ⟨hinv.1, by simp, ?_⟩
        intro a ha hb
        simp at hb
        subst hb
        obtain ⟨e, he, hep⟩ := List.mem_map.mp ha
        exact absurd hep (lookupFS_none_iff.mp hl e he)
      · intro e he
        rcases List.mem_append.mp he with he1 | he1
        · have hold := hinv.2.1 e he1
          refine ⟨hold.1, ?_⟩
          rcases hold.2 with h0 | h0
          · exact Or.inl h0
          · right
            have hne : e.1.dropLast ≠ p := by
              intro hc
              rw [hc, hl] at h0
              simp at h0
            rw [hplook, if_neg hne]
            exact h0
        · simp at he1
          subst he1
          refine ⟨hpne, Or.inr ?_⟩
          rw [hplook, if_neg (dropLast_ne_self hpne)]
          exact hpdl
      · show lookupFS { fs with entries := fs.entries ++ [(p, .file c)] }
          fs.cwd = some .dir
        have hcwdne : fs.cwd ≠ p := by
          intro hc
          have hdd := hinv.2.2
          rw [hc, hl] at hdd
          simp at hdd
        rw [hplook, if_neg hcwdne]
        exact hinv.2.2
      · rw [hplook, if_pos rfl]
      · intro q hq
        rw [hplook, if_neg hq]
      · simp
    · rw [if_neg hpd] at h
      cases h

theorem dropLast_take {p : List String} {k : Nat} (h : k < p.length) :
    (p.take (k + 1)).dropLast = p.take k := by
  rw [List.dropLast_eq_take, List.take_take, List.length_take]
  congr 1
  omega

theorem appendDir_spec {fs : LocalFS} (hinv : FSInv fs) {d : List String}
    (hnew : lookupFS fs d = none) (hdne : d ≠ [])
    (hpar : d.dropLast = [] ∨ lookupFS fs d.dropLast = some .dir) :
    FSInv { fs with entries := fs.entries ++ [(d, .dir)] } ∧
    ∀ q, lookupFS { fs with entries := fs.entries ++ [(d, .dir)] } q =
      if q = d then some .dir else lookupFS fs q := by
  have hplook : ∀ q, lookupFS { fs with entries := fs.entries ++ [(d, FSNode.dir)] } q =
      if q = d then some .dir else lookupFS fs q := by
    intro q
    rw [lookupFS_append_entry]
    by_cases hqd : q = d
    · subst hqd
      rw [hnew, if_pos rfl]
      rfl
    · rw [if_neg hqd, if_neg hqd]
      cases lookupFS fs q <;> rfl
  refine ⟨⟨?_, ?_, ?_⟩, hplook⟩
  · show ((fs.entries ++ [(d, FSNode.dir)]).map (fun e => e.1)).Nodup
    rw [List.map_append, List.nodup_append]
    refine ⟨hinv.1, by simp, ?_⟩
    intro a ha hb
    simp at hb
    subst hb
    obtain ⟨e, he, hep⟩ := List.mem_map.mp ha
    exact absurd hep (lookupFS_none_iff.mp hnew e he)
  · intro e he
    rcases List.mem_append.mp he with he1 | he1
    · have hold := hinv.2.1 e he1
      refine ⟨hold.1, ?_⟩
      rcases hold.2 with h0 | h0
      · exact Or.inl h0
      · right
        have hne : e.1.dropLast ≠ d := by
          intro hc
          rw [hc, hnew] at h0
          simp at h0
        rw [hplook, if_neg hne]
        exact h0
    · simp at he1
      subst he1
      refine ⟨hdne, ?_⟩
      rcases hpar with h0 | h0
      · exact Or.inl h0
      · right
        rw [hplook, if_neg (dropLast_ne_self hdne)]
        exact h0
  · show lookupFS { fs with entries := fs.entries ++ [(d, FSNode.dir)] } fs.cwd = some .dir
    have hcwdne : fs.cwd ≠ d := by
      intro hc
      have hdd := hinv.2.2
      rw [hc, hnew] at hdd
      simp at hdd
    rw [hplook, if_neg hcwdne]
    exact hinv.2.2

theorem makedirsGo_spec (p : List String) :
    ∀ (m k : Nat), m = p.length - k → k ≤ p.length →
      ∀ (fs : LocalFS), FSInv fs →
      (k = 0 ∨ lookupFS fs (p.take k) = some .dir) →
      ∀ fs1, makedirsGo fs ((List.range m).map (fun i => p.take (k + i + 1))) = .ok fs1 →
      FSInv fs1 ∧ fs1.cwd = fs.cwd ∧
      (p ≠ [] → lookupFS fs1 p = some .dir) ∧
      (∀ q, lookupFS fs1 q ≠ lookupFS fs q →
        Under q p ∧ lookupFS fs q = none ∧ lookupFS fs1 q = some .dir) := by
  intro m
  induction m with
  | zero =>
    intro k hm hk fs hinv hdisj fs1 hrun
    have hfs1 : fs1 = fs := by
      have h2 : (Except.ok fs : Except Unit LocalFS) = .ok fs1 := hrun
      simpa using h2.symm
    subst hfs1
    refine ⟨hinv, rfl, ?_, ?_⟩
    · intro hpne
      have hkl : k = p.length := by omega
      rcases hdisj with h0 | h0
      · exfalso
        apply hpne
        apply List.length_eq_zero.mp
        omega
      · rw [hkl, List.take_length] at h0
        exact h0
    · intro q hq
      exact absurd rfl hq
  | succ m ih =>
    intro k hm hk fs hinv hdisj fs1 hrun
    have hklt : k < p.length := by omega
    rw [List.range_succ_eq_map, List.map_cons, List.map_map] at hrun
    have hmapeq : (List.range m).map ((fun i => p.take (k + i + 1)) ∘ (· + 1)) =
        (List.range m).map (fun i => p.take ((k + 1) + i + 1)) := by
      apply List.map_eq_map_iff.mpr
      intro a _
      show p.take (k + (a + 1) + 1) = p.take ((k + 1) + a + 1)
      congr 1
      omega
    rw [hmapeq] at hrun
    have hd0 : k + 0 + 1 = k + 1 := by omega
    rw [hd0] at hrun
    have htne : p.take (k + 1) ≠ [] := by
      intro hc
      rcases List.take_eq_nil_iff.mp hc with h0 | h0
      · simp at h0
      · rw [h0] at hklt
        simp at hklt
    have htpar : (p.take (k + 1)).dropLast = [] ∨
        lookupFS fs (p.take (k + 1)).dropLast = some .dir := by
      rw [dropLast_take hklt]
      rcases hdisj with h0 | h0
      · subst h0
        exact Or.inl rfl
      · exact Or.inr h0
    unfold makedirsGo at hrun
    cases hl : lookupFS fs (p.take (k + 1)) with
    | some node =>
      cases node with
      | dir =>
        rw [hl] at hrun
        obtain ⟨h1, h2, h3, h4⟩ := ih (k + 1) (by omega) (by omega) fs hinv
          (Or.inr hl) fs1 hrun
        exact ⟨h1, h2, h3, h4⟩
      | file c =>
        rw [hl] at hrun
        cases hrun
    | none =>
      rw [hl] at hrun
      obtain ⟨hinv', hplook⟩ := appendDir_spec hinv hl htne htpar
      obtain ⟨h1, h2, h3, h4⟩ := ih (k + 1) (by omega) (by omega)
        { fs with entries := fs.entries ++ [(p.take (k + 1), .dir)] } hinv'
        (Or.inr (by rw [hplook, if_pos rfl])) fs1 hrun
      refine ⟨h1, h2, h3, ?_⟩
      intro q hq
      by_cases hqd : q = p.take (k + 1)
      · subst hqd
        refine ⟨⟨p.drop (k + 1), (List.take_append_drop (k + 1) p).symm⟩, hl, ?_⟩
        by_cases hrec : lookupFS fs1 (p.take (k + 1)) =
            lookupFS { fs with entries := fs.entries ++ [(p.take (k + 1), .dir)] }
              (p.take (k + 1))
        · rw [hrec, hplook, if_pos rfl]
        · obtain ⟨_, hnone, _⟩ := h4 _ hrec
          rw [hplook, if_pos rfl] at hnone
          simp at hnone
      · have hmid : lookupFS { fs with entries :=
            fs.entries ++ [(p.take (k + 1), .dir)] } q = lookupFS fs q := by
          rw [hplook, if_neg hqd]
        by_cases hrec : lookupFS fs1 q =
            lookupFS { fs with entries := fs.entries ++ [(p.take (k + 1), .dir)] } q
        · rw [hrec, hmid] at hq
          exact absurd rfl hq
        · obtain ⟨hu, hn, hd⟩ := h4 q hrec
          rw [hmid] at hn
          exact ⟨hu, hn, hd⟩

theorem createLocalPath_new {fs : LocalFS} (hinv : FSInv fs) {p : List String}
    (hnone : lookupFS fs p = none) {fs1 : LocalFS}
    (h : createLocalPath fs p = .ok fs1) :
    FSInv fs1 ∧ fs1.cwd = fs.cwd ∧ lookupFS fs1 p = some .dir ∧
      (∀ q, lookupFS fs1 q ≠ lookupFS fs q →
        Under q p ∧ lookupFS fs q = none ∧ lookupFS fs1 q = some .dir) := by
  unfold createLocalPath at h
  have hex : osExists fs p = false := osExists_lookup.mpr hnone
  rw [if_neg (by simp [hex])] at h
  by_cases hpn : p = []
  · rw [if_pos hpn] at h
    cases h
  · rw [if_neg hpn] at h
    have hrun : makedirsGo fs ((List.range (p.length - 0)).map
        (fun i => p.take (0 + i + 1))) = .ok fs1 := by
      have he : pathAncestors p = (List.range (p.length - 0)).map
          (fun i => p.take (0 + i + 1)) := by
        unfold pathAncestors
        apply List.map_eq_map_iff.mpr
        intro a _
        show p.take (a + 1) = p.take (0 + a + 1)
        congr 1
        omega
      rw [← he]
      exact h
    obtain ⟨h1, h2, h3, h4⟩ := makedirsGo_spec p (p.length - 0) 0 rfl (by omega)
      fs hinv (Or.inl rfl) fs1 hrun
    exact ⟨h1, h2, h3 hpn, h4⟩

theorem createLocalPath_any {fs : LocalFS} (hinv : FSInv fs) {p : List String}
    {fs1 : LocalFS} (h : createLocalPath fs p = .ok fs1) :
    FSInv fs1 ∧ fs1.cwd = fs.cwd ∧
      (∀ q, lookupFS fs1 q ≠ lookupFS fs q →
        Under q p ∧ lookupFS fs q = none ∧ lookupFS fs1 q = some .dir) := by
  cases hl : lookupFS fs p with
  | some v =>
    have hfs1 : fs1 = fs := by
      unfold createLocalPath at h
      rw [if_pos (by simp [osExists, hl])] at h
      have h2 : (Except.ok fs : Except Unit LocalFS) = .ok fs1 := h
      simpa using h2.symm
    subst hfs1
    exact ⟨hinv, rfl, fun q hq => absurd rfl hq⟩
  | none =>
    obtain ⟨h1, h2, _, h4⟩ := createLocalPath_new hinv hl h
    exact ⟨h1, h2, h4⟩

theorem shutilMove_spec {fs : LocalFS} (hinv : FSInv fs) {src dst : List String}
    {c : List Nat} (hsrc : lookupFS fs src = some (.file c))
    (hdst : src ≠ dst → lookupFS fs dst = none) (hdstne : dst ≠ [])
    {fs1 : LocalFS} (h : shutilMove fs src dst = .ok fs1) :
    FSInv fs1 ∧ fs1.cwd = fs.cwd ∧ lookupFS fs1 dst = some (.file c) ∧
      (∀ q, q ≠ src → q ≠ dst → lookupFS fs1 q = lookupFS fs q) ∧
      (src ≠ dst → lookupFS fs1 src = none) := by
  unfold shutilMove at h
  by_cases hsd : src = dst
  · rw [if_pos hsd] at h
    rw [if_pos (by simp [osExists, hsrc])] at h
    have hfs1 : fs1 = fs := by
      have h2 : (Except.ok fs : Except Unit LocalFS) = .ok fs1 := h
      simpa using h2.symm
    subst hfs1
    subst hsd
    exact ⟨hinv, rfl, hsrc, fun q _ _ => rfl, fun hc => absurd rfl hc⟩
  · rw [if_neg hsd, hsrc, hdst hsd] at h
    have h : (if osIsDir fs dst.dropLast = true ∨ dst.dropLast = [] then
        (Except.ok { fs with entries := removeEntry fs.entries src ++ [(dst, .file c)] } :
          Except Unit LocalFS)
        else .error ()) = .ok fs1 := h
    by_cases hpar : osIsDir fs dst.dropLast = true ∨ dst.dropLast = []
    swap
    · rw [if_neg hpar] at h
      cases h
    · rw [if_pos hpar] at h
      set rest := removeEntry fs.entries src with hrest
      have hfs1 : fs1 = { fs with entries := rest ++ [(dst, .file c)] } := by
        have h2 : (Except.ok { fs with entries := rest ++ [(dst, FSNode.file c)] } :
            Except Unit LocalFS) = .ok fs1 := h
        simpa using h2.symm
      subst hfs1
      have hlookmid : ∀ q, lookupFS { fs with entries := rest } q =
          if q = src then none else lookupFS fs q := by
        intro q
        rw [hrest]
        exact lookupFS_remove fs src q
      have hmidnew : lookupFS { fs with entries := rest } dst = none := by
        rw [hlookmid, if_neg (Ne.symm hsd)]
        exact hdst hsd
      have hplook : ∀ q, lookupFS { fs with entries := rest ++ [(dst, FSNode.file c)] } q =
          if q = dst then some (.file c) else
            if q = src then none else lookupFS fs q := by
        intro q
        have := lookupFS_append_entry { fs with entries := rest } dst (.file c) q
        simp only at this
        rw [this]
        by_cases hqd : q = dst
        · subst hqd
          rw [hmidnew, if_pos rfl, if_pos rfl]
          rfl
        · rw [if_neg hqd, if_neg hqd, hlookmid]
          by_cases hqs : q = src
          · rw [if_pos hqs]
            rfl
          · rw [if_neg hqs]
            cases lookupFS fs q <;> rfl
      have hsubrest : ∀ e, e ∈ rest → e ∈ fs.entries ∧ e.1 ≠ src := by
        intro e he
        rw [hrest] at he
        unfold removeEntry at he
        have hm := List.mem_filter.mp he
        refine ⟨hm.1, by simpa using hm.2⟩
      refine ⟨⟨?_, ?_, ?_⟩, rfl, ?_, ?_, ?_⟩
      · show ((rest ++ [(dst, FSNode.file c)]).map (fun e => e.1)).Nodup
        rw [List.map_append, List.nodup_append]
        refine ⟨?_, by simp, ?_⟩
        · rw [hrest]
          unfold removeEntry
          have hsub : (fs.entries.filter (fun e => e.1 ≠ src)).map (fun e => e.1)
              |>.Sublist (fs.entries.map (fun e => e.1)) :=
            (List.filter_sublist fs.entries).map _
          exact hinv.1.sublist hsub
        · intro a ha hb
          simp at hb
          subst hb
          obtain ⟨e, he, hep⟩ := List.mem_map.mp ha
          have := (hsubrest e he).1
          exact absurd hep (lookupFS_none_iff.mp (hdst hsd) e this)
      · intro e he
        rcases List.mem_append.mp he with he1 | he1
        · obtain ⟨hmem, hnsrc⟩ := hsubrest e he1
          have hold := hinv.2.1 e hmem
          refine ⟨hold.1, ?_⟩
          rcases hold.2 with h0 | h0
          · exact Or.inl h0
          · right
            have hne1 : e.1.dropLast ≠ dst := by
              intro hc
              rw [hc, hdst hsd] at h0
              simp at h0
            have hne2 : e.1.dropLast ≠ src := by
              intro hc
              rw [hc, hsrc] at h0
              simp at h0
            rw [hplook, if_neg hne1, if_neg hne2]
            exact h0
        · simp at he1
          subst he1
          refine ⟨hdstne, ?_⟩
          rcases hpar with h0 | h0
          · right
            have hpd : lookupFS fs dst.dropLast = some .dir := osIsDir_lookup.mp h0
            have hne1 : dst.dropLast ≠ dst := dropLast_ne_self hdstne
            have hne2 : dst.dropLast ≠ src := by
              intro hc
              rw [hc, hsrc] at hpd
              simp at hpd
            rw [hplook, if_neg hne1, if_neg hne2]
            exact hpd
          · exact Or.inl h0
      · show lookupFS { fs with entries := rest ++ [(dst, FSNode.file c)] } fs.cwd =
          some .dir
        have hcd := hinv.2.2
        have hne1 : fs.cwd ≠ dst := by
          intro hc
          rw [hc, hdst hsd] at hcd
          simp at hcd
        have hne2 : fs.cwd ≠ src := by
          intro hc
          rw [hc, hsrc] at hcd
          simp at hcd
        rw [hplook, if_neg hne1, if_neg hne2]
        exact hcd
      · rw [hplook, if_pos rfl]
      · intro q hq1 hq2
        rw [hplook, if_neg hq2, if_neg hq1]
      · intro _
        rw [hplook, if_neg hsd, if_pos rfl]

/-! ## C1: download-side helper lemmas -/

theorem fsInv_lookup_nil {fs : LocalFS} (hinv : FSInv fs) : lookupFS fs [] = none := by
  cases hl : lookupFS fs [] with
  | none => rfl
  | some v => exact absurd rfl ((hinv.2.1 ([], v) (lookupFS_mem hl)).1)

theorem under_dropLast {q p : List String} (hp : p ≠ []) (h : Under q p.dropLast) :
    Under q p := by
  obtain ⟨c, hc⟩ : ∃ c, p.getLast? = some c := by
    cases hgl : p.getLast? with
    | none => exact absurd (List.getLast?_eq_none_iff.mp hgl) hp
    | some c => exact ⟨c, rfl⟩
  have hdec : p.dropLast ++ [c] = p := List.dropLast_append_getLast? c hc
  obtain ⟨r, hr⟩ := h
  exact ⟨r ++ [c], by rw [← hdec, hr, List.append_assoc]⟩

theorem under_snoc_cases {q p : List String} {t : String} (h : Under q (p ++ [t])) :
    Under q p ∨ q = p ++ [t] := by
  obtain ⟨r, hr⟩ := h
  cases r using List.reverseRecOn with
  | nil =>
    right
    rw [hr, List.append_nil]
  | append_singleton r' x =>
    left
    have h2 : p ++ [t] = (q ++ r') ++ [x] := by
      rw [hr, List.append_assoc]
    have h3 := List.append_inj' h2 rfl
    exact ⟨r', h3.1⟩

theorem under_append_cancel {lp : List String} {a b : String} {r : List String}
    (h : Under (lp ++ [a]) (lp ++ b :: r)) : a = b := by
  obtain ⟨rr, hrr⟩ := h
  rw [List.append_assoc] at hrr
  have h2 : b :: r = [a] ++ rr := List.append_cancel_left hrr
  simp at h2
  exact h2.1.symm

theorem temp_not_deep {cwd lp : List String} {t n : String} {qrel : List String}
    (hq : lp ++ [t] ++ qrel = cwd ++ [n]) (hnc : ¬ Under lp cwd) : False := by
  have h1 : Under lp (cwd ++ [n]) := ⟨[t] ++ qrel, by rw [← hq]; simp⟩
  have h2 : Under cwd (cwd ++ [n]) := under_append cwd [n]
  rcases under_comparable h1 h2 with h3 | h3
  · exact hnc h3
  · obtain ⟨r, hr⟩ := h3
    subst hr
    have hlen := congrArg List.length hq
    simp at hlen
    have hrnil : r = [] := List.length_eq_zero.mp (by omega)
    apply hnc
    rw [hrnil, List.append_nil]
    exact under_refl cwd

theorem mirror_child_single {s : DriveState} {X : DriveObject} {fs0 : LocalFS}
    {base : List String} (hm : MirrorSubtree s X fs0 base) (hdir : isDriveDir X = true)
    {t : String} (ht : lookupFS fs0 (base ++ [t]) ≠ none) :
    ∃ c, listFile s (some X.id) (some t) = [c] ∧
      remoteAsFS (some c) = lookupFS fs0 (base ++ [t]) := by
  have h := (hm [t]).1
  cases hl : listFile s (some X.id) (some t) with
  | nil =>
    have h0 : remoteNodeAt s X [t] = none := by
      unfold remoteNodeAt
      rw [if_pos hdir, hl]
    rw [h0] at h
    exact absurd h.symm ht
  | cons y ys =>
    cases ys with
    | nil =>
      have h0 : remoteNodeAt s X [t] = some y := by
        rw [remoteNodeAt_step hdir hl]
        rfl
      rw [h0] at h
      exact ⟨y, rfl, h⟩
    | cons z zs =>
      have h0 : remoteNodeAt s X [t] = none := by
        unfold remoteNodeAt
        rw [if_pos hdir, hl]
      rw [h0] at h
      exact absurd h.symm ht

/-! ## C1: the download recursion -/

/-- The download recursion, unrolled against the invariants: a successful
`.one` call writes, under its (possibly `'.'`-substituted) local target, an
exact pointwise copy of the local subtree that the resolved remote object
mirrors, touching nothing else but missing ancestor directories and the
working-directory temporary of `GetContentFile`; a successful `.many` loop
does so child by child under an existing target directory. -/
theorem downloadGo_spec (s : DriveState) (fs0 : LocalFS) (hwfl0 : WFLocal fs0)
    (cwd0 : List String) :
    ∀ (fuel : Nat) (task : DownTask) (fs fs1 : LocalFS),
      downloadGo s fuel fs task = .ok fs1 →
      FSInv fs → fs.cwd = cwd0 →
      ((∀ (dpath : String) (lp : List String) (chk : Bool) (segsd : List String)
          (X : DriveObject) (base : List String),
          task = .one dpath lp chk →
          PathFacts dpath segsd →
          (∀ x ∈ segsd, x ≠ "" ∧ '/' ∉ x.data) →
          (∃ tlr, getDriveObject s dpath = X :: tlr) →
          MirrorSubtree s X fs0 base →
          FSInv fs1 ∧ fs1.cwd = cwd0 ∧
            LocalDelta fs fs1 (if lp = ["."] then cwd0 ++ [pyBasename dpath] else lp) ∧
            ∀ rel, lookupFS fs1
                ((if lp = ["."] then cwd0 ++ [pyBasename dpath] else lp) ++ rel) =
              lookupFS fs0 (base ++ rel)) ∧
       (∀ (dpath : String) (lp : List String) (objs : List DriveObject)
          (segsd : List String) (X : DriveObject) (base : List String)
          (procdN : List String),
          task = .many dpath lp objs →
          PathFacts dpath segsd →
          (∀ x ∈ segsd, x ≠ "" ∧ '/' ∉ x.data) →
          (∃ tlr, getDriveObject s dpath = X :: tlr) →
          isDriveDir X = true →
          MirrorSubtree s X fs0 base →
          (∃ procdC, listFile s (some X.id) none = procdC ++ objs ∧
            procdC.map (fun o => o.title) = procdN) →
          lookupFS fs lp = some .dir →
          ¬ Under lp cwd0 →
          DownInv fs fs0 lp base procdN →
          FSInv fs1 ∧ fs1.cwd = cwd0 ∧
            (∀ q, lookupFS fs1 q ≠ lookupFS fs q →
              (Under lp q ∧ q ≠ lp) ∨
              (∃ n, q = cwd0 ++ [n] ∧ lookupFS fs1 q = none ∧
                lookupFS fs q ≠ some .dir)) ∧
            DownInv fs1 fs0 lp base (procdN ++ objs.map (fun o => o.title)))) := by
  have hfsinv0 : FSInv fs0 := wfLocal_fsInv hwfl0
  intro fuel
  induction fuel with
  | zero =>
    intro task fs fs1 hrun
    exact absurd hrun (by simp [downloadGo])
  | succ fuel ih =>
    intro task fs fs1 hrun hinv hcwd
    constructor
    · -- the `.one` case
      intro dpath lp chk segsd X base htask hpf hsegs hresE hm
      subst htask
      obtain ⟨tlr, hres⟩ := hresE
      rw [downloadGo] at hrun
      simp only [hcwd] at hrun
      set lpe := if lp = ["."] then cwd0 ++ [pyBasename dpath] else lp with hlpedef
      have hpe : pathExistInDrive s dpath = true := by
        rw [pathExistInDrive, hres]
        rfl
      cases hlpe : lookupFS fs lpe with
      | some v =>
        rw [if_pos (by simp [osExists, hlpe])] at hrun
        cases hrun
      | none =>
        rw [if_neg (by simp [osExists, hlpe])] at hrun
        rw [if_neg (by simp [hpe])] at hrun
        simp only [hres] at hrun
        by_cases hXdir : isDriveDir X = true
        · -- folder download
          rw [if_pos hXdir] at hrun
          cases hclp : createLocalPath fs lpe with
          | error e =>
            rw [hclp] at hrun
            cases hrun
          | ok fsA =>
            simp only [hclp] at hrun
            have hlpene : lpe ≠ [] := by
              intro hc
              rw [hc] at hclp
              unfold createLocalPath at hclp
              rw [if_neg (by simp [osExists_lookup.mpr (fsInv_lookup_nil hinv)]),
                if_pos rfl] at hclp
              cases hclp
            obtain ⟨hinvA, hcwdA, hlpedir, hframeA⟩ := createLocalPath_new hinv hlpe hclp
            have hdobjs : getDriveObjects s dpath = listFile s (some X.id) none := by
              rw [getDriveObjects_of_resolve s dpath X tlr (pathFacts_ne_root _ _ hpf)
                hres, if_pos hXdir]
            have hnotunder : ¬ Under lpe cwd0 := by
              have h0 := fsInv_not_under_cwd hinv hlpe hlpene
              rw [hcwd] at h0
              exact h0
            have hnamesall : (listFile s (some X.id) none).map (fun o => o.title) =
                osListdir fs0 base := by
              have h0 := (hm []).2 X rfl hXdir
              simpa using h0
            have hdinvA : DownInv fsA fs0 lpe base [] := by
              intro rel
              cases rel with
              | nil => simpa using hlpedir
              | cons t r =>
                show lookupFS fsA (lpe ++ t :: r) =
                  if t ∈ ([] : List String) then lookupFS fs0 (base ++ t :: r) else none
                rw [if_neg (by simp)]
                have hfsn : lookupFS fs (lpe ++ t :: r) = none :=
                  fsInv_none_extend hinv hlpe hlpene (t :: r) (by simp)
                by_cases hch : lookupFS fsA (lpe ++ t :: r) = lookupFS fs (lpe ++ t :: r)
                · rw [hch, hfsn]
                · obtain ⟨hu, _, _⟩ := hframeA _ hch
                  obtain ⟨rr, hrr⟩ := hu
                  have hlen := congrArg List.length hrr
                  simp at hlen
            obtain ⟨hinv1, hcwd1, hmdelta, hdinv1⟩ :=
              (ih (.many dpath lpe (getDriveObjects s dpath)) fsA fs1 hrun hinvA
                (hcwdA.trans hcwd)).2 dpath lpe (getDriveObjects s dpath) segsd X base []
                rfl hpf hsegs ⟨tlr, hres⟩ hXdir hm ⟨[], by simp [hdobjs], rfl⟩ hlpedir
                hnotunder hdinvA
            refine ⟨hinv1, hcwd1, ?_, ?_⟩
            · intro q hq
              by_cases hmid : lookupFS fs1 q = lookupFS fsA q
              · rw [hmid] at hq
                obtain ⟨hu, hn, hd⟩ := hframeA q hq
                by_cases hqe : q = lpe
                · exact Or.inl (hqe ▸ under_refl lpe)
                · refine Or.inr (Or.inl ⟨hu, hqe, hn, ?_⟩)
                  rw [hmid]
                  exact hd
              · rcases hmdelta q hmid with ⟨hu, _⟩ | ⟨n, hqn, h1n, hAnd⟩
                · exact Or.inl hu
                · refine Or.inr (Or.inr ⟨n, by rw [hcwd]; exact hqn, h1n, ?_⟩)
                  by_cases hch : lookupFS fsA q = lookupFS fs q
                  · rw [← hch]
                    exact hAnd
                  · obtain ⟨_, hn0, _⟩ := hframeA q hch
                    rw [hn0]
                    simp
            · intro rel
              cases rel with
              | nil =>
                have h1 : lookupFS fs1 (lpe ++ []) = some FSNode.dir := hdinv1 []
                have h2 : remoteAsFS (some X) = lookupFS fs0 (base ++ []) := (hm []).1
                rw [show remoteAsFS (some X) = some FSNode.dir by
                  simp [remoteAsFS, hXdir]] at h2
                rw [h1, ← h2]
              | cons t r =>
                have h1 : lookupFS fs1 (lpe ++ t :: r) =
                    if t ∈ ([] : List String) ++
                        (getDriveObjects s dpath).map (fun o => o.title) then
                      lookupFS fs0 (base ++ t :: r)
                    else none := hdinv1 (t :: r)
                rw [hdobjs, hnamesall, List.nil_append] at h1
                by_cases ht : t ∈ osListdir fs0 base
                · rw [if_pos ht] at h1
                  exact h1
                · rw [if_neg ht] at h1
                  rw [h1]
                  have h2 : lookupFS fs0 (base ++ [t]) = none := not_mem_osListdir ht
                  cases r with
                  | nil => simpa using h2.symm
                  | cons a l =>
                    have h3 := fsInv_none_extend hfsinv0 h2 (by simp) (a :: l) (by simp)
                    have e : base ++ t :: a :: l = (base ++ [t]) ++ a :: l := by simp
                    rw [e, h3]
        · -- file download
          rw [if_neg hXdir] at hrun
          have hXfile : isDriveDir X = false := by simpa using hXdir
          cases hw : writeFileAt fs (cwd0 ++ [pyBasename dpath]) X.content with
          | error e =>
            rw [hw] at hrun
            cases hrun
          | ok fsA =>
            simp only [hw] at hrun
            obtain ⟨hinvA, hcwdA, htempA, hframeA, htempnd⟩ := writeFileAt_spec hinv hw
            cases hcl : createLocalPath fsA lpe.dropLast with
            | error e =>
              rw [hcl] at hrun
              cases hrun
            | ok fsB =>
              simp only [hcl] at hrun
              obtain ⟨hinvB, hcwdB, hframeB⟩ := createLocalPath_any hinvA hcl
              have hlpene : lpe ≠ [] := by
                intro hc
                rw [hc] at hcl
                simp only [List.dropLast_nil] at hcl
                unfold createLocalPath at hcl
                rw [if_neg (by simp [osExists_lookup.mpr (fsInv_lookup_nil hinvA)]),
                  if_pos rfl] at hcl
                cases hcl
              have htempB : lookupFS fsB (cwd0 ++ [pyBasename dpath]) =
                  some (.file X.content) := by
                by_cases hch : lookupFS fsB (cwd0 ++ [pyBasename dpath]) =
                    lookupFS fsA (cwd0 ++ [pyBasename dpath])
                · rw [hch]
                  exact htempA
                · obtain ⟨_, hn0, _⟩ := hframeB _ hch
                  rw [htempA] at hn0
                  simp at hn0
              have hdstB : (cwd0 ++ [pyBasename dpath]) ≠ lpe → lookupFS fsB lpe = none := by
                intro hne
                have hA : lookupFS fsA lpe = lookupFS fs lpe :=
                  hframeA lpe (fun hc => hne hc.symm)
                by_cases hch : lookupFS fsB lpe = lookupFS fsA lpe
                · rw [hch, hA, hlpe]
                · obtain ⟨hu, _, _⟩ := hframeB _ hch
                  exfalso
                  have hlen := under_length hu
                  rw [List.length_dropLast] at hlen
                  have hl0 : lpe.length ≠ 0 := fun h0 => hlpene (List.length_eq_zero.mp h0)
                  omega
              cases hmv : shutilMove fsB (cwd0 ++ [pyBasename dpath]) lpe with
              | error e =>
                rw [hmv] at hrun
                cases hrun
              | ok fsC =>
                simp only [hmv] at hrun
                have hfsC : fs1 = fsC := by
                  have h2 : (Except.ok fsC : Except (PyErr × LocalFS) LocalFS) = .ok fs1 :=
                    hrun
                  simpa using h2.symm
                subst hfsC
                obtain ⟨hinvC, hcwdC, hdstC, hframeC, hsrcgone⟩ :=
                  shutilMove_spec hinvB htempB hdstB hlpene hmv
                have hne_deep : ∀ (t : String) (r : List String), lpe ++ t :: r ≠ lpe := by
                  intro t r hc
                  have hlen := congrArg List.length hc
                  simp at hlen
                refine ⟨hinvC, by rw [hcwdC, hcwdB, hcwdA, hcwd], ?_, ?_⟩
                · intro q hq
                  by_cases hqlpe : q = lpe
                  · exact Or.inl (hqlpe ▸ under_refl lpe)
                  · by_cases hqtemp : q = cwd0 ++ [pyBasename dpath]
                    · refine Or.inr (Or.inr ⟨pyBasename dpath,
                        by rw [hcwd]; exact hqtemp, ?_, ?_⟩)
                      · rw [hqtemp]
                        exact hsrcgone (fun hc => hqlpe (hqtemp.trans hc))
                      · rw [hqtemp]
                        exact htempnd
                    · have hC : lookupFS fs1 q = lookupFS fsB q := hframeC q hqtemp hqlpe
                      have hA : lookupFS fsA q = lookupFS fs q := hframeA q hqtemp
                      by_cases hch : lookupFS fsB q = lookupFS fsA q
                      · rw [hC, hch, hA] at hq
                        exact absurd rfl hq
                      · obtain ⟨hu, hn, hd⟩ := hframeB q hch
                        refine Or.inr (Or.inl ⟨under_dropLast hlpene hu, hqlpe, ?_, ?_⟩)
                        · rw [← hA]
                          exact hn
                        · rw [hC]
                          exact hd
                · intro rel
                  cases rel with
                  | nil =>
                    have h2 : remoteAsFS (some X) = lookupFS fs0 (base ++ []) := (hm []).1
                    rw [show remoteAsFS (some X) = some (FSNode.file X.content) by
                      simp [remoteAsFS, hXfile]] at h2
                    simp only [List.append_nil] at h2 ⊢
                    rw [hdstC, ← h2]
                  | cons t r =>
                    have hfs_none : lookupFS fs (lpe ++ t :: r) = none :=
                      fsInv_none_extend hinv hlpe hlpene _ (by simp)
                    have hRHS : lookupFS fs0 (base ++ t :: r) = none := by
                      have h2 := (hm (t :: r)).1
                      rw [remoteNodeAt_not_dir hXfile] at h2
                      exact h2.symm
                    rw [hRHS]
                    by_cases hqtemp : lpe ++ t :: r = cwd0 ++ [pyBasename dpath]
                    · rw [hqtemp]
                      exact hsrcgone (fun hc => hne_deep t r (hqtemp.trans hc))
                    · have hC : lookupFS fs1 (lpe ++ t :: r) = lookupFS fsB (lpe ++ t :: r) :=
                        hframeC _ hqtemp (hne_deep t r)
                      have hA : lookupFS fsA (lpe ++ t :: r) = lookupFS fs (lpe ++ t :: r) :=
                        hframeA _ hqtemp
                      by_cases hch : lookupFS fsB (lpe ++ t :: r) =
                          lookupFS fsA (lpe ++ t :: r)
                      · rw [hC, hch, hA, hfs_none]
                      · obtain ⟨hu, _, _⟩ := hframeB _ hch
                        exfalso
                        have hlen := under_length hu
                        rw [List.length_dropLast] at hlen
                        simp at hlen
                        omega
    · -- the `.many` case
      intro dpath lp objs segsd X base procdN htask hpf hsegs hresE hXdir hm hsuffix
        hlpdir hnu hdinv
      subst htask
      obtain ⟨tlr, hres⟩ := hresE
      obtain ⟨procdC, hsufC, hsufN⟩ := hsuffix
      have hnamesall : (listFile s (some X.id) none).map (fun o => o.title) =
          osListdir fs0 base := by
        have h0 := (hm []).2 X rfl hXdir
        simpa using h0
      have hlpne : lp ≠ [] := fsInv_lookup_ne_nil hinv (by rw [hlpdir]; simp)
      cases objs with
      | nil =>
        have hfs1 : fs1 = fs := by
          have h2 : (Except.ok fs : Except (PyErr × LocalFS) LocalFS) = .ok fs1 := hrun
          simpa using h2.symm
        subst hfs1
        refine ⟨hinv, hcwd, fun q hq => absurd rfl hq, by simpa using hdinv⟩
      | cons o rest =>
        rw [downloadGo] at hrun
        simp only [ite_self] at hrun
        cases hone : downloadGo s fuel fs
            (.one (dpath ++ "/" ++ o.title) (lp ++ [o.title]) false) with
        | error e =>
          rw [hone] at hrun
          cases hrun
        | ok fsA =>
          simp only [hone] at hrun
          have homem : o ∈ listFile s (some X.id) none := by
            rw [hsufC]
            simp
          have hotitle_mem : o.title ∈ osListdir fs0 base := by
            rw [← hnamesall]
            exact List.mem_map.mpr ⟨o, homem, rfl⟩
          have hogood : goodName o.title := osListdir_names_good hwfl0 base _ hotitle_mem
          have hosingle : listFile s (some X.id) (some o.title) = [o] := by
            rw [listFile_title_filter]
            exact filter_title_single hnamesall
              (hnamesall ▸ osListdir_nodup hfsinv0 base) homem
          have hcres : getDriveObject s (dpath ++ "/" ++ o.title) = [o] := by
            rw [resolve_snoc_head hpf hres hogood.1 hogood.2]
            exact hosingle
          have hcm : MirrorSubtree s o fs0 (base ++ [o.title]) :=
            mirror_child hm hXdir hosingle
          have hpf2 : PathFacts (dpath ++ "/" ++ o.title) (segsd ++ [o.title]) :=
            pathFacts_step _ _ _ hpf hogood.1 hogood.2
          have hsegs2 : ∀ x ∈ segsd ++ [o.title], x ≠ "" ∧ '/' ∉ x.data := by
            intro x hx
            rcases List.mem_append.mp hx with h | h
            · exact hsegs x h
            · simp at h
              subst h
              exact ⟨hogood.1, hogood.2⟩
          have hchild_ne : lp ++ [o.title] ≠ ["."] := by
            cases lp with
            | nil => exact absurd rfl hlpne
            | cons a l =>
              intro hc
              simp at hc
          obtain ⟨hinvA, hcwdA, hdeltaA0, hP1A0⟩ :=
            (ih (.one (dpath ++ "/" ++ o.title) (lp ++ [o.title]) false) fs fsA hone
              hinv hcwd).1 (dpath ++ "/" ++ o.title) (lp ++ [o.title]) false
              (segsd ++ [o.title]) o (base ++ [o.title]) rfl hpf2 hsegs2 ⟨[], hcres⟩ hcm
          rw [if_neg hchild_ne] at hdeltaA0 hP1A0
          have hlpA : lookupFS fsA lp = some .dir := by
            by_cases hch : lookupFS fsA lp = lookupFS fs lp
            · rw [hch]
              exact hlpdir
            · rcases hdeltaA0 lp hch with hu | ⟨hu, hne, hn, hd⟩ | ⟨n, hqn, h1n, hnd⟩
              · exfalso
                have hlen := under_length hu
                simp at hlen
              · rw [hlpdir] at hn
                simp at hn
              · exact absurd hlpdir hnd
          have hdinvA : DownInv fsA fs0 lp base (procdN ++ [o.title]) := by
            intro rel
            cases rel with
            | nil => simpa using hlpA
            | cons t r =>
              show lookupFS fsA (lp ++ t :: r) =
                if t ∈ procdN ++ [o.title] then lookupFS fs0 (base ++ t :: r) else none
              by_cases hto : t = o.title
              · subst hto
                rw [if_pos (by simp)]
                have h0 := hP1A0 r
                have e1 : (lp ++ [o.title]) ++ r = lp ++ o.title :: r := by simp
                have e2 : (base ++ [o.title]) ++ r = base ++ o.title :: r := by simp
                rw [e1, e2] at h0
                exact h0
              · have hold : lookupFS fs (lp ++ t :: r) =
                    if t ∈ procdN then lookupFS fs0 (base ++ t :: r) else none :=
                  hdinv (t :: r)
                have hpres : lookupFS fsA (lp ++ t :: r) = lookupFS fs (lp ++ t :: r) := by
                  by_cases hch : lookupFS fsA (lp ++ t :: r) = lookupFS fs (lp ++ t :: r)
                  · exact hch
                  · exfalso
                    rcases hdeltaA0 _ hch with hu | ⟨hu, hne, hn, hd⟩ | ⟨n, hqn, h1n, hnd⟩
                    · exact hto (under_append_cancel hu).symm
                    · rcases under_snoc_cases hu with hu2 | hu2
                      · have hlen := under_length hu2
                        simp at hlen
                      · have : t = o.title := by
                          have h2 : lp ++ t :: r = lp ++ [o.title] := hu2
                          have h3 : t :: r = [o.title] := List.append_cancel_left h2
                          simp at h3
                          exact h3.1
                        exact hto this
                    · rw [hcwd] at hqn
                      have hq2 : lp ++ [t] ++ r = cwd0 ++ [n] := by
                        rw [List.append_assoc]
                        exact hqn
                      exact temp_not_deep hq2 hnu
                rw [hpres, hold]
                by_cases htp : t ∈ procdN
                · rw [if_pos htp, if_pos (by simp [htp])]
                · rw [if_neg htp, if_neg (by simp [htp, hto])]
          obtain ⟨hinv1, hcwd1, hmdelta, hdinv1⟩ :=
            (ih (.many dpath lp rest) fsA fs1 hrun hinvA hcwdA).2 dpath lp rest
              segsd X base (procdN ++ [o.title]) rfl hpf hsegs ⟨tlr, hres⟩ hXdir hm
              ⟨procdC ++ [o], by rw [hsufC]; simp, by rw [List.map_append, hsufN]; rfl⟩
              hlpA hnu hdinvA
          refine ⟨hinv1, hcwd1, ?_, ?_⟩
          · intro q hq
            by_cases hmid : lookupFS fs1 q = lookupFS fsA q
            · rw [hmid] at hq
              rcases hdeltaA0 q hq with hu | ⟨hu, hne, hn, hd⟩ | ⟨n, hqn, h1n, hnd⟩
              · refine Or.inl ⟨under_widen hu, ?_⟩
                intro hc
                subst hc
                have hlen := under_length hu
                simp at hlen
              · rcases under_snoc_cases hu with hu2 | hu2
                · exfalso
                  obtain ⟨r', hr'⟩ := hu2
                  by_cases hqnil : q = []
                  · subst hqnil
                    rw [fsInv_lookup_nil hinvA] at hd
                    simp at hd
                  · by_cases hqlp : q = lp
                    · rw [hqlp, hlpdir] at hn
                      simp at hn
                    · have hr'ne : r' ≠ [] := by
                        intro hc
                        rw [hc, List.append_nil] at hr'
                        exact hqlp hr'.symm
                      have hdir := fsInv_ancestor_dir hinv r' q
                        (by rw [← hr', hlpdir]; simp) hqnil hr'ne
                      rw [hdir] at hn
                      simp at hn
                · subst hu2
                  refine Or.inl ⟨under_append lp [o.title], ?_⟩
                  intro hc
                  have hlen := congrArg List.length hc
                  simp at hlen
              · refine Or.inr ⟨n, by rw [hcwd] at hqn; exact hqn,
                  by rw [hmid]; exact h1n, hnd⟩
            · rcases hmdelta q hmid with ⟨hu, hne⟩ | ⟨n, hqn, h1n, hAnd⟩
              · exact Or.inl ⟨hu, hne⟩
              · refine Or.inr ⟨n, hqn, h1n, ?_⟩
                by_cases hch : lookupFS fsA q = lookupFS fs q
                · rw [← hch]
                  exact hAnd
                · rcases hdeltaA0 q hch with hu | ⟨hu, hqne, hn, hd⟩ | ⟨n2, hqn2, h1n2, hnd2⟩
                  · exfalso
                    obtain ⟨rr, hrr⟩ := hu
                    exact temp_not_deep (hrr.symm.trans hqn) hnu
                  · rw [hn]
                    simp
                  · exact hnd2
          · intro rel
            have h1 := hdinv1 rel
            cases rel with
            | nil => exact h1
            | cons t r =>
              show lookupFS fs1 (lp ++ t :: r) =
                if t ∈ procdN ++ (o :: rest).map (fun o => o.title) then
                  lookupFS fs0 (base ++ t :: r)
                else none
              have h1' : lookupFS fs1 (lp ++ t :: r) =
                  if t ∈ (procdN ++ [o.title]) ++ rest.map (fun o => o.title) then
                    lookupFS fs0 (base ++ t :: r)
                  else none := h1
              have e : (procdN ++ [o.title]) ++ rest.map (fun o => o.title) =
                  procdN ++ (o :: rest).map (fun o => o.title) := by simp
              rw [e] at h1'
              exact h1'

/-- C1: an upload of a local directory tree to a destination path made of
nonempty slash-free segments that does not yet resolve, followed by a
download of that remote path into a fresh local destination, reproduces the
source tree pointwise under the destination — whatever already exists along
the destination's prefix. -/
theorem upload_download_roundtrip
    {fs0 : LocalFS} (hwfl : WFLocal fs0) {s0 : DriveState} (hwf : WFState s0)
    {L : List String} {P : String} {n0 : String} {nrest : List String}
    {T2 : List String} {fuel1 fuel2 : Nat} {s1 : DriveState} {fs2 : LocalFS}
    (hpf : PathFacts P (n0 :: nrest))
    (hgood : ∀ x ∈ n0 :: nrest, x ≠ "" ∧ '/' ∉ x.data)
    (hLdir : osIsDir fs0 L = true)
    (hup : uploadObjectsToDrive fs0 fuel1 s0 L P true = .ok s1)
    (hdown : downloadDriveObjects s1 fuel2 fs0 P T2 true = .ok fs2) :
    ∀ rel, lookupFS fs2
        ((if T2 = ["."] then fs0.cwd ++ [pyBasename P] else T2) ++ rel) =
      lookupFS fs0 (L ++ rel) := by
  rcases upload_top hwfl hwf hpf hgood hLdir hup with
    hnil | ⟨Ftop, tl, hres, hFdir, hmir⟩
  · -- the degenerate upload leaves the path unresolvable, so the download
    -- cannot have succeeded
    exfalso
    cases fuel2 with
    | zero => exact absurd hdown (by simp [downloadDriveObjects, downloadGo])
    | succ fuel2 =>
      unfold downloadDriveObjects at hdown
      rw [downloadGo] at hdown
      have hpe1 : pathExistInDrive s1 P = false := by
        rw [pathExistInDrive, hnil]
        rfl
      simp only [hpe1] at hdown
      by_cases hoe : osExists fs0
          (if T2 = ["."] then fs0.cwd ++ [pyBasename P] else T2) = true
      · rw [if_pos hoe] at hdown
        cases hdown
      · rw [if_neg hoe, if_pos (by simp)] at hdown
        cases hdown
  · have h := (downloadGo_spec s1 fs0 hwfl fs0.cwd fuel2 (.one P T2 true) fs0 fs2
      hdown (wfLocal_fsInv hwfl) rfl).1 P T2 true (n0 :: nrest) Ftop L rfl hpf hgood
      ⟨tl, hres⟩ hmir
    exact h.2.2.2

/-- C1 witness: the round-trip at a concrete run whose destination descends
through an already existing remote folder — uploading the local tree
`home/aa` (file `f1`, subdirectory `sub` with file `f2`) to `/a/b` of the
drive `stA` that already holds the root folder `a`, then downloading `/a/b`
to `out`, reproduces the source subtree pointwise under `out`. -/
theorem upload_download_roundtrip_witness :
    osIsDir fsAA ["home", "aa"] = true ∧
    pathExistInDrive stA "/a" = true ∧
    lookupFS fs2W (["out"] ++ ["sub", "f2"]) =
      lookupFS fsAA (["home", "aa"] ++ ["sub", "f2"]) := by
  refine ⟨by decide, by decide, ?_⟩
  have h := upload_download_roundtrip
    (show WFLocal fsAA by decide) (show WFState stA by decide)
    (show PathFacts "/a/b" ["a", "b"] from ⟨by decide, by decide⟩)
    (show ∀ x ∈ ["a", "b"], x ≠ "" ∧ '/' ∉ x.data by decide)
    (show osIsDir fsAA ["home", "aa"] = true by decide)
    (show uploadObjectsToDrive fsAA 20 stA ["home", "aa"] "/a/b" true =
      .ok s1W by decide)
    (show downloadDriveObjects s1W 20 fsAA "/a/b" ["out"] true = .ok fs2W by decide)
    ["sub", "f2"]
  simpa using h

/-- C1 counterexample: with the trailing-slash destination `"/a/"` — a path
for which `exists(P)` is false on the empty drive — both the upload and the
download run to completion without error, yet the downloaded tree is
missing the file `f1`: the round-trip does not reproduce the source tree. -/
theorem upload_download_roundtrip_counterexample :
    osIsDir fsAA ["home", "aa"] = true ∧
    pathExistInDrive stEmpty "/a/" = false ∧
    uploadObjectsToDrive fsAA 20 stEmpty ["home", "aa"] "/a/" true = .ok sCX ∧
    downloadDriveObjects sCX 20 fsAA "/a/" ["out"] true = .ok fsCX ∧
    lookupFS fsCX (["out"] ++ ["f1"]) = none ∧
    lookupFS fsAA (["home", "aa"] ++ ["f1"]) = some (.file [1, 2]) := by
  decide

end PyDrive
